import Mathlib

/-!
# Streamline tracking on a voxel grid (`src/ptaylor/DoTrackit.c`)

A shallow embedding of `TrackIt` and `TrackItP`, and properties of the walk they
perform; with them the helpers of the same file, `ViveLeRoi`, `CheckNotMask` and
`ScoreTrackGrid`.

Modelling conventions
* C `float` values are exact rationals (`ℚ`); the literals `0.999`, `0.4143`,
  `0.5` are the decimal fractions written in the source.  Division is the total
  division of `ℚ`; the divisor `divid` is nonzero whenever `EPS_V > 0` and `FB ≠ 0`.
  A second embedding of `TrackIt`, `TrackItF`, rounds every arithmetic result as
  binary32 and binary64 arithmetic do; it is used where rounding decides a property.
* C `int` values are `Int`; the step counter `tracL`, which starts at `0` and is
  only ever incremented, is a `Nat`.
* Arrays are total functions from indices to values; a write is
  `Function.update`.  The output arrays `T` and `flT` are passed in with their
  previous contents, as in C.
* `exit(101)` is the result `none`.
* `EPS_V` is a macro of `DoTrackit.h`, which is not part of the sources at hand;
  it is a parameter of every definition that uses it.
* The `while` loops are unfolded by a fuel argument; `TrackIt` and `TrackItP` supply
  `arrMax.toNat`, which is always enough: the loop condition is false in the state
  the unfolding ends in (`walkT_cond_false`, `walkP_cond_false`).
* The statements of the two functions that differ only in the field lookup
  (`CC[IND[0]][IND[1]][IND[2]][n]` against `CC[tt][n]`) are shared: `vsign`, `stest`,
  `goWin` and the `Walk.next*` functions take the looked-up vector `d`.
-/

namespace DoTrackit

/-- Dense field `float ****CC`: `CC x y z n`, components `0..2` direction, `3` scalar. -/
abbrev Field := Int → Int → Int → Nat → ℚ

/-- Compacted field `float **CC` of `TrackItP`: `CC row n`. -/
abbrev FieldP := Int → Nat → ℚ

/-- Index grid `int ***ID2` of `TrackItP`. -/
abbrev IndexGrid := Int → Int → Int → Int

/-- Constant `FF = 0.4143` of the source. -/
def FF : ℚ := 4143 / 10000

/-- Lower corridor margin `AA = 0.5*(1.0-FF)`. -/
def AA : ℚ := (1 / 2) * (1 - FF)

/-- Upper corridor margin `BB = 0.5*(1.0+FF)`. -/
def BB : ℚ := (1 / 2) * (1 + FF)

/-- Travel sign per axis: `+1` when `d[n]*FB >= 0`, else `-1` (lines 188-195). -/
def vsign (d : Nat → ℚ) (FB : Int) (n : Fin 3) : Int :=
  if d n * (FB : ℚ) ≥ 0 then 1 else -1

/-- Target wall per axis (lines 188-195). -/
def targedge (d : Nat → ℚ) (FB : Int) (IND : Fin 3 → Int) (Edge : Fin 3 → ℚ)
    (n : Fin 3) : ℚ :=
  if d n * (FB : ℚ) ≥ 0 then ((IND n + 1 : Int) : ℚ) * Edge n else (IND n : ℚ) * Edge n

/-- Divisor of the parametric distance (lines 201-204). -/
def divid (EPS_V : ℚ) (d : Nat → ℚ) (FB : Int) (n : Fin 3) : ℚ :=
  if |d n| < EPS_V then EPS_V * (vsign d FB n : ℚ) else (FB : ℚ) * d n

/-- Parametric distance to the target wall (line 205). -/
def stest (EPS_V : ℚ) (d : Nat → ℚ) (FB : Int) (IND : Fin 3 → Int) (Iam0 Edge : Fin 3 → ℚ)
    (n : Fin 3) : ℚ :=
  (targedge d FB IND Edge n - Iam0 n) / divid EPS_V d FB n

/-- Flag `walkback`: some parametric distance is negative (lines 207-213). -/
def walkback (st : Fin 3 → ℚ) : Bool :=
  decide (st 0 < 0) || decide (st 1 < 0) || decide (st 2 < 0)

/-- The three-comparison cascade producing `ord` (lines 217-233). -/
def ordCascade (st : Fin 3 → ℚ) : Fin 3 → Fin 3 :=
  let o0 : Fin 3 → Fin 3 := ![0, 1, 2]
  let o1 : Fin 3 → Fin 3 := if st (o0 1) < st (o0 0) then ![1, 0, o0 2] else o0
  let o2 : Fin 3 → Fin 3 := if st (o1 2) < st (o1 0) then ![o1 2, o1 1, o1 0] else o1
  if st (o2 2) < st (o2 1) then ![o2 0, o2 2, o2 1] else o2

/-- Corridor test towards leaving through axis `a` travelling `v`:
`(v>0 && t > Edge*BB) || (v<0 && t < Edge*AA)` (lines 243-244, 260-261). -/
def leavesCorridor (v : Int) (t e : ℚ) : Bool :=
  (decide (v > 0) && decide (t > e * BB)) || (decide (v < 0) && decide (t < e * AA))

/-- Corridor test on an axis already stepped:
`(v>0 && t < Edge*AA) || (v<0 && t > Edge*BB)` (lines 250-251, 270-273). -/
def entersCorridor (v : Int) (t e : ℚ) : Bool :=
  (decide (v > 0) && decide (t < e * AA)) || (decide (v < 0) && decide (t > e * BB))

/-- Index step `go` and advancing axis `win` of a non-walkback iteration (lines 235-279). -/
def goWin (d : Nat → ℚ) (FB : Int) (IND : Fin 3 → Int) (Iam0 Edge : Fin 3 → ℚ)
    (vs : Fin 3 → Int) (st : Fin 3 → ℚ) (ord : Fin 3 → Fin 3) : (Fin 3 → Int) × Fin 3 :=
  let go0 : Fin 3 → Int := Function.update (fun _ => 0) (ord 0) (vs (ord 0))
  let t1 : ℚ := Iam0 (ord 1) + st (ord 0) * (FB : ℚ) * d (ord 1)
    - (IND (ord 1) : ℚ) * Edge (ord 1)
  if leavesCorridor (vs (ord 1)) t1 (Edge (ord 1)) then
    let t0 : ℚ := Iam0 (ord 0) + st (ord 1) * (FB : ℚ) * d (ord 0)
      - ((IND (ord 0) + go0 (ord 0) : Int) : ℚ) * Edge (ord 0)
    if entersCorridor (vs (ord 0)) t0 (Edge (ord 0)) then
      let go1 : Fin 3 → Int := Function.update go0 (ord 1) (vs (ord 1))
      let t2 : ℚ := Iam0 (ord 2) + st (ord 0) * (FB : ℚ) * d (ord 2)
        - (IND (ord 2) : ℚ) * Edge (ord 2)
      if leavesCorridor (vs (ord 2)) t2 (Edge (ord 2)) then
        let u0 : ℚ := Iam0 (ord 0) + st (ord 2) * (FB : ℚ) * d (ord 0)
          - ((IND (ord 0) + go1 (ord 0) : Int) : ℚ) * Edge (ord 0)
        let u1 : ℚ := Iam0 (ord 1) + st (ord 2) * (FB : ℚ) * d (ord 1)
          - ((IND (ord 1) + go1 (ord 1) : Int) : ℚ) * Edge (ord 1)
        if entersCorridor (vs (ord 0)) u0 (Edge (ord 0)) then
          if entersCorridor (vs (ord 1)) u1 (Edge (ord 1)) then
            (Function.update go1 (ord 2) (vs (ord 2)), ord 2)
          else (go1, ord 1)
        else (go1, ord 1)
      else (go1, ord 1)
    else (go0, ord 0)
  else (go0, ord 0)

/-- Grid test of lines 293-294. -/
def inGrid (dim IND : Fin 3 → Int) : Bool :=
  decide (IND 0 < dim 0) && decide (IND 1 < dim 1) && decide (IND 2 < dim 2) &&
    decide (IND 0 ≥ 0) && decide (IND 1 ≥ 0) && decide (IND 2 ≥ 0)

/-- Accumulated dot product of lines 298-301: `0 + a0*FB*b0 + a1*FB*b1 + a2*FB*b2`. -/
def dotRaw (a b : Nat → ℚ) (FB : Int) : ℚ :=
  0 + a 0 * (FB : ℚ) * b 0 + a 1 * (FB : ℚ) * b 1 + a 2 * (FB : ℚ) * b 2

/-- Revisit loop of lines 314-316: `dotprod` becomes `0` when `IND` equals a recorded row. -/
def revisit (T : Nat → Fin 3 → Int) (tracL : Nat) (IND : Fin 3 → Int) (dotprod : ℚ) : ℚ :=
  (List.range tracL).foldl
    (fun dp n => if IND 0 = T n 0 ∧ IND 1 = T n 1 ∧ IND 2 = T n 2 then 0 else dp) dotprod

/-- Local variables of `TrackIt` that live across loop iterations, with the
caller-visible arrays `IND`, `T`, `flT`. -/
structure Walk where
  tracL : Nat
  Iam0 : Fin 3 → ℚ
  IND : Fin 3 → Int
  FB : Int
  dotprod : ℚ
  physdist : ℚ
  T : Nat → Fin 3 → Int
  flT : Nat → Fin 3 → ℚ

/-- State on entry to the `while` loop (lines 137-165). -/
def initWalk (IND : Fin 3 → Int) (PHYSIND : Fin 3 → ℚ) (T : Nat → Fin 3 → Int)
    (flT : Nat → Fin 3 → ℚ) (FB : Int) : Walk :=
  { tracL := 0, Iam0 := fun n => PHYSIND n, IND := IND, FB := FB, dotprod := 999 / 1000,
    physdist := 0, T := T, flT := flT }

/-- Lookup `CC[IND[0]][IND[1]][IND[2]]`. -/
def Field.at (CC : Field) (IND : Fin 3 → Int) : Nat → ℚ := CC (IND 0) (IND 1) (IND 2)

/-- The distances `stest` of an iteration whose local direction is `d`. -/
def Walk.stest (EPS_V : ℚ) (d : Nat → ℚ) (Edge : Fin 3 → ℚ) (s : Walk) : Fin 3 → ℚ :=
  DoTrackit.stest EPS_V d s.FB s.IND s.Iam0 Edge

/-- The pair `(go, win)` of a non-walkback iteration whose local direction is `d`. -/
def Walk.goWin (EPS_V : ℚ) (d : Nat → ℚ) (Edge : Fin 3 → ℚ) (s : Walk) :
    (Fin 3 → Int) × Fin 3 :=
  DoTrackit.goWin d s.FB s.IND s.Iam0 Edge (vsign d s.FB) (s.stest EPS_V d Edge)
    (ordCascade (s.stest EPS_V d Edge))

/-- Index `IND[n] + go[n]` after line 286, before the grid test. -/
def Walk.nextIND (EPS_V : ℚ) (d : Nat → ℚ) (Edge : Fin 3 → ℚ) (s : Walk) : Fin 3 → Int :=
  fun n => s.IND n + (s.goWin EPS_V d Edge).1 n

/-- Position `Iam0[n] + stest[win]*FB*d[n]` after line 284. -/
def Walk.nextIam0 (EPS_V : ℚ) (d : Nat → ℚ) (Edge : Fin 3 → ℚ) (s : Walk) : Fin 3 → ℚ :=
  fun n => s.Iam0 n + s.stest EPS_V d Edge (s.goWin EPS_V d Edge).2 * (s.FB : ℚ) * d n

/-- Length `physdist + stest[win]` after line 288. -/
def Walk.nextPhysdist (EPS_V : ℚ) (d : Nat → ℚ) (Edge : Fin 3 → ℚ) (s : Walk) : ℚ :=
  s.physdist + s.stest EPS_V d Edge (s.goWin EPS_V d Edge).2

/-- The recording of lines 178-182: `T[tracL] = IND`, `flT[tracL] = Iam0`, `tracL += 1`. -/
def Walk.record (s : Walk) : Walk :=
  { s with tracL := s.tracL + 1, T := Function.update s.T s.tracL s.IND,
           flT := Function.update s.flT s.tracL s.Iam0 }

/-- Loop condition of `TrackIt` (lines 173-174). -/
def condT (CC : Field) (minFA maxAng : ℚ) (arrMax : Int) (s : Walk) : Bool :=
  decide ((s.tracL : Int) < arrMax) && decide (CC.at s.IND 3 ≥ minFA) &&
    decide (s.dotprod ≥ maxAng)

/-- One iteration of the `while` loop of `TrackIt` (lines 176-329). -/
def bodyT (EPS_V : ℚ) (CC : Field) (Edge : Fin 3 → ℚ) (dim : Fin 3 → Int) (s : Walk) : Walk :=
  let r := s.record
  let d := CC.at s.IND
  if walkback (s.stest EPS_V d Edge) then
    { r with dotprod := 0 }
  else
    let go := (s.goWin EPS_V d Edge).1
    let IND1 := s.nextIND EPS_V d Edge
    if inGrid dim IND1 then
      let raw := dotRaw (CC.at IND1) (CC.at (fun n => IND1 n - go n)) s.FB
      let dp := if raw < 0 then raw * (-1) else raw
      let FB1 : Int := if raw < 0 then -1 else 1
      { r with Iam0 := s.nextIam0 EPS_V d Edge, IND := IND1, FB := FB1,
               dotprod := revisit r.T r.tracL IND1 dp,
               physdist := s.nextPhysdist EPS_V d Edge }
    else
      { r with Iam0 := s.nextIam0 EPS_V d Edge, IND := fun _ => 0, dotprod := 0,
               physdist := s.nextPhysdist EPS_V d Edge }

/-- The `while` loop of `TrackIt`, unfolded at most `fuel` times. -/
def loopT (EPS_V : ℚ) (CC : Field) (Edge : Fin 3 → ℚ) (dim : Fin 3 → Int)
    (minFA maxAng : ℚ) (arrMax : Int) : Nat → Walk → Walk
  | 0, s => s
  | fuel + 1, s =>
    if condT CC minFA maxAng arrMax s then
      loopT EPS_V CC Edge dim minFA maxAng arrMax fuel (bodyT EPS_V CC Edge dim s)
    else s

/-- What a returning call leaves behind: return value `tracL`, and the final
contents of `IND`, `T`, `flT` and `physL[0]`. -/
structure TrackResult where
  tracL : Nat
  IND : Fin 3 → Int
  T : Nat → Fin 3 → Int
  flT : Nat → Fin 3 → ℚ
  physL : ℚ

/-- Epilogue of `TrackIt` (lines 332-339): `exit(101)` when `tracL >= arrMax`. -/
def finish (arrMax : Int) (s : Walk) : Option TrackResult :=
  if (s.tracL : Int) ≥ arrMax then none
  else some { tracL := s.tracL, IND := s.IND, T := s.T, flT := s.flT, physL := s.physdist }

/-- State of `TrackIt` when its `while` loop is left. -/
def walkT (EPS_V : ℚ) (CC : Field) (IND : Fin 3 → Int) (PHYSIND Edge : Fin 3 → ℚ)
    (dim : Fin 3 → Int) (minFA maxAng : ℚ) (arrMax : Int) (T : Nat → Fin 3 → Int)
    (flT : Nat → Fin 3 → ℚ) (FB : Int) : Walk :=
  loopT EPS_V CC Edge dim minFA maxAng arrMax arrMax.toNat (initWalk IND PHYSIND T flT FB)

/-- Function `TrackIt` (lines 132-340). -/
def TrackIt (EPS_V : ℚ) (CC : Field) (IND : Fin 3 → Int) (PHYSIND Edge : Fin 3 → ℚ)
    (dim : Fin 3 → Int) (minFA maxAng : ℚ) (arrMax : Int) (T : Nat → Fin 3 → Int)
    (flT : Nat → Fin 3 → ℚ) (FB : Int) : Option TrackResult :=
  finish arrMax (walkT EPS_V CC IND PHYSIND Edge dim minFA maxAng arrMax T flT FB)

/-- Loop state of `TrackItP`: the variables of `TrackIt` and the row index `tt`. -/
structure WalkP extends Walk where
  tt : Int

/-- Lookup `ID2[IND[0]][IND[1]][IND[2]]`. -/
def IndexGrid.at (ID2 : IndexGrid) (IND : Fin 3 → Int) : Int := ID2 (IND 0) (IND 1) (IND 2)

/-- Loop condition of `TrackItP` (lines 388-389). -/
def condP (CC : FieldP) (minFA maxAng : ℚ) (arrMax : Int) (s : WalkP) : Bool :=
  decide ((s.tracL : Int) < arrMax) && decide (CC s.tt 3 ≥ minFA) &&
    decide (s.dotprod ≥ maxAng)

/-- One iteration of the `while` loop of `TrackItP` (lines 391-544). -/
def bodyP (EPS_V : ℚ) (CC : FieldP) (ID2 : IndexGrid) (Edge : Fin 3 → ℚ) (dim : Fin 3 → Int)
    (s : WalkP) : WalkP :=
  let r := s.toWalk.record
  let d := CC s.tt
  if walkback (s.toWalk.stest EPS_V d Edge) then
    { toWalk := { r with dotprod := 0 }, tt := s.tt }
  else
    let go := (s.toWalk.goWin EPS_V d Edge).1
    let IND1 := s.toWalk.nextIND EPS_V d Edge
    if inGrid dim IND1 then
      let tt1 := ID2.at IND1
      let raw := dotRaw (CC tt1) (CC (ID2.at (fun n => IND1 n - go n))) s.FB
      let dp := if raw < 0 then raw * (-1) else raw
      let FB1 : Int := if raw < 0 then -1 else 1
      { toWalk := { r with Iam0 := s.toWalk.nextIam0 EPS_V d Edge, IND := IND1, FB := FB1,
                           dotprod := revisit r.T r.tracL IND1 dp,
                           physdist := s.toWalk.nextPhysdist EPS_V d Edge },
        tt := tt1 }
    else
      { toWalk := { r with Iam0 := s.toWalk.nextIam0 EPS_V d Edge, IND := fun _ => 0,
                           dotprod := 0, physdist := s.toWalk.nextPhysdist EPS_V d Edge },
        tt := s.tt }

/-- The `while` loop of `TrackItP`, unfolded at most `fuel` times. -/
def loopP (EPS_V : ℚ) (CC : FieldP) (ID2 : IndexGrid) (Edge : Fin 3 → ℚ) (dim : Fin 3 → Int)
    (minFA maxAng : ℚ) (arrMax : Int) : Nat → WalkP → WalkP
  | 0, s => s
  | fuel + 1, s =>
    if condP CC minFA maxAng arrMax s then
      loopP EPS_V CC ID2 Edge dim minFA maxAng arrMax fuel (bodyP EPS_V CC ID2 Edge dim s)
    else s

/-- State of `TrackItP` when its `while` loop is left (line 378 initialises `tt`). -/
def walkP (EPS_V : ℚ) (CC : FieldP) (IND : Fin 3 → Int) (PHYSIND Edge : Fin 3 → ℚ)
    (dim : Fin 3 → Int) (minFA maxAng : ℚ) (arrMax : Int) (T : Nat → Fin 3 → Int)
    (flT : Nat → Fin 3 → ℚ) (FB : Int) (ID2 : IndexGrid) : WalkP :=
  loopP EPS_V CC ID2 Edge dim minFA maxAng arrMax arrMax.toNat
    { toWalk := initWalk IND PHYSIND T flT FB, tt := ID2.at IND }

/-- Function `TrackItP` (lines 346-555). -/
def TrackItP (EPS_V : ℚ) (CC : FieldP) (IND : Fin 3 → Int) (PHYSIND Edge : Fin 3 → ℚ)
    (dim : Fin 3 → Int) (minFA maxAng : ℚ) (arrMax : Int) (T : Nat → Fin 3 → Int)
    (flT : Nat → Fin 3 → ℚ) (FB : Int) (ID2 : IndexGrid) : Option TrackResult :=
  finish arrMax (walkP EPS_V CC IND PHYSIND Edge dim minFA maxAng arrMax T flT FB ID2).toWalk

/-! ## Scenario data -/

/-- Scenario field: direction `(1,0,0)` and continuation scalar `1` at every voxel. -/
def uniformX : Field := fun _ _ _ n => if n = 0 then 1 else if n = 3 then 1 else 0

/-- Blank contents for the caller's array `T`. -/
def T0 : Nat → Fin 3 → Int := fun _ _ => 0

/-- Blank contents for the caller's array `flT`. -/
def flT0 : Nat → Fin 3 → ℚ := fun _ _ => 0

/-- Position recorded for step `k` of the uniform `+x` scenario: the seed position
`(1/2, 11/2, 11/2)`, then the wall `x = k`. -/
def uniformXPos (k : Nat) : Fin 3 → ℚ := ![if k = 0 then 1 / 2 else (k : ℚ), 11 / 2, 11 / 2]

/-- State of the uniform `+x` scenario at the loop check that follows `k` iterations
(`k <= 9`), for a caller's arrays `T`, `flT`. -/
def uniformXState (T : Nat → Fin 3 → Int) (flT : Nat → Fin 3 → ℚ) (k : Nat) (s : Walk) : Prop :=
  s.tracL = k ∧ s.IND = ![(k : Int), 5, 5] ∧ s.Iam0 = uniformXPos k ∧ s.FB = 1 ∧
    s.dotprod = (if k = 0 then 999 / 1000 else 1) ∧
    s.physdist = (if k = 0 then 0 else (k : ℚ) - 1 / 2) ∧
    (∀ i, i < k → s.T i = ![(i : Int), 5, 5] ∧ s.flT i = uniformXPos i) ∧
    (∀ i, k ≤ i → s.T i = T i ∧ s.flT i = flT i)

/-- Two-voxel scenario field: direction `(1,0,0)` in the voxels with `x = 0`,
`(-1,0,0)` in the others, continuation scalar `1` everywhere. -/
def mutualX : Field :=
  fun x _ _ n => if n = 0 then (if x = 0 then 1 else -1) else if n = 3 then 1 else 0

/-- Field of direction `(1,0,0)` whose continuation scalar is `0` in the voxels with
`x = 0` and `1` in the others. -/
def gatedX : Field :=
  fun x _ _ n => if n = 0 then 1 else if n = 3 then (if x = 0 then 0 else 1) else 0

/-- Compacted copy of `gatedX`: row `x` holds the values of the voxels with that `x`. -/
def gatedRows : FieldP := fun row n => gatedX row 0 0 n

/-- Index grid sending voxel `(x,y,z)` to row `x`. -/
def xIndex : IndexGrid := fun x _ _ => x

/-- Field `F` with the direction vector (components `0..2`) negated at the voxels
selected by `S`; component `3` is kept. -/
def flipDir (S : Int → Int → Int → Bool) (F : Field) : Field :=
  fun x y z n => if S x y z = true ∧ n < 3 then -F x y z n else F x y z n

/-- Sign by which `flipDir S` multiplies the direction at voxel `v`. -/
def flipSign (S : Int → Int → Int → Bool) (v : Fin 3 → Int) : Int :=
  if S (v 0) (v 1) (v 2) = true then -1 else 1

/-- Selection of the voxels with `x >= 5`. -/
def fromFive : Int → Int → Int → Bool := fun x _ _ => decide (5 ≤ x)

/-- Dot product of two direction vectors (components `0..2`). -/
def dot3 (a b : Nat → ℚ) : ℚ := a 0 * b 0 + a 1 * b 1 + a 2 * b 2

/-- Field of direction `(2,0,0)` and continuation scalar `1` at every voxel. -/
def doubleX : Field := fun _ _ _ n => if n = 0 then 2 else if n = 3 then 1 else 0

/-- Field `F` with every direction vector (components `0..2`) multiplied by `c`;
component `3` is kept. -/
def scaleDir (c : ℚ) (F : Field) : Field :=
  fun x y z n => if n < 3 then c * F x y z n else F x y z n

/-- Field of direction `(1, 1/4, 1/4)` and continuation scalar `1` at every voxel. -/
def slantX : Field := fun _ _ _ n => if n = 0 then 1 else if n = 3 then 1 else 1 / 4

/-! ## `ViveLeRoi` -/

/-- What `ViveLeRoi` reads of the dataset `REF`: `DSET_NVALS(REF)`, `DSET_NVOX(REF)` and
`THD_get_voxel(REF,i,m)` (here `voxel i m`).  These accessors belong to the AFNI
library, which is not part of the sources at hand. -/
structure RoiDataset where
  Nbrik : Nat
  Nvox : Nat
  voxel : Nat → Nat → ℚ

/-- C cast `(int) x` of a float: truncation toward zero. -/
def cInt (x : ℚ) : Int := if 0 ≤ x then ⌊x⌋ else ⌈x⌉

/-- Lines 39-42 for one sub-volume `m`, on its row of `ROILIST`: every voxel value
above `0.5` sets the entry at its integer part to `1`. -/
def markRow (REF : RoiDataset) (m : Nat) (row : Int → Int) : Int → Int :=
  (List.range REF.Nvox).foldl
    (fun r i => if REF.voxel i m > 1 / 2 then Function.update r (cInt (REF.voxel i m)) 1 else r)
    row

/-- First loop nest (lines 38-42): the marks of every sub-volume. -/
def markAll (REF : RoiDataset) (ROILIST : Nat → Int → Int) : Nat → Int → Int :=
  (List.range REF.Nbrik).foldl (fun R m => Function.update R m (markRow REF m (R m))) ROILIST

/-- Variables of the compaction loop of one sub-volume: its rows of `ROILIST` and
`INVLIST`, and the counter `j`. -/
structure Compact where
  roi : Int → Int
  inv : Int → Int
  j : Int

/-- Body of the compaction loop (lines 51-55) at index `i`. -/
def compactStep (c : Compact) (i : Int) : Compact :=
  if c.roi i = 1 then
    { roi := Function.update c.roi c.j i, inv := Function.update c.inv i c.j, j := c.j + 1 }
  else c

/-- Compaction loop (lines 49-56) run for `i = 1..n`; `ViveLeRoi` runs it with
`n = INVROI[m]`. -/
def compactRow (n : Nat) (roi inv : Int → Int) : Compact :=
  ((List.range n).map (fun k : Nat => (k : Int) + 1)).foldl compactStep
    { roi := roi, inv := inv, j := 1 }

/-- The arrays `ViveLeRoi` writes. -/
structure RoiLists where
  ROILIST : Nat → Int → Int
  INVLIST : Nat → Int → Int
  NUMROI : Nat → Int

/-- Body of the second loop (lines 48-63) for sub-volume `m`; `none` is `ERROR_exit`. -/
def roiBrik (INVROI : Nat → Int) (st : RoiLists) (m : Nat) : Option RoiLists :=
  let c := compactRow (INVROI m).toNat (st.ROILIST m) (st.INVLIST m)
  if INVROI m < c.j - 1 then none
  else
    some { ROILIST := Function.update st.ROILIST m c.roi,
           INVLIST := Function.update st.INVLIST m c.inv,
           NUMROI := Function.update st.NUMROI m (c.j - 1) }

/-- Function `ViveLeRoi` (lines 27-66); a returning call (`RETURN(1)`) is `some`. -/
def ViveLeRoi (REF : RoiDataset) (ROILIST INVLIST : Nat → Int → Int) (NUMROI INVROI : Nat → Int) :
    Option RoiLists :=
  (List.range REF.Nbrik).foldlM (roiBrik INVROI)
    { ROILIST := markAll REF ROILIST, INVLIST := INVLIST, NUMROI := NUMROI }

/-- A positive label `L` occurs in sub-volume `m`: some voxel has the value `L`. -/
def present (REF : RoiDataset) (m : Nat) (L : Int) : Prop :=
  0 < L ∧ ∃ i, i < REF.Nvox ∧ REF.voxel i m = (L : ℚ)

instance presentDecidable (REF : RoiDataset) (m : Nat) (L : Int) : Decidable (present REF m L) := by
  unfold present
  infer_instance

/-- The set of distinct positive labels that occur in sub-volume `m`. -/
def labelSet (REF : RoiDataset) (m : Nat) : Finset Int :=
  ((Finset.range REF.Nvox).image (fun i => cInt (REF.voxel i m))).filter
    (fun L => present REF m L)

/-- Voxel values of sub-volume `m` are integers in `0..INVROI[m]`. -/
def labelsInRange (REF : RoiDataset) (INVROI : Nat → Int) (m : Nat) : Prop :=
  ∀ i, i < REF.Nvox → ∃ L : Int, REF.voxel i m = (L : ℚ) ∧ 0 ≤ L ∧ L ≤ INVROI m

/-- Dataset of one sub-volume with the single voxel value `2`. -/
def oneLabelTwo : RoiDataset := { Nbrik := 1, Nvox := 1, voxel := fun _ _ => 2 }

/-- Dataset of one sub-volume with the two voxel values `1` and `2`. -/
def labelsOneTwo : RoiDataset :=
  { Nbrik := 1, Nvox := 2, voxel := fun i _ => if i = 0 then 1 else 2 }

/-- Blank contents for the caller's arrays `ROILIST` and `INVLIST`. -/
def zeroRows : Nat → Int → Int := fun _ _ => 0

/-! ## `CheckNotMask` and `ScoreTrackGrid` -/

/-- Function `CheckNotMask` (lines 73-85).  The mask `short **amask` is `amask id br`; a
C truth test `if(x)` is `x ≠ 0`. -/
def CheckNotMask (id br : Int) (amask : Int → Int → Int) (AO : Int) : Int :=
  let out : Int := 0
  if AO ≠ 0 then
    if amask id br ≠ 0 then 1 else out
  else
    if amask id 0 ≠ 0 then 1 else out

/-- Parameter grid `float ****PG`: `PG h C B k`. -/
abbrev ParamGrid := Int → Int → Int → Nat → ℚ

/-- The statement `PG[h][C][B][k] += v`. -/
def addSlot (PG : ParamGrid) (h C B : Int) (k : Nat) (v : ℚ) : ParamGrid :=
  Function.update PG h
    (Function.update (PG h) C
      (Function.update (PG h C) B (Function.update (PG h C B) k (PG h C B k + v))))

/-- Function `ScoreTrackGrid` (lines 92-120): the contents of `PG` after the call, which
always returns `1`.  `THD_get_voxel(D,idx,0)` is `D.voxel idx 0`; `pow(x,2)` is `x ^ 2`;
the casts to `float` are the identity of exact arithmetic. -/
def ScoreTrackGrid (PG : ParamGrid) (idx : Nat) (h C B : Int) (FA MD L1 : RoiDataset) :
    ParamGrid :=
  let p0 := addSlot PG h C B 0 (FA.voxel idx 0)
  let p1 := addSlot p0 h C B 1 ((FA.voxel idx 0) ^ 2)
  let p2 := addSlot p1 h C B 2 (MD.voxel idx 0)
  let p3 := addSlot p2 h C B 3 ((MD.voxel idx 0) ^ 2)
  let READS_fl : ℚ := (1 / 2) * (3 * MD.voxel idx 0 - L1.voxel idx 0)
  let p4 := addSlot p3 h C B 4 READS_fl
  let p5 := addSlot p4 h C B 5 (READS_fl ^ 2)
  let p6 := addSlot p5 h C B 6 (L1.voxel idx 0)
  let p7 := addSlot p6 h C B 7 ((L1.voxel idx 0) ^ 2)
  addSlot p7 h C B 8 1

/-- One visit: the arguments `idx`, `h`, `C`, `B` of a `ScoreTrackGrid` call. -/
structure Visit where
  idx : Nat
  h : Int
  C : Int
  B : Int

/-- Successive `ScoreTrackGrid` calls, one per visit of the list, on the volumes `FA`,
`MD`, `L1`. -/
def scoreVisits (FA MD L1 : RoiDataset) (PG : ParamGrid) (vs : List Visit) : ParamGrid :=
  vs.foldl (fun P v => ScoreTrackGrid P v.idx v.h v.C v.B FA MD L1) PG

/-- The accumulator with every slot `0`. -/
def zeroGrid : ParamGrid := fun _ _ _ _ => 0

/-- Volume with the value `c` at every voxel. -/
def constVolume (c : ℚ) : RoiDataset := { Nbrik := 1, Nvox := 1, voxel := fun _ _ => c }

/-- Reference order for the comparison with `ordCascade`: the axes `0, 1, 2` sorted by
ascending distance, axes at equal distance in ascending axis number (a stable
ascending sort of the axes by distance). -/
def stableOrd (st : Fin 3 → ℚ) : List (Fin 3) :=
  List.insertionSort (fun a b => st a < st b ∨ (st a = st b ∧ a ≤ b)) [0, 1, 2]

/-- State on entry to the loop for the seed voxel `(0,0,0)` and the seed position
`(1/2, 7/10, 1/2)`, sign `+1`. -/
def offCentre : Walk := initWalk ![0, 0, 0] ![1 / 2, 7 / 10, 1 / 2] T0 flT0 1

/-- State on entry to the loop for the seed voxel `(1,0,0)` and the seed position
`(3/2, 1/2, 1/2)`, its centre for unit edges, sign `+1`. -/
def lastVoxel : Walk := initWalk ![1, 0, 0] ![3 / 2, 1 / 2, 1 / 2] T0 flT0 1

/-! ## `TrackIt` in binary floating point

The definitions above read C `float` as exact rationals.  The ones below round every
arithmetic result as IEEE 754 binary arithmetic does (round to nearest, ties to even),
`float` being binary32 and `double` binary64, each operation evaluated in the type C
gives it (`float` with `float` or `int` in `float`, anything with a `double` constant
in `double`).  Overflow to infinity and NaN are not modelled: the values are assumed
to stay finite. -/

theorem loopT_of_cond_false (EPS_V : ℚ) (CC : Field) (Edge : Fin 3 → ℚ) (dim : Fin 3 → Int)
    (minFA maxAng : ℚ) (arrMax : Int) (fuel : Nat) (s : Walk)
    (h : condT CC minFA maxAng arrMax s = false) :
    loopT EPS_V CC Edge dim minFA maxAng arrMax fuel s = s := by
  cases fuel with
  | zero => rfl
  | succ n => simp [loopT, h]

theorem loopT_succ_of_cond (EPS_V : ℚ) (CC : Field) (Edge : Fin 3 → ℚ) (dim : Fin 3 → Int)
    (minFA maxAng : ℚ) (arrMax : Int) (fuel : Nat) (s : Walk)
    (h : condT CC minFA maxAng arrMax s = true) :
    loopT EPS_V CC Edge dim minFA maxAng arrMax (fuel + 1) s
      = loopT EPS_V CC Edge dim minFA maxAng arrMax fuel (bodyT EPS_V CC Edge dim s) := by
  simp [loopT, h]

/-- Invariant rule for the loop: a property that holds on entry and is kept by every
iteration started with the loop condition true holds when the loop is left. -/
theorem loopT_invariant (EPS_V : ℚ) (CC : Field) (Edge : Fin 3 → ℚ) (dim : Fin 3 → Int)
    (minFA maxAng : ℚ) (arrMax : Int) (P : Walk → Prop)
    (step : ∀ s, P s → condT CC minFA maxAng arrMax s = true → P (bodyT EPS_V CC Edge dim s))
    (fuel : Nat) (s : Walk) (h : P s) :
    P (loopT EPS_V CC Edge dim minFA maxAng arrMax fuel s) := by
  induction fuel generalizing s with
  | zero => exact h
  | succ n ih =>
    unfold loopT
    split
    · next hc => exact ih _ (step s h hc)
    · exact h

@[simp] theorem record_tracL (s : Walk) : s.record.tracL = s.tracL + 1 := rfl
@[simp] theorem record_T (s : Walk) : s.record.T = Function.update s.T s.tracL s.IND := rfl
@[simp] theorem record_flT (s : Walk) :
    s.record.flT = Function.update s.flT s.tracL s.Iam0 := rfl
@[simp] theorem record_IND (s : Walk) : s.record.IND = s.IND := rfl
@[simp] theorem record_Iam0 (s : Walk) : s.record.Iam0 = s.Iam0 := rfl
@[simp] theorem record_FB (s : Walk) : s.record.FB = s.FB := rfl
@[simp] theorem record_physdist (s : Walk) : s.record.physdist = s.physdist := rfl

theorem bodyT_tracL (EPS_V : ℚ) (CC : Field) (Edge : Fin 3 → ℚ) (dim : Fin 3 → Int)
    (s : Walk) : (bodyT EPS_V CC Edge dim s).tracL = s.tracL + 1 := by
  unfold bodyT
  simp only
  split
  · rfl
  · split <;> rfl

theorem bodyT_T (EPS_V : ℚ) (CC : Field) (Edge : Fin 3 → ℚ) (dim : Fin 3 → Int)
    (s : Walk) : (bodyT EPS_V CC Edge dim s).T = Function.update s.T s.tracL s.IND := by
  unfold bodyT
  simp only
  split
  · rfl
  · split <;> rfl

theorem bodyT_flT (EPS_V : ℚ) (CC : Field) (Edge : Fin 3 → ℚ) (dim : Fin 3 → Int)
    (s : Walk) : (bodyT EPS_V CC Edge dim s).flT = Function.update s.flT s.tracL s.Iam0 := by
  unfold bodyT
  simp only
  split
  · rfl
  · split <;> rfl

/-- The fuel `arrMax.toNat` suffices: the loop condition is false in the state the
unfolding stops in, so that state is the one in which the C loop is left. -/
theorem loopT_cond_false (EPS_V : ℚ) (CC : Field) (Edge : Fin 3 → ℚ) (dim : Fin 3 → Int)
    (minFA maxAng : ℚ) (arrMax : Int) (fuel : Nat) (s : Walk)
    (h : arrMax ≤ (fuel : Int) + s.tracL) :
    condT CC minFA maxAng arrMax (loopT EPS_V CC Edge dim minFA maxAng arrMax fuel s)
      = false := by
  induction fuel generalizing s with
  | zero =>
    simp only [loopT, condT]
    have : ¬ ((s.tracL : Int) < arrMax) := by push_cast at h; omega
    simp [this]
  | succ n ih =>
    unfold loopT
    split
    · apply ih
      rw [bodyT_tracL]
      push_cast at h ⊢
      omega
    · next hc => simpa using hc

theorem walkT_cond_false (EPS_V : ℚ) (CC : Field) (IND : Fin 3 → Int)
    (PHYSIND Edge : Fin 3 → ℚ) (dim : Fin 3 → Int) (minFA maxAng : ℚ) (arrMax : Int)
    (T : Nat → Fin 3 → Int) (flT : Nat → Fin 3 → ℚ) (FB : Int) :
    condT CC minFA maxAng arrMax
      (walkT EPS_V CC IND PHYSIND Edge dim minFA maxAng arrMax T flT FB) = false := by
  unfold walkT
  apply loopT_cond_false
  simp only [initWalk]
  have := Int.self_le_toNat arrMax
  push_cast
  omega

/-! ## Case analysis of one iteration -/

theorem bodyT_walkback (EPS_V : ℚ) (CC : Field) (Edge : Fin 3 → ℚ) (dim : Fin 3 → Int)
    (s : Walk) (hw : walkback (s.stest EPS_V (CC.at s.IND) Edge) = true) :
    bodyT EPS_V CC Edge dim s = { s.record with dotprod := 0 } := by
  simp [bodyT, hw]

theorem bodyT_outside (EPS_V : ℚ) (CC : Field) (Edge : Fin 3 → ℚ) (dim : Fin 3 → Int)
    (s : Walk) (hw : walkback (s.stest EPS_V (CC.at s.IND) Edge) = false)
    (hg : inGrid dim (s.nextIND EPS_V (CC.at s.IND) Edge) = false) :
    bodyT EPS_V CC Edge dim s =
      { s.record with Iam0 := s.nextIam0 EPS_V (CC.at s.IND) Edge, IND := fun _ => 0,
                      dotprod := 0, physdist := s.nextPhysdist EPS_V (CC.at s.IND) Edge } := by
  simp [bodyT, hw, hg]

theorem bodyT_inside (EPS_V : ℚ) (CC : Field) (Edge : Fin 3 → ℚ) (dim : Fin 3 → Int)
    (s : Walk) (hw : walkback (s.stest EPS_V (CC.at s.IND) Edge) = false)
    (hg : inGrid dim (s.nextIND EPS_V (CC.at s.IND) Edge) = true) :
    bodyT EPS_V CC Edge dim s =
      { s.record with
        Iam0 := s.nextIam0 EPS_V (CC.at s.IND) Edge,
        IND := s.nextIND EPS_V (CC.at s.IND) Edge,
        FB := if dotRaw (CC.at (s.nextIND EPS_V (CC.at s.IND) Edge))
            (CC.at (fun n => s.nextIND EPS_V (CC.at s.IND) Edge n
              - (s.goWin EPS_V (CC.at s.IND) Edge).1 n)) s.FB < 0 then -1 else 1,
        dotprod := revisit s.record.T s.record.tracL (s.nextIND EPS_V (CC.at s.IND) Edge)
          (if dotRaw (CC.at (s.nextIND EPS_V (CC.at s.IND) Edge))
            (CC.at (fun n => s.nextIND EPS_V (CC.at s.IND) Edge n
              - (s.goWin EPS_V (CC.at s.IND) Edge).1 n)) s.FB < 0
           then dotRaw (CC.at (s.nextIND EPS_V (CC.at s.IND) Edge))
            (CC.at (fun n => s.nextIND EPS_V (CC.at s.IND) Edge n
              - (s.goWin EPS_V (CC.at s.IND) Edge).1 n)) s.FB * (-1)
           else dotRaw (CC.at (s.nextIND EPS_V (CC.at s.IND) Edge))
            (CC.at (fun n => s.nextIND EPS_V (CC.at s.IND) Edge n
              - (s.goWin EPS_V (CC.at s.IND) Edge).1 n)) s.FB),
        physdist := s.nextPhysdist EPS_V (CC.at s.IND) Edge } := by
  simp [bodyT, hw, hg]

/-- The voxel looked up as "the one just left", `IND - go` after the index update, is
the voxel of the iteration. -/
theorem nextIND_sub_go (EPS_V : ℚ) (d : Nat → ℚ) (Edge : Fin 3 → ℚ) (s : Walk) :
    (fun n => s.nextIND EPS_V d Edge n - (s.goWin EPS_V d Edge).1 n) = s.IND := by
  funext n
  simp [Walk.nextIND]

theorem vec3_eq_iff {α : Type} (a b : Fin 3 → α) :
    (a 0 = b 0 ∧ a 1 = b 1 ∧ a 2 = b 2) ↔ a = b := by
  constructor
  · rintro ⟨h0, h1, h2⟩
    funext n
    fin_cases n
    · exact h0
    · exact h1
    · exact h2
  · rintro rfl
    exact ⟨rfl, rfl, rfl⟩

/-- The revisit loop returns `0` exactly when `IND` is one of the rows `T[0..tracL-1]`. -/
theorem revisit_eq (T : Nat → Fin 3 → Int) (tracL : Nat) (IND : Fin 3 → Int) (dp : ℚ) :
    revisit T tracL IND dp = if ∃ n, n < tracL ∧ IND = T n then 0 else dp := by
  unfold revisit
  induction tracL with
  | zero => simp
  | succ k ih =>
    rw [List.range_succ, List.foldl_append, ih]
    simp only [List.foldl_cons, List.foldl_nil, vec3_eq_iff]
    by_cases hk : IND = T k
    · have : ∃ n, n < k + 1 ∧ IND = T n := ⟨k, by omega, hk⟩
      rw [if_pos hk, if_pos this]
    · by_cases hex : ∃ n, n < k ∧ IND = T n
      · obtain ⟨n, hn, he⟩ := hex
        have h1 : ∃ n, n < k ∧ IND = T n := ⟨n, hn, he⟩
        have h2 : ∃ n, n < k + 1 ∧ IND = T n := ⟨n, by omega, he⟩
        rw [if_neg hk, if_pos h1, if_pos h2]
      · have h2 : ¬ ∃ n, n < k + 1 ∧ IND = T n := by
          rintro ⟨n, hn, he⟩
          rcases Nat.lt_succ_iff_lt_or_eq.mp hn with h | h
          · exact hex ⟨n, h, he⟩
          · exact hk (h ▸ he)
        rw [if_neg hk, if_neg hex, if_neg h2]

/-- After an iteration either the alignment is `0`, or the walk moved to an
in-grid voxel that is none of the recorded rows. -/
theorem bodyT_dotprod_cases (EPS_V : ℚ) (CC : Field) (Edge : Fin 3 → ℚ) (dim : Fin 3 → Int)
    (s : Walk) :
    (bodyT EPS_V CC Edge dim s).dotprod = 0 ∨
      (inGrid dim (bodyT EPS_V CC Edge dim s).IND = true ∧
        ∀ n, n < s.tracL + 1 →
          (bodyT EPS_V CC Edge dim s).T n ≠ (bodyT EPS_V CC Edge dim s).IND) := by
  by_cases hw : walkback (s.stest EPS_V (CC.at s.IND) Edge) = true
  · left
    rw [bodyT_walkback _ _ _ _ _ hw]
  · have hw : walkback (s.stest EPS_V (CC.at s.IND) Edge) = false := by simpa using hw
    by_cases hg : inGrid dim (s.nextIND EPS_V (CC.at s.IND) Edge) = true
    · rw [bodyT_inside _ _ _ _ _ hw hg]
      simp only [revisit_eq]
      by_cases hex : ∃ n, n < s.record.tracL ∧
          s.nextIND EPS_V (CC.at s.IND) Edge = s.record.T n
      · left
        exact if_pos hex
      · right
        refine ⟨hg, ?_⟩
        intro n hn he
        exact hex ⟨n, by simpa using hn, he.symm⟩
    · have hg : inGrid dim (s.nextIND EPS_V (CC.at s.IND) Edge) = false := by simpa using hg
      left
      rw [bodyT_outside _ _ _ _ _ hw hg]

/-- The voxel index after an iteration: unchanged (walkback), the sentinel
`(0,0,0)` (left the grid), or the in-grid stepped index. -/
theorem bodyT_IND_cases (EPS_V : ℚ) (CC : Field) (Edge : Fin 3 → ℚ) (dim : Fin 3 → Int)
    (s : Walk) :
    (bodyT EPS_V CC Edge dim s).IND = s.IND ∨
      (bodyT EPS_V CC Edge dim s).IND = (fun _ => 0) ∨
      inGrid dim (bodyT EPS_V CC Edge dim s).IND = true := by
  by_cases hw : walkback (s.stest EPS_V (CC.at s.IND) Edge) = true
  · left
    rw [bodyT_walkback _ _ _ _ _ hw]
    rfl
  · have hw : walkback (s.stest EPS_V (CC.at s.IND) Edge) = false := by simpa using hw
    by_cases hg : inGrid dim (s.nextIND EPS_V (CC.at s.IND) Edge) = true
    · right; right
      rw [bodyT_inside _ _ _ _ _ hw hg]
      exact hg
    · have hg : inGrid dim (s.nextIND EPS_V (CC.at s.IND) Edge) = false := by simpa using hg
      right; left
      rw [bodyT_outside _ _ _ _ _ hw hg]

/-! ## C2: seed below the threshold -/

/-- C2: if the continuation scalar at the seed voxel is strictly below `minFA` and
`arrMax >= 1`, `TrackIt` returns step count `0`, leaves `T`, `flT` and `IND` as they
were passed in, and sets `physL[0]` to `0`. -/
theorem TrackIt_seed_below_minFA (EPS_V : ℚ) (CC : Field) (IND : Fin 3 → Int)
    (PHYSIND Edge : Fin 3 → ℚ) (dim : Fin 3 → Int) (minFA maxAng : ℚ) (arrMax : Int)
    (T : Nat → Fin 3 → Int) (flT : Nat → Fin 3 → ℚ) (FB : Int)
    (hFA : CC (IND 0) (IND 1) (IND 2) 3 < minFA) (hMax : 1 ≤ arrMax) :
    TrackIt EPS_V CC IND PHYSIND Edge dim minFA maxAng arrMax T flT FB
      = some { tracL := 0, IND := IND, T := T, flT := flT, physL := 0 } := by
  have hc : condT CC minFA maxAng arrMax (initWalk IND PHYSIND T flT FB) = false := by
    have : ¬ (minFA ≤ CC (IND 0) (IND 1) (IND 2) 3) := not_le.mpr hFA
    simp [condT, initWalk, Field.at, this]
  have hlt : ¬ ((0 : Int) ≥ arrMax) := by omega
  unfold TrackIt walkT
  rw [loopT_of_cond_false _ _ _ _ _ _ _ _ _ hc]
  simp only [finish, initWalk]
  rw [if_neg (by simpa using hlt)]

theorem TrackIt_seed_below_minFA_witness :
    TrackIt (1 / 1000000) uniformX ![0, 5, 5] ![1 / 2, 11 / 2, 11 / 2] ![1, 1, 1]
        ![10, 10, 10] 2 (1 / 2) 100 T0 flT0 1
      = some { tracL := 0, IND := ![0, 5, 5], T := T0, flT := flT0, physL := 0 } :=
  TrackIt_seed_below_minFA (1 / 1000000) uniformX ![0, 5, 5] ![1 / 2, 11 / 2, 11 / 2]
    ![1, 1, 1] ![10, 10, 10] 2 (1 / 2) 100 T0 flT0 1 (by norm_num [uniformX]) (by norm_num)

/-! ## Invariants of the walk: no revisit, recorded voxels in the grid -/

theorem inGrid_iff (dim IND : Fin 3 → Int) :
    inGrid dim IND = true ↔ ∀ n, 0 ≤ IND n ∧ IND n < dim n := by
  simp only [inGrid, Bool.and_eq_true, decide_eq_true_eq, ge_iff_le]
  constructor
  · rintro ⟨⟨⟨⟨⟨h0, h1⟩, h2⟩, h3⟩, h4⟩, h5⟩ n
    fin_cases n
    · exact ⟨h3, h0⟩
    · exact ⟨h4, h1⟩
    · exact ⟨h5, h2⟩
  · intro h
    exact ⟨⟨⟨⟨⟨(h 0).2, (h 1).2⟩, (h 2).2⟩, (h 0).1⟩, (h 1).1⟩, (h 2).1⟩

/-- When some voxel is inside the grid, so is the sentinel `(0,0,0)`. -/
theorem inGrid_sentinel (dim IND : Fin 3 → Int) (h : inGrid dim IND = true) :
    inGrid dim (fun _ => 0) = true := by
  rw [inGrid_iff] at h ⊢
  intro n
  have := h n
  constructor
  · exact le_refl _
  · omega

theorem condT_dotprod (CC : Field) (minFA maxAng : ℚ) (arrMax : Int) (s : Walk)
    (h : condT CC minFA maxAng arrMax s = true) : maxAng ≤ s.dotprod := by
  simp only [condT, Bool.and_eq_true, decide_eq_true_eq, ge_iff_le] at h
  exact h.2

theorem condT_tracL (CC : Field) (minFA maxAng : ℚ) (arrMax : Int) (s : Walk)
    (h : condT CC minFA maxAng arrMax s = true) : (s.tracL : Int) < arrMax := by
  simp only [condT, Bool.and_eq_true, decide_eq_true_eq, ge_iff_le] at h
  exact h.1.1

theorem condT_FA (CC : Field) (minFA maxAng : ℚ) (arrMax : Int) (s : Walk)
    (h : condT CC minFA maxAng arrMax s = true) : minFA ≤ CC.at s.IND 3 := by
  simp only [condT, Bool.and_eq_true, decide_eq_true_eq, ge_iff_le] at h
  exact h.1.2

/-- A state whose alignment is `0` fails the loop condition when `maxAng > 0`. -/
theorem condT_false_of_dotprod_zero (CC : Field) (minFA maxAng : ℚ) (arrMax : Int) (s : Walk)
    (hAng : 0 < maxAng) (h : s.dotprod = 0) : condT CC minFA maxAng arrMax s = false := by
  have : ¬ (maxAng ≤ s.dotprod) := by rw [h]; exact not_le.mpr hAng
  simp [condT, this]

/-- Loop invariant behind the no-revisit property: the recorded rows are pairwise
different, and while the alignment passes the threshold the current voxel is none of
them. -/
theorem loopT_distinct (EPS_V : ℚ) (CC : Field) (Edge : Fin 3 → ℚ) (dim : Fin 3 → Int)
    (minFA maxAng : ℚ) (arrMax : Int) (hAng : 0 < maxAng) (fuel : Nat) (s : Walk)
    (h1 : ∀ i j, i < s.tracL → j < s.tracL → s.T i = s.T j → i = j)
    (h2 : maxAng ≤ s.dotprod → ∀ i, i < s.tracL → s.T i ≠ s.IND) :
    ∀ i j, i < (loopT EPS_V CC Edge dim minFA maxAng arrMax fuel s).tracL →
      j < (loopT EPS_V CC Edge dim minFA maxAng arrMax fuel s).tracL →
      (loopT EPS_V CC Edge dim minFA maxAng arrMax fuel s).T i
        = (loopT EPS_V CC Edge dim minFA maxAng arrMax fuel s).T j → i = j := by
  have key := loopT_invariant EPS_V CC Edge dim minFA maxAng arrMax
    (fun s => (∀ i j, i < s.tracL → j < s.tracL → s.T i = s.T j → i = j) ∧
      (maxAng ≤ s.dotprod → ∀ i, i < s.tracL → s.T i ≠ s.IND))
    (by
      rintro s ⟨g1, g2⟩ hc
      have hnot := g2 (condT_dotprod _ _ _ _ _ hc)
      constructor
      · rw [bodyT_tracL, bodyT_T]
        intro i j hi hj hij
        by_cases hi' : i = s.tracL
        · by_cases hj' : j = s.tracL
          · omega
          · exfalso
            rw [hi', Function.update_same, Function.update_noteq hj'] at hij
            exact hnot j (by omega) hij.symm
        · by_cases hj' : j = s.tracL
          · exfalso
            rw [hj', Function.update_same, Function.update_noteq hi'] at hij
            exact hnot i (by omega) hij
          · rw [Function.update_noteq hi', Function.update_noteq hj'] at hij
            exact g1 i j (by omega) (by omega) hij
      · intro hd
        rcases bodyT_dotprod_cases EPS_V CC Edge dim s with h0 | ⟨_, hne⟩
        · rw [h0] at hd
          exact absurd hAng (not_lt.mpr hd)
        · rw [bodyT_tracL]
          exact hne)
    fuel s ⟨h1, h2⟩
  exact key.1

/-- Loop invariant behind the in-grid property: the current voxel and every recorded
row are inside the grid. -/
theorem loopT_inGrid (EPS_V : ℚ) (CC : Field) (Edge : Fin 3 → ℚ) (dim : Fin 3 → Int)
    (minFA maxAng : ℚ) (arrMax : Int) (fuel : Nat) (s : Walk)
    (h1 : inGrid dim s.IND = true) (h2 : ∀ i, i < s.tracL → inGrid dim (s.T i) = true) :
    inGrid dim (loopT EPS_V CC Edge dim minFA maxAng arrMax fuel s).IND = true ∧
    ∀ i, i < (loopT EPS_V CC Edge dim minFA maxAng arrMax fuel s).tracL →
      inGrid dim ((loopT EPS_V CC Edge dim minFA maxAng arrMax fuel s).T i) = true := by
  refine loopT_invariant EPS_V CC Edge dim minFA maxAng arrMax
    (fun s => inGrid dim s.IND = true ∧ ∀ i, i < s.tracL → inGrid dim (s.T i) = true)
    ?_ fuel s ⟨h1, h2⟩
  rintro s ⟨g1, g2⟩ _
  constructor
  · rcases bodyT_IND_cases EPS_V CC Edge dim s with h | h | h
    · rw [h]; exact g1
    · rw [h]; exact inGrid_sentinel dim s.IND g1
    · exact h
  · rw [bodyT_tracL, bodyT_T]
    intro i hi
    by_cases hi' : i = s.tracL
    · rw [hi', Function.update_same]; exact g1
    · rw [Function.update_noteq hi']; exact g2 i (by omega)

/-- A returning call hands back the step count, index, arrays and length of the state
in which the loop was left. -/
theorem TrackIt_eq_some (EPS_V : ℚ) (CC : Field) (IND : Fin 3 → Int)
    (PHYSIND Edge : Fin 3 → ℚ) (dim : Fin 3 → Int) (minFA maxAng : ℚ) (arrMax : Int)
    (T : Nat → Fin 3 → Int) (flT : Nat → Fin 3 → ℚ) (FB : Int) (r : TrackResult)
    (h : TrackIt EPS_V CC IND PHYSIND Edge dim minFA maxAng arrMax T flT FB = some r) :
    r.tracL = (walkT EPS_V CC IND PHYSIND Edge dim minFA maxAng arrMax T flT FB).tracL ∧
    r.IND = (walkT EPS_V CC IND PHYSIND Edge dim minFA maxAng arrMax T flT FB).IND ∧
    r.T = (walkT EPS_V CC IND PHYSIND Edge dim minFA maxAng arrMax T flT FB).T ∧
    r.flT = (walkT EPS_V CC IND PHYSIND Edge dim minFA maxAng arrMax T flT FB).flT ∧
    r.physL = (walkT EPS_V CC IND PHYSIND Edge dim minFA maxAng arrMax T flT FB).physdist ∧
    (r.tracL : Int) < arrMax := by
  unfold TrackIt finish at h
  split at h
  · exact absurd h (by simp)
  · next hlt =>
    have := Option.some.inj h
    subst this
    exact ⟨rfl, rfl, rfl, rfl, rfl, by simpa using hlt⟩

/-- The call returns as soon as the loop is left with fewer than `arrMax` steps. -/
theorem TrackIt_of_lt (EPS_V : ℚ) (CC : Field) (IND : Fin 3 → Int)
    (PHYSIND Edge : Fin 3 → ℚ) (dim : Fin 3 → Int) (minFA maxAng : ℚ) (arrMax : Int)
    (T : Nat → Fin 3 → Int) (flT : Nat → Fin 3 → ℚ) (FB : Int)
    (h : ((walkT EPS_V CC IND PHYSIND Edge dim minFA maxAng arrMax T flT FB).tracL : Int)
      < arrMax) :
    TrackIt EPS_V CC IND PHYSIND Edge dim minFA maxAng arrMax T flT FB =
      some { tracL := (walkT EPS_V CC IND PHYSIND Edge dim minFA maxAng arrMax T flT FB).tracL,
             IND := (walkT EPS_V CC IND PHYSIND Edge dim minFA maxAng arrMax T flT FB).IND,
             T := (walkT EPS_V CC IND PHYSIND Edge dim minFA maxAng arrMax T flT FB).T,
             flT := (walkT EPS_V CC IND PHYSIND Edge dim minFA maxAng arrMax T flT FB).flT,
             physL :=
               (walkT EPS_V CC IND PHYSIND Edge dim minFA maxAng arrMax T flT FB).physdist } := by
  unfold TrackIt finish
  rw [if_neg (by simpa using h)]

/-- C3: for `maxAng > 0`, no voxel index occurs twice among the rows `T[0..tracL-1]`
recorded by one `TrackIt` walk, in the state in which the loop is left and hence in
what a returning call hands back; and an iteration whose step lands inside the grid
on a row already recorded sets the alignment to `0`, so that the loop condition fails
at the next check and the voxel is not recorded again. -/
theorem TrackIt_no_revisit (EPS_V : ℚ) (CC : Field) (IND : Fin 3 → Int)
    (PHYSIND Edge : Fin 3 → ℚ) (dim : Fin 3 → Int) (minFA maxAng : ℚ) (arrMax : Int)
    (T : Nat → Fin 3 → Int) (flT : Nat → Fin 3 → ℚ) (FB : Int) (hAng : 0 < maxAng) :
    (∀ i j, i < (walkT EPS_V CC IND PHYSIND Edge dim minFA maxAng arrMax T flT FB).tracL →
      j < (walkT EPS_V CC IND PHYSIND Edge dim minFA maxAng arrMax T flT FB).tracL →
      (walkT EPS_V CC IND PHYSIND Edge dim minFA maxAng arrMax T flT FB).T i
        = (walkT EPS_V CC IND PHYSIND Edge dim minFA maxAng arrMax T flT FB).T j → i = j) ∧
    (∀ r, TrackIt EPS_V CC IND PHYSIND Edge dim minFA maxAng arrMax T flT FB = some r →
      ∀ i j, i < r.tracL → j < r.tracL → r.T i = r.T j → i = j) ∧
    (∀ s : Walk, walkback (s.stest EPS_V (CC.at s.IND) Edge) = false →
      inGrid dim (s.nextIND EPS_V (CC.at s.IND) Edge) = true →
      (∃ n, n < s.tracL + 1 ∧ s.record.T n = s.nextIND EPS_V (CC.at s.IND) Edge) →
      (bodyT EPS_V CC Edge dim s).dotprod = 0 ∧
        condT CC minFA maxAng arrMax (bodyT EPS_V CC Edge dim s) = false) := by
  have hd := loopT_distinct EPS_V CC Edge dim minFA maxAng arrMax hAng arrMax.toNat
    (initWalk IND PHYSIND T flT FB)
    (by intro i j hi; simp [initWalk] at hi) (by intro _ i hi; simp [initWalk] at hi)
  refine ⟨hd, ?_, ?_⟩
  · intro r hr
    obtain ⟨h1, _, h3, _⟩ := TrackIt_eq_some _ _ _ _ _ _ _ _ _ _ _ _ r hr
    rw [h1, h3]
    exact hd
  · rintro s hw hg ⟨n, hn, he⟩
    have h0 : (bodyT EPS_V CC Edge dim s).dotprod = 0 := by
      rw [bodyT_inside _ _ _ _ _ hw hg]
      simp only [revisit_eq]
      exact if_pos ⟨n, hn, he.symm⟩
    exact ⟨h0, condT_false_of_dotprod_zero _ _ _ _ _ hAng h0⟩

/-- C6: if the seed voxel is inside the grid, every row `T[0..tracL-1]` recorded by
`TrackIt` is inside the grid on all three axes, in the state in which the loop is left
and hence in what a returning call hands back. -/
theorem TrackIt_recorded_inGrid (EPS_V : ℚ) (CC : Field) (IND : Fin 3 → Int)
    (PHYSIND Edge : Fin 3 → ℚ) (dim : Fin 3 → Int) (minFA maxAng : ℚ) (arrMax : Int)
    (T : Nat → Fin 3 → Int) (flT : Nat → Fin 3 → ℚ) (FB : Int)
    (hSeed : ∀ n, 0 ≤ IND n ∧ IND n < dim n) :
    (∀ i, i < (walkT EPS_V CC IND PHYSIND Edge dim minFA maxAng arrMax T flT FB).tracL →
      ∀ n, 0 ≤ (walkT EPS_V CC IND PHYSIND Edge dim minFA maxAng arrMax T flT FB).T i n ∧
        (walkT EPS_V CC IND PHYSIND Edge dim minFA maxAng arrMax T flT FB).T i n < dim n) ∧
    (∀ r, TrackIt EPS_V CC IND PHYSIND Edge dim minFA maxAng arrMax T flT FB = some r →
      ∀ i, i < r.tracL → ∀ n, 0 ≤ r.T i n ∧ r.T i n < dim n) := by
  have hg : ∀ i,
      i < (walkT EPS_V CC IND PHYSIND Edge dim minFA maxAng arrMax T flT FB).tracL →
      ∀ n, 0 ≤ (walkT EPS_V CC IND PHYSIND Edge dim minFA maxAng arrMax T flT FB).T i n ∧
        (walkT EPS_V CC IND PHYSIND Edge dim minFA maxAng arrMax T flT FB).T i n < dim n := by
    intro i hi
    have h := (loopT_inGrid EPS_V CC Edge dim minFA maxAng arrMax arrMax.toNat
      (initWalk IND PHYSIND T flT FB) ((inGrid_iff dim IND).mpr hSeed)
      (by intro i hi; simp [initWalk] at hi)).2 i hi
    exact (inGrid_iff dim _).mp h
  refine ⟨hg, ?_⟩
  intro r hr
  obtain ⟨h1, _, h3, _⟩ := TrackIt_eq_some _ _ _ _ _ _ _ _ _ _ _ _ r hr
  rw [h1, h3]
  exact hg

/-! ## Step bound -/

/-- Pairwise different rows inside the grid are at most as many as the grid has
voxels. -/
theorem card_rows_le (dim : Fin 3 → Int) (T : Nat → Fin 3 → Int) (k : Nat)
    (hinj : ∀ i j, i < k → j < k → T i = T j → i = j)
    (hin : ∀ i, i < k → ∀ n, 0 ≤ T i n ∧ T i n < dim n) :
    k ≤ (dim 0).toNat * (dim 1).toNat * (dim 2).toNat := by
  have h := Finset.card_le_card_of_injOn (s := Finset.range k)
    (t := Fintype.piFinset (fun n => Finset.Ico 0 (dim n))) T
    (by
      intro i hi
      rw [Fintype.mem_piFinset]
      intro n
      rw [Finset.mem_Ico]
      exact hin i (Finset.mem_range.mp hi) n)
    (by
      intro i hi j hj hij
      exact hinj i j (Finset.mem_range.mp hi) (Finset.mem_range.mp hj) hij)
  rw [Finset.card_range, Fintype.card_piFinset, Fin.prod_univ_three] at h
  simpa [Int.card_Ico] using h

/-- For `maxAng > 0` and a seed inside the grid, the loop is left with at most as many
recorded steps as the grid has voxels. -/
theorem walkT_tracL_le (EPS_V : ℚ) (CC : Field) (IND : Fin 3 → Int)
    (PHYSIND Edge : Fin 3 → ℚ) (dim : Fin 3 → Int) (minFA maxAng : ℚ) (arrMax : Int)
    (T : Nat → Fin 3 → Int) (flT : Nat → Fin 3 → ℚ) (FB : Int) (hAng : 0 < maxAng)
    (hSeed : ∀ n, 0 ≤ IND n ∧ IND n < dim n) :
    (walkT EPS_V CC IND PHYSIND Edge dim minFA maxAng arrMax T flT FB).tracL
      ≤ (dim 0).toNat * (dim 1).toNat * (dim 2).toNat := by
  apply card_rows_le dim (walkT EPS_V CC IND PHYSIND Edge dim minFA maxAng arrMax T flT FB).T
  · exact loopT_distinct EPS_V CC Edge dim minFA maxAng arrMax hAng arrMax.toNat
      (initWalk IND PHYSIND T flT FB)
      (by intro i j hi; simp [initWalk] at hi) (by intro _ i hi; simp [initWalk] at hi)
  · intro i hi
    have h := (loopT_inGrid EPS_V CC Edge dim minFA maxAng arrMax arrMax.toNat
      (initWalk IND PHYSIND T flT FB) ((inGrid_iff dim IND).mpr hSeed)
      (by intro i hi; simp [initWalk] at hi)).2 i hi
    exact (inGrid_iff dim _).mp h

/-- C10: on a grid of exactly two voxels, for every direction field, with `maxAng > 0`
and `arrMax > 3`, a `TrackIt` walk seeded inside the grid returns normally with at most
`3` recorded steps. -/
theorem TrackIt_two_voxels (EPS_V : ℚ) (CC : Field) (IND : Fin 3 → Int)
    (PHYSIND Edge : Fin 3 → ℚ) (dim : Fin 3 → Int) (minFA maxAng : ℚ) (arrMax : Int)
    (T : Nat → Fin 3 → Int) (flT : Nat → Fin 3 → ℚ) (FB : Int) (hAng : 0 < maxAng)
    (hMax : 3 < arrMax) (hSeed : ∀ n, 0 ≤ IND n ∧ IND n < dim n)
    (hTwo : dim 0 * dim 1 * dim 2 = 2) :
    ∃ r, TrackIt EPS_V CC IND PHYSIND Edge dim minFA maxAng arrMax T flT FB = some r ∧
      r.tracL ≤ 3 := by
  have hle := walkT_tracL_le EPS_V CC IND PHYSIND Edge dim minFA maxAng arrMax T flT FB
    hAng hSeed
  have h0 := hSeed 0
  have h1 := hSeed 1
  have h2 := hSeed 2
  have hprod : (((dim 0).toNat * (dim 1).toNat * (dim 2).toNat : Nat) : Int) = 2 := by
    push_cast
    rw [Int.toNat_of_nonneg (by omega), Int.toNat_of_nonneg (by omega),
      Int.toNat_of_nonneg (by omega)]
    exact hTwo
  have hle2 : (walkT EPS_V CC IND PHYSIND Edge dim minFA maxAng arrMax T flT FB).tracL ≤ 2 := by
    have : ((dim 0).toNat * (dim 1).toNat * (dim 2).toNat : Nat) = 2 := by exact_mod_cast hprod
    omega
  refine ⟨_, TrackIt_of_lt EPS_V CC IND PHYSIND Edge dim minFA maxAng arrMax T flT FB ?_, ?_⟩
  · omega
  · show (walkT EPS_V CC IND PHYSIND Edge dim minFA maxAng arrMax T flT FB).tracL ≤ 3
    omega

/-! ## Steps along the x axis in a field of direction `(1,0,0)`, unit edges -/

theorem BB_gt_half : ¬ ((1 : ℚ) / 2 > 1 * BB) := by
  norm_num [BB, FF]

/-- Distances in a voxel `(k,a,b)` whose direction is `(1,0,0)`, from a position
`(x, a+1/2, b+1/2)`, with sign `+1` and unit edges. -/
theorem xstep_stest (EPS_V : ℚ) (h0 : 0 < EPS_V) (h1 : EPS_V ≤ 1 / 2) (d : Nat → ℚ)
    (hd0 : d 0 = 1) (hd1 : d 1 = 0) (hd2 : d 2 = 0) (s : Walk) (k a b : Int) (x : ℚ)
    (hIND : s.IND = ![k, a, b]) (hIam : s.Iam0 = ![x, (a : ℚ) + 1 / 2, (b : ℚ) + 1 / 2])
    (hFB : s.FB = 1) :
    s.stest EPS_V d ![1, 1, 1] = ![(k : ℚ) + 1 - x, 1 / 2 / EPS_V, 1 / 2 / EPS_V] := by
  have hE : ¬ ((1 : ℚ) < EPS_V) := by
    intro h; linarith
  funext n
  fin_cases n
  · simp [Walk.stest, stest, targedge, divid, hIND, hIam, hFB, hd0, hE]
  · simp [Walk.stest, stest, targedge, divid, vsign, hIND, hIam, hFB, hd1, h0]
    norm_num
  · simp [Walk.stest, stest, targedge, divid, vsign, hIND, hIam, hFB, hd2, h0]
    norm_num

/-- On distances already in ascending order the cascade makes no swap. -/
theorem ordCascade_sorted (st : Fin 3 → ℚ) (h01 : st 0 ≤ st 1) (h12 : st 1 ≤ st 2) :
    ordCascade st = ![0, 1, 2] := by
  have a : ¬ (st 1 < st 0) := not_lt.mpr h01
  have b : ¬ (st 2 < st 0) := not_lt.mpr (le_trans h01 h12)
  have c : ¬ (st 2 < st 1) := not_lt.mpr h12
  simp [ordCascade, a, b, c]

theorem half_div_ge_one (EPS_V : ℚ) (h0 : 0 < EPS_V) (h1 : EPS_V ≤ 1 / 2) :
    1 ≤ 1 / 2 / EPS_V := by
  rw [le_div_iff₀ h0]
  linarith

theorem update_zero_one : Function.update (fun _ : Fin 3 => (0 : Int)) 0 1 = ![1, 0, 0] := by
  funext n
  fin_cases n <;> simp

/-- The step taken in the situation of `xstep_stest` when the wall ahead on the x axis
is at most one edge away: along `+x` only, advancing by the x distance. -/
theorem xstep_goWin (EPS_V : ℚ) (h0 : 0 < EPS_V) (h1 : EPS_V ≤ 1 / 2) (d : Nat → ℚ)
    (hd0 : d 0 = 1) (hd1 : d 1 = 0) (hd2 : d 2 = 0) (s : Walk) (k a b : Int) (x : ℚ)
    (hIND : s.IND = ![k, a, b]) (hIam : s.Iam0 = ![x, (a : ℚ) + 1 / 2, (b : ℚ) + 1 / 2])
    (hFB : s.FB = 1) (hx : (k : ℚ) ≤ x) :
    s.goWin EPS_V d ![1, 1, 1] = (![1, 0, 0], 0) := by
  have hst := xstep_stest EPS_V h0 h1 d hd0 hd1 hd2 s k a b x hIND hIam hFB
  have hge := half_div_ge_one EPS_V h0 h1
  have hord : ordCascade ![(k : ℚ) + 1 - x, 1 / 2 / EPS_V, 1 / 2 / EPS_V] = ![0, 1, 2] := by
    apply ordCascade_sorted
    · show (k : ℚ) + 1 - x ≤ 1 / 2 / EPS_V
      linarith
    · exact le_refl _
  have hv1 : vsign d 1 1 = 1 := by simp [vsign, hd1]
  have hv0 : vsign d 1 0 = 1 := by simp [vsign, hd0]
  rw [Walk.goWin, hst, hord, hFB]
  simp only [goWin, Matrix.cons_val_zero, Matrix.cons_val_one, Matrix.head_cons, hIND, hIam,
    Fin.val_one, Fin.val_zero, hd1, hv1, hv0, Int.cast_one, update_zero_one]
  have hl : ∀ t : ℚ, t = 1 / 2 → leavesCorridor 1 t 1 = false := by
    intro t ht
    subst ht
    norm_num [leavesCorridor, BB, FF]
  rw [hl _ (by ring)]
  simp

theorem xstep_walkback (EPS_V : ℚ) (h0 : 0 < EPS_V) (x : ℚ) (k : Int) :
    walkback ![(k : ℚ) + 1 - x, 1 / 2 / EPS_V, 1 / 2 / EPS_V] = decide ((k : ℚ) + 1 < x) := by
  have : ¬ (2⁻¹ / EPS_V < 0) := not_lt.mpr (by positivity)
  simp [walkback, this]

/-- Outcome of the geometric part of an iteration in the situation of `xstep_stest`,
for a position between the walls `x = k` and `x = k+1`. -/
theorem xstep_next (EPS_V : ℚ) (h0 : 0 < EPS_V) (h1 : EPS_V ≤ 1 / 2) (d : Nat → ℚ)
    (hd0 : d 0 = 1) (hd1 : d 1 = 0) (hd2 : d 2 = 0) (s : Walk) (k a b : Int) (x : ℚ)
    (hIND : s.IND = ![k, a, b]) (hIam : s.Iam0 = ![x, (a : ℚ) + 1 / 2, (b : ℚ) + 1 / 2])
    (hFB : s.FB = 1) (hx : (k : ℚ) ≤ x) (hx' : x ≤ (k : ℚ) + 1) :
    walkback (s.stest EPS_V d ![1, 1, 1]) = false ∧
    (s.goWin EPS_V d ![1, 1, 1]).1 = ![1, 0, 0] ∧
    s.nextIND EPS_V d ![1, 1, 1] = ![k + 1, a, b] ∧
    s.nextIam0 EPS_V d ![1, 1, 1] = ![(k : ℚ) + 1, (a : ℚ) + 1 / 2, (b : ℚ) + 1 / 2] ∧
    s.nextPhysdist EPS_V d ![1, 1, 1] = s.physdist + ((k : ℚ) + 1 - x) := by
  have hst := xstep_stest EPS_V h0 h1 d hd0 hd1 hd2 s k a b x hIND hIam hFB
  have hgw := xstep_goWin EPS_V h0 h1 d hd0 hd1 hd2 s k a b x hIND hIam hFB hx
  refine ⟨?_, ?_, ?_, ?_, ?_⟩
  · rw [hst, xstep_walkback EPS_V h0]
    exact decide_eq_false (not_lt.mpr hx')
  · rw [hgw]
  · funext n
    fin_cases n <;> simp [Walk.nextIND, hgw, hIND]
  · funext n
    fin_cases n <;> simp [Walk.nextIam0, hgw, hst, hIam, hFB, hd0, hd1, hd2]
  · simp [Walk.nextPhysdist, hgw, hst]

theorem loopT_add (EPS_V : ℚ) (CC : Field) (Edge : Fin 3 → ℚ) (dim : Fin 3 → Int)
    (minFA maxAng : ℚ) (arrMax : Int) (a b : Nat) (s : Walk) :
    loopT EPS_V CC Edge dim minFA maxAng arrMax (a + b) s
      = loopT EPS_V CC Edge dim minFA maxAng arrMax b
          (loopT EPS_V CC Edge dim minFA maxAng arrMax a s) := by
  induction a generalizing s with
  | zero => simp [loopT]
  | succ n ih =>
    rw [Nat.add_right_comm]
    by_cases hc : condT CC minFA maxAng arrMax s = true
    · rw [loopT_succ_of_cond _ _ _ _ _ _ _ _ _ hc, loopT_succ_of_cond _ _ _ _ _ _ _ _ _ hc, ih]
    · have hc : condT CC minFA maxAng arrMax s = false := by simpa using hc
      rw [loopT_of_cond_false _ _ _ _ _ _ _ _ _ hc, loopT_of_cond_false _ _ _ _ _ _ _ _ _ hc,
        loopT_of_cond_false _ _ _ _ _ _ _ _ _ hc]

/-- One more unfolding runs one more iteration from the state reached so far, when
the loop condition holds there. -/
theorem loopT_succ_end (EPS_V : ℚ) (CC : Field) (Edge : Fin 3 → ℚ) (dim : Fin 3 → Int)
    (minFA maxAng : ℚ) (arrMax : Int) (fuel : Nat) (s : Walk)
    (hc : condT CC minFA maxAng arrMax
      (loopT EPS_V CC Edge dim minFA maxAng arrMax fuel s) = true) :
    loopT EPS_V CC Edge dim minFA maxAng arrMax (fuel + 1) s
      = bodyT EPS_V CC Edge dim (loopT EPS_V CC Edge dim minFA maxAng arrMax fuel s) := by
  rw [loopT_add, loopT_succ_of_cond _ _ _ _ _ _ _ _ _ hc]
  rfl

/-! ## The uniform `+x` scenario -/

theorem uniformX_dir (v : Fin 3 → Int) :
    uniformX.at v 0 = 1 ∧ uniformX.at v 1 = 0 ∧ uniformX.at v 2 = 0 ∧ uniformX.at v 3 = 1 := by
  simp [uniformX, Field.at]

theorem uniformXPos_eq (k : Nat) :
    uniformXPos k = ![if k = 0 then 1 / 2 else (k : ℚ), ((5 : Int) : ℚ) + 1 / 2,
      ((5 : Int) : ℚ) + 1 / 2] := by
  unfold uniformXPos
  norm_num

theorem uniformXState_cond (T : Nat → Fin 3 → Int) (flT : Nat → Fin 3 → ℚ) (arrMax : Int)
    (k : Nat) (hk : (k : Int) < arrMax) (s : Walk) (hs : uniformXState T flT k s) :
    condT uniformX (1 / 5) (1 / 2) arrMax s = true := by
  obtain ⟨h1, _, _, _, h5, _⟩ := hs
  have hd : (1 : ℚ) / 2 ≤ s.dotprod := by
    rw [h5]; split <;> norm_num
  have hfa : (1 : ℚ) / 5 ≤ uniformX.at s.IND 3 := by
    rw [(uniformX_dir s.IND).2.2.2]; norm_num
  have ht : (s.tracL : Int) < arrMax := by rw [h1]; exact hk
  simp only [condT, Bool.and_eq_true, decide_eq_true_eq, ge_iff_le]
  exact ⟨⟨ht, hfa⟩, hd⟩

/-- Geometry of iteration `k+1` of the scenario: from voxel `(k,5,5)` the walk steps
along `+x` to the wall `x = k+1`. -/
theorem uniformXState_next (EPS_V : ℚ) (h0 : 0 < EPS_V) (h1 : EPS_V ≤ 1 / 2)
    (T : Nat → Fin 3 → Int) (flT : Nat → Fin 3 → ℚ) (k : Nat) (s : Walk)
    (hs : uniformXState T flT k s) :
    walkback (s.stest EPS_V (uniformX.at s.IND) ![1, 1, 1]) = false ∧
    (s.goWin EPS_V (uniformX.at s.IND) ![1, 1, 1]).1 = ![1, 0, 0] ∧
    s.nextIND EPS_V (uniformX.at s.IND) ![1, 1, 1] = ![((k + 1 : Nat) : Int), 5, 5] ∧
    s.nextIam0 EPS_V (uniformX.at s.IND) ![1, 1, 1] = uniformXPos (k + 1) ∧
    s.nextPhysdist EPS_V (uniformX.at s.IND) ![1, 1, 1] = ((k + 1 : Nat) : ℚ) - 1 / 2 := by
  obtain ⟨_, h2, h3, h4, _, h6, _, _⟩ := hs
  obtain ⟨d0, d1, d2, _⟩ := uniformX_dir s.IND
  rw [uniformXPos_eq] at h3
  have hx : ((k : Int) : ℚ) ≤ (if k = 0 then 1 / 2 else (k : ℚ)) := by
    split
    · next hk => subst hk; norm_num
    · simp
  have hx' : (if k = 0 then 1 / 2 else (k : ℚ)) ≤ ((k : Int) : ℚ) + 1 := by
    split
    · next hk => subst hk; norm_num
    · simp
  obtain ⟨a, b, c, d, e⟩ := xstep_next EPS_V h0 h1 (uniformX.at s.IND) d0 d1 d2 s k 5 5 _
    h2 h3 h4 hx hx'
  refine ⟨a, b, ?_, ?_, ?_⟩
  · rw [c]; push_cast; rfl
  · rw [d, uniformXPos_eq]
    simp
  · rw [e, h6]
    split
    · next hk => subst hk; norm_num
    · push_cast; ring

/-- Iterations `1..9` of the scenario keep the walk inside the grid. -/
theorem uniformXState_step (EPS_V : ℚ) (h0 : 0 < EPS_V) (h1 : EPS_V ≤ 1 / 2)
    (T : Nat → Fin 3 → Int) (flT : Nat → Fin 3 → ℚ) (k : Nat) (hk : k < 9) (s : Walk)
    (hs : uniformXState T flT k s) :
    uniformXState T flT (k + 1) (bodyT EPS_V uniformX ![1, 1, 1] ![10, 10, 10] s) := by
  obtain ⟨hw, hgo, hI, hP, hD⟩ := uniformXState_next EPS_V h0 h1 T flT k s hs
  obtain ⟨g1, g2, g3, g4, g5, g6, g7, g8⟩ := hs
  have hg : inGrid ![10, 10, 10] (s.nextIND EPS_V (uniformX.at s.IND) ![1, 1, 1]) = true := by
    rw [hI, inGrid_iff]
    intro n
    fin_cases n <;> simp
    omega
  have hrec : ∀ i, i < k + 1 → Function.update s.T s.tracL s.IND i = ![(i : Int), 5, 5] ∧
      Function.update s.flT s.tracL s.Iam0 i = uniformXPos i := by
    intro i hi
    by_cases hik : i = k
    · subst hik
      rw [← g1, Function.update_same, Function.update_same, g2, g3, g1]
      exact ⟨rfl, rfl⟩
    · rw [g1, Function.update_noteq hik, Function.update_noteq hik]
      exact g7 i (by omega)
  rw [bodyT_inside _ _ _ _ _ hw hg]
  refine ⟨?_, hI, hP, ?_, ?_, ?_, ?_, ?_⟩
  · show s.tracL + 1 = k + 1
    rw [g1]
  · show (if dotRaw _ _ s.FB < 0 then (-1 : Int) else 1) = 1
    have : dotRaw (uniformX.at (s.nextIND EPS_V (uniformX.at s.IND) ![1, 1, 1]))
        (uniformX.at (fun n => s.nextIND EPS_V (uniformX.at s.IND) ![1, 1, 1] n
          - (s.goWin EPS_V (uniformX.at s.IND) ![1, 1, 1]).1 n)) s.FB = 1 := by
      simp [dotRaw, uniformX, Field.at, g4]
    rw [this]
    norm_num
  · show revisit _ _ _ _ = _
    have : dotRaw (uniformX.at (s.nextIND EPS_V (uniformX.at s.IND) ![1, 1, 1]))
        (uniformX.at (fun n => s.nextIND EPS_V (uniformX.at s.IND) ![1, 1, 1] n
          - (s.goWin EPS_V (uniformX.at s.IND) ![1, 1, 1]).1 n)) s.FB = 1 := by
      simp [dotRaw, uniformX, Field.at, g4]
    rw [this, revisit_eq, if_neg, if_neg (by norm_num), if_neg (by omega)]
    rintro ⟨n, hn, he⟩
    rw [record_tracL, g1] at hn
    rw [record_T, (hrec n hn).1, hI] at he
    have := congrFun he 0
    simp at this
    omega
  · show s.nextPhysdist EPS_V (uniformX.at s.IND) ![1, 1, 1] = _
    rw [hD, if_neg (by omega)]
  · exact hrec
  · intro i hi
    show Function.update s.T s.tracL s.IND i = T i ∧ Function.update s.flT s.tracL s.Iam0 i = flT i
    rw [g1, Function.update_noteq (by omega), Function.update_noteq (by omega)]
    exact g8 i (by omega)

/-- The scenario's loop check after `k <= 9` iterations finds the walk in voxel
`(k,5,5)`. -/
theorem uniformX_loop (EPS_V : ℚ) (h0 : 0 < EPS_V) (h1 : EPS_V ≤ 1 / 2)
    (T : Nat → Fin 3 → Int) (flT : Nat → Fin 3 → ℚ) (arrMax : Int) (k : Nat) (hk : k ≤ 9)
    (hA : (k : Int) ≤ arrMax) :
    uniformXState T flT k
      (loopT EPS_V uniformX ![1, 1, 1] ![10, 10, 10] (1 / 5) (1 / 2) arrMax k
        (initWalk ![0, 5, 5] ![1 / 2, 11 / 2, 11 / 2] T flT 1)) := by
  induction k with
  | zero =>
    refine ⟨rfl, rfl, ?_, rfl, rfl, rfl, ?_, ?_⟩
    · funext n
      fin_cases n <;> simp [loopT, initWalk, uniformXPos]
    · intro i hi; omega
    · intro i _; exact ⟨rfl, rfl⟩
  | succ n ih =>
    have hs := ih (by omega) (by push_cast at hA; omega)
    have hc := uniformXState_cond T flT arrMax n (by push_cast at hA; omega) _ hs
    rw [loopT_succ_end _ _ _ _ _ _ _ _ _ hc]
    exact uniformXState_step EPS_V h0 h1 T flT n (by omega) _ hs

/-- Iteration `10` of the scenario: the step from voxel `(9,5,5)` leaves the grid. -/
theorem uniformXState_last (EPS_V : ℚ) (h0 : 0 < EPS_V) (h1 : EPS_V ≤ 1 / 2)
    (T : Nat → Fin 3 → Int) (flT : Nat → Fin 3 → ℚ) (s : Walk)
    (hs : uniformXState T flT 9 s) :
    s.nextIND EPS_V (uniformX.at s.IND) ![1, 1, 1] = ![10, 5, 5] ∧
    inGrid ![10, 10, 10] (s.nextIND EPS_V (uniformX.at s.IND) ![1, 1, 1]) = false ∧
    (bodyT EPS_V uniformX ![1, 1, 1] ![10, 10, 10] s).tracL = 10 ∧
    (bodyT EPS_V uniformX ![1, 1, 1] ![10, 10, 10] s).IND = (fun _ => 0) ∧
    (bodyT EPS_V uniformX ![1, 1, 1] ![10, 10, 10] s).dotprod = 0 ∧
    (bodyT EPS_V uniformX ![1, 1, 1] ![10, 10, 10] s).physdist = 19 / 2 ∧
    (∀ i, i < 10 →
      (bodyT EPS_V uniformX ![1, 1, 1] ![10, 10, 10] s).T i = ![(i : Int), 5, 5] ∧
      (bodyT EPS_V uniformX ![1, 1, 1] ![10, 10, 10] s).flT i = uniformXPos i) ∧
    (∀ i, 10 ≤ i →
      (bodyT EPS_V uniformX ![1, 1, 1] ![10, 10, 10] s).T i = T i ∧
      (bodyT EPS_V uniformX ![1, 1, 1] ![10, 10, 10] s).flT i = flT i) := by
  obtain ⟨hw, _, hI, _, hD⟩ := uniformXState_next EPS_V h0 h1 T flT 9 s hs
  obtain ⟨g1, g2, g3, _, _, _, g7, g8⟩ := hs
  have hI' : s.nextIND EPS_V (uniformX.at s.IND) ![1, 1, 1] = ![10, 5, 5] := by
    rw [hI]; rfl
  have hg : inGrid ![10, 10, 10] (s.nextIND EPS_V (uniformX.at s.IND) ![1, 1, 1]) = false := by
    rw [hI']
    simp [inGrid]
  rw [bodyT_outside _ _ _ _ _ hw hg]
  refine ⟨hI', hg, ?_, rfl, rfl, ?_, ?_, ?_⟩
  · show s.tracL + 1 = 10
    rw [g1]
  · show s.nextPhysdist EPS_V (uniformX.at s.IND) ![1, 1, 1] = 19 / 2
    rw [hD]
    norm_num
  · intro i hi
    show Function.update s.T s.tracL s.IND i = _ ∧ Function.update s.flT s.tracL s.Iam0 i = _
    by_cases hik : i = 9
    · subst hik
      rw [← g1, Function.update_same, Function.update_same, g2, g3, g1]
      exact ⟨rfl, rfl⟩
    · rw [g1, Function.update_noteq hik, Function.update_noteq hik]
      exact g7 i (by omega)
  · intro i hi
    show Function.update s.T s.tracL s.IND i = T i ∧ Function.update s.flT s.tracL s.Iam0 i = flT i
    rw [g1, Function.update_noteq (by omega), Function.update_noteq (by omega)]
    exact g8 i (by omega)

/-- With `arrMax >= 10` the scenario's loop is left right after iteration `10`. -/
theorem uniformX_walk (EPS_V : ℚ) (h0 : 0 < EPS_V) (h1 : EPS_V ≤ 1 / 2)
    (T : Nat → Fin 3 → Int) (flT : Nat → Fin 3 → ℚ) (arrMax : Int) (hA : 10 ≤ arrMax) :
    walkT EPS_V uniformX ![0, 5, 5] ![1 / 2, 11 / 2, 11 / 2] ![1, 1, 1] ![10, 10, 10]
        (1 / 5) (1 / 2) arrMax T flT 1
      = bodyT EPS_V uniformX ![1, 1, 1] ![10, 10, 10]
          (loopT EPS_V uniformX ![1, 1, 1] ![10, 10, 10] (1 / 5) (1 / 2) arrMax 9
            (initWalk ![0, 5, 5] ![1 / 2, 11 / 2, 11 / 2] T flT 1)) := by
  have hs := uniformX_loop EPS_V h0 h1 T flT arrMax 9 (le_refl _) (by push_cast; omega)
  have hc := uniformXState_cond T flT arrMax 9 (by push_cast; omega) _ hs
  obtain ⟨_, _, _, _, hd, _⟩ := uniformXState_last EPS_V h0 h1 T flT _ hs
  obtain ⟨m, hm⟩ : ∃ m : Nat, arrMax.toNat = 10 + m :=
    ⟨arrMax.toNat - 10, by have := Int.toNat_of_nonneg (by omega : 0 ≤ arrMax); omega⟩
  unfold walkT
  rw [hm, loopT_add, loopT_succ_end _ _ _ _ _ _ _ _ _ hc]
  exact loopT_of_cond_false _ _ _ _ _ _ _ _ _
    (condT_false_of_dotprod_zero _ _ _ _ _ (by norm_num) hd)

/-- C7: in the uniform `+x` scenario (10x10x10 grid, unit edges, direction `(1,0,0)`
and scalar `1` everywhere, `minFA = 0.2`, `maxAng = 0.5`, `arrMax = 100`, sign `+1`,
seed voxel `(0,5,5)` at its centre), for every `EPS_V` in `(0, 1/2]`, `TrackIt`
returns `10` recorded voxels with `T[k] = (k,5,5)` for `k = 0..9`; the tenth iteration
starts in voxel `(9,5,5)`, its step reaches index `(10,5,5)`, which is outside the
grid, and the loop is left right after it, with alignment `0`. -/
theorem TrackIt_uniformX_path (EPS_V : ℚ) (h0 : 0 < EPS_V) (h1 : EPS_V ≤ 1 / 2)
    (T : Nat → Fin 3 → Int) (flT : Nat → Fin 3 → ℚ) :
    (∃ r, TrackIt EPS_V uniformX ![0, 5, 5] ![1 / 2, 11 / 2, 11 / 2] ![1, 1, 1]
        ![10, 10, 10] (1 / 5) (1 / 2) 100 T flT 1 = some r ∧
      r.tracL = 10 ∧ ∀ k, k < 10 → r.T k = ![(k : Int), 5, 5]) ∧
    (loopT EPS_V uniformX ![1, 1, 1] ![10, 10, 10] (1 / 5) (1 / 2) 100 9
        (initWalk ![0, 5, 5] ![1 / 2, 11 / 2, 11 / 2] T flT 1)).IND = ![9, 5, 5] ∧
    (loopT EPS_V uniformX ![1, 1, 1] ![10, 10, 10] (1 / 5) (1 / 2) 100 9
        (initWalk ![0, 5, 5] ![1 / 2, 11 / 2, 11 / 2] T flT 1)).nextIND EPS_V
      (uniformX.at ![9, 5, 5]) ![1, 1, 1] = ![10, 5, 5] ∧
    inGrid ![10, 10, 10] ![10, 5, 5] = false ∧
    walkT EPS_V uniformX ![0, 5, 5] ![1 / 2, 11 / 2, 11 / 2] ![1, 1, 1] ![10, 10, 10]
        (1 / 5) (1 / 2) 100 T flT 1
      = bodyT EPS_V uniformX ![1, 1, 1] ![10, 10, 10]
          (loopT EPS_V uniformX ![1, 1, 1] ![10, 10, 10] (1 / 5) (1 / 2) 100 9
            (initWalk ![0, 5, 5] ![1 / 2, 11 / 2, 11 / 2] T flT 1)) ∧
    (walkT EPS_V uniformX ![0, 5, 5] ![1 / 2, 11 / 2, 11 / 2] ![1, 1, 1] ![10, 10, 10]
        (1 / 5) (1 / 2) 100 T flT 1).dotprod = 0 := by
  have hs := uniformX_loop EPS_V h0 h1 T flT 100 9 (le_refl _) (by norm_num)
  have hwalk := uniformX_walk EPS_V h0 h1 T flT 100 (by norm_num)
  obtain ⟨a1, a2, a3, _, a5, _, a7, _⟩ := uniformXState_last EPS_V h0 h1 T flT _ hs
  have h9 := hs.2.1
  refine ⟨⟨_, TrackIt_of_lt _ _ _ _ _ _ _ _ _ _ _ _ ?_, ?_, ?_⟩, h9, ?_, ?_, hwalk, ?_⟩
  · rw [hwalk, a3]; norm_num
  · show (walkT _ _ _ _ _ _ _ _ _ _ _ _).tracL = 10
    rw [hwalk, a3]
  · intro k hk
    show (walkT _ _ _ _ _ _ _ _ _ _ _ _).T k = _
    rw [hwalk]
    exact (a7 k hk).1
  · rw [h9] at a1
    exact a1
  · rw [← a1]; exact a2
  · rw [hwalk]; exact a5

theorem TrackIt_uniformX_path_witness :
    ∃ r, TrackIt (1 / 1000000) uniformX ![0, 5, 5] ![1 / 2, 11 / 2, 11 / 2] ![1, 1, 1]
        ![10, 10, 10] (1 / 5) (1 / 2) 100 T0 flT0 1 = some r ∧
      r.tracL = 10 ∧ ∀ k, k < 10 → r.T k = ![(k : Int), 5, 5] :=
  (TrackIt_uniformX_path (1 / 1000000) (by norm_num) (by norm_num) T0 flT0).1

/-- Length accumulated by the scenario walk: `1/2` from the seed to the first wall and
one edge for each of the nine further iterations, the last of which leaves the grid. -/
theorem uniformX_physdist (EPS_V : ℚ) (h0 : 0 < EPS_V) (h1 : EPS_V ≤ 1 / 2)
    (T : Nat → Fin 3 → Int) (flT : Nat → Fin 3 → ℚ) (arrMax : Int) (hA : 10 < arrMax) :
    ∃ r, TrackIt EPS_V uniformX ![0, 5, 5] ![1 / 2, 11 / 2, 11 / 2] ![1, 1, 1]
        ![10, 10, 10] (1 / 5) (1 / 2) arrMax T flT 1 = some r ∧ r.physL = 19 / 2 := by
  have hs := uniformX_loop EPS_V h0 h1 T flT arrMax 9 (le_refl _) (by push_cast; omega)
  have hwalk := uniformX_walk EPS_V h0 h1 T flT arrMax (by omega)
  obtain ⟨_, _, a3, _, _, a6, _, _⟩ := uniformXState_last EPS_V h0 h1 T flT _ hs
  refine ⟨_, TrackIt_of_lt _ _ _ _ _ _ _ _ _ _ _ _ ?_, ?_⟩
  · rw [hwalk, a3]; push_cast; omega
  · show (walkT _ _ _ _ _ _ _ _ _ _ _ _).physdist = 19 / 2
    rw [hwalk]
    exact a6

/-- C8 (as amended): in the uniform `+x` scenario, for every `EPS_V` in `(0, 1/2]`,
the length returned in `physL[0]` is `9.5`: the half edge from the seed at the voxel
centre to the first wall, plus one edge for each of the nine further iterations,
the step that leaves the grid included. -/
theorem TrackIt_uniformX_physL (EPS_V : ℚ) (h0 : 0 < EPS_V) (h1 : EPS_V ≤ 1 / 2)
    (T : Nat → Fin 3 → Int) (flT : Nat → Fin 3 → ℚ) :
    ∃ r, TrackIt EPS_V uniformX ![0, 5, 5] ![1 / 2, 11 / 2, 11 / 2] ![1, 1, 1]
        ![10, 10, 10] (1 / 5) (1 / 2) 100 T flT 1 = some r ∧ r.physL = 19 / 2 :=
  uniformX_physdist EPS_V h0 h1 T flT 100 (by norm_num)

theorem TrackIt_uniformX_physL_witness :
    ∃ r, TrackIt (1 / 1000000) uniformX ![0, 5, 5] ![1 / 2, 11 / 2, 11 / 2] ![1, 1, 1]
        ![10, 10, 10] (1 / 5) (1 / 2) 100 T0 flT0 1 = some r ∧ r.physL = 19 / 2 :=
  TrackIt_uniformX_physL (1 / 1000000) (by norm_num) (by norm_num) T0 flT0

/-- C8 as stated fails: with `EPS_V = 0.000001` the scenario call returns, and the
length it returns is not `9`. -/
theorem TrackIt_uniformX_physL_ne_nine :
    ∃ r, TrackIt (1 / 1000000) uniformX ![0, 5, 5] ![1 / 2, 11 / 2, 11 / 2] ![1, 1, 1]
        ![10, 10, 10] (1 / 5) (1 / 2) 100 T0 flT0 1 = some r ∧ r.physL ≠ 9 := by
  obtain ⟨r, hr, hp⟩ :=
    uniformX_physdist (1 / 1000000) (by norm_num) (by norm_num) T0 flT0 100 (by norm_num)
  exact ⟨r, hr, by rw [hp]; norm_num⟩

/-! ## C4: the fatal exit -/

theorem TrackIt_eq_none_iff (EPS_V : ℚ) (CC : Field) (IND : Fin 3 → Int)
    (PHYSIND Edge : Fin 3 → ℚ) (dim : Fin 3 → Int) (minFA maxAng : ℚ) (arrMax : Int)
    (T : Nat → Fin 3 → Int) (flT : Nat → Fin 3 → ℚ) (FB : Int) :
    TrackIt EPS_V CC IND PHYSIND Edge dim minFA maxAng arrMax T flT FB = none ↔
      arrMax ≤ (walkT EPS_V CC IND PHYSIND Edge dim minFA maxAng arrMax T flT FB).tracL := by
  unfold TrackIt finish
  split
  · next h => simpa using h
  · next h => simpa using h

/-- C4 as stated fails: in the uniform `+x` scenario with `arrMax = 10` the tenth
step leaves the grid, the loop is left with alignment `0 < maxAng`, and `TrackIt`
takes the fatal exit all the same. -/
theorem TrackIt_abort_after_leaving_grid :
    inGrid ![10, 10, 10]
      ((loopT (1 / 1000000) uniformX ![1, 1, 1] ![10, 10, 10] (1 / 5) (1 / 2) 10 9
        (initWalk ![0, 5, 5] ![1 / 2, 11 / 2, 11 / 2] T0 flT0 1)).nextIND (1 / 1000000)
        (uniformX.at ![9, 5, 5]) ![1, 1, 1]) = false ∧
    (walkT (1 / 1000000) uniformX ![0, 5, 5] ![1 / 2, 11 / 2, 11 / 2] ![1, 1, 1]
      ![10, 10, 10] (1 / 5) (1 / 2) 10 T0 flT0 1).dotprod < 1 / 2 ∧
    TrackIt (1 / 1000000) uniformX ![0, 5, 5] ![1 / 2, 11 / 2, 11 / 2] ![1, 1, 1]
      ![10, 10, 10] (1 / 5) (1 / 2) 10 T0 flT0 1 = none := by
  have hs := uniformX_loop (1 / 1000000) (by norm_num) (by norm_num) T0 flT0 10 9
    (le_refl _) (by norm_num)
  have hwalk := uniformX_walk (1 / 1000000) (by norm_num) (by norm_num) T0 flT0 10 (le_refl _)
  obtain ⟨_, a2, a3, _, a5, _, _, _⟩ :=
    uniformXState_last (1 / 1000000) (by norm_num) (by norm_num) T0 flT0 _ hs
  refine ⟨?_, ?_, ?_⟩
  · rw [hs.2.1] at a2
    exact a2
  · rw [hwalk, a5]; norm_num
  · rw [TrackIt_eq_none_iff, hwalk, a3]
    norm_num

/-- C4 (as amended): `TrackIt` takes the fatal exit exactly when the step count with
which the loop is left has reached `arrMax`, whatever else happened in the last
iteration; when the loop is left with fewer than `arrMax` steps, the continuation
scalar test or the alignment test has failed and `TrackIt` returns the recorded
path. -/
theorem TrackIt_abort_iff (EPS_V : ℚ) (CC : Field) (IND : Fin 3 → Int)
    (PHYSIND Edge : Fin 3 → ℚ) (dim : Fin 3 → Int) (minFA maxAng : ℚ) (arrMax : Int)
    (T : Nat → Fin 3 → Int) (flT : Nat → Fin 3 → ℚ) (FB : Int) :
    (TrackIt EPS_V CC IND PHYSIND Edge dim minFA maxAng arrMax T flT FB = none ↔
      arrMax ≤ (walkT EPS_V CC IND PHYSIND Edge dim minFA maxAng arrMax T flT FB).tracL) ∧
    (((walkT EPS_V CC IND PHYSIND Edge dim minFA maxAng arrMax T flT FB).tracL : Int) < arrMax →
      (CC.at (walkT EPS_V CC IND PHYSIND Edge dim minFA maxAng arrMax T flT FB).IND 3 < minFA ∨
        (walkT EPS_V CC IND PHYSIND Edge dim minFA maxAng arrMax T flT FB).dotprod < maxAng) ∧
      TrackIt EPS_V CC IND PHYSIND Edge dim minFA maxAng arrMax T flT FB =
        some
          { tracL := (walkT EPS_V CC IND PHYSIND Edge dim minFA maxAng arrMax T flT FB).tracL,
            IND := (walkT EPS_V CC IND PHYSIND Edge dim minFA maxAng arrMax T flT FB).IND,
            T := (walkT EPS_V CC IND PHYSIND Edge dim minFA maxAng arrMax T flT FB).T,
            flT := (walkT EPS_V CC IND PHYSIND Edge dim minFA maxAng arrMax T flT FB).flT,
            physL :=
              (walkT EPS_V CC IND PHYSIND Edge dim minFA maxAng arrMax T flT FB).physdist }) := by
  refine ⟨TrackIt_eq_none_iff _ _ _ _ _ _ _ _ _ _ _ _, ?_⟩
  intro hlt
  refine ⟨?_, TrackIt_of_lt _ _ _ _ _ _ _ _ _ _ _ _ hlt⟩
  have hc := walkT_cond_false EPS_V CC IND PHYSIND Edge dim minFA maxAng arrMax T flT FB
  simp only [condT, Bool.and_eq_false_iff, decide_eq_false_iff_not, not_lt, ge_iff_le,
    not_le] at hc
  rcases hc with (h | h) | h
  · exact absurd hlt (not_lt.mpr h)
  · exact Or.inl h
  · exact Or.inr h

/-! ## C5: leaving the grid -/

/-- First iteration of a walk seeded at the centre of the only voxel of a 1x1x1 grid
of direction `(1,0,0)`: the step reaches index `(1,0,0)`, outside the grid. -/
theorem oneVoxel_first (T : Nat → Fin 3 → Int) (flT : Nat → Fin 3 → ℚ) :
    walkback ((initWalk ![0, 0, 0] ![1 / 2, 1 / 2, 1 / 2] T flT 1).stest (1 / 1000000)
      (uniformX.at ![0, 0, 0]) ![1, 1, 1]) = false ∧
    inGrid ![1, 1, 1] ((initWalk ![0, 0, 0] ![1 / 2, 1 / 2, 1 / 2] T flT 1).nextIND
      (1 / 1000000) (uniformX.at ![0, 0, 0]) ![1, 1, 1]) = false := by
  obtain ⟨d0, d1, d2, _⟩ := uniformX_dir ![0, 0, 0]
  obtain ⟨a, _, c, _, _⟩ := xstep_next (1 / 1000000) (by norm_num) (by norm_num)
    (uniformX.at ![0, 0, 0]) d0 d1 d2 (initWalk ![0, 0, 0] ![1 / 2, 1 / 2, 1 / 2] T flT 1)
    0 0 0 (1 / 2) rfl
    (by funext n; fin_cases n <;> simp [initWalk]) rfl (by norm_num) (by norm_num)
  refine ⟨a, ?_⟩
  rw [c]
  simp [inGrid]

/-- C5, a failing input: on a 1x1x1 grid with `maxAng = 0` the first step leaves the
grid, the index becomes the sentinel `(0,0,0)` and the alignment `0`, but the loop
condition holds again in the state that iteration leaves (`0 >= maxAng`), and the
second iteration records the sentinel `(0,0,0)` as row `T[1]`; the comment of lines
319-321 has the walk exit at the start of the next loop. -/
theorem TrackIt_records_after_leaving_grid :
    walkback ((initWalk ![0, 0, 0] ![1 / 2, 1 / 2, 1 / 2] T0 flT0 1).stest (1 / 1000000)
      (uniformX.at ![0, 0, 0]) ![1, 1, 1]) = false ∧
    inGrid ![1, 1, 1] ((initWalk ![0, 0, 0] ![1 / 2, 1 / 2, 1 / 2] T0 flT0 1).nextIND
      (1 / 1000000) (uniformX.at ![0, 0, 0]) ![1, 1, 1]) = false ∧
    condT uniformX (1 / 5) 0 3 (bodyT (1 / 1000000) uniformX ![1, 1, 1] ![1, 1, 1]
      (initWalk ![0, 0, 0] ![1 / 2, 1 / 2, 1 / 2] T0 flT0 1)) = true ∧
    (loopT (1 / 1000000) uniformX ![1, 1, 1] ![1, 1, 1] (1 / 5) 0 3 2
      (initWalk ![0, 0, 0] ![1 / 2, 1 / 2, 1 / 2] T0 flT0 1)).tracL = 2 ∧
    (loopT (1 / 1000000) uniformX ![1, 1, 1] ![1, 1, 1] (1 / 5) 0 3 2
      (initWalk ![0, 0, 0] ![1 / 2, 1 / 2, 1 / 2] T0 flT0 1)).T 1 = (fun _ => 0) := by
  obtain ⟨hw, hg⟩ := oneVoxel_first T0 flT0
  have hb := bodyT_outside (1 / 1000000) uniformX ![1, 1, 1] ![1, 1, 1]
    (initWalk ![0, 0, 0] ![1 / 2, 1 / 2, 1 / 2] T0 flT0 1) hw hg
  have hc0 : condT uniformX (1 / 5) 0 3
      (initWalk ![0, 0, 0] ![1 / 2, 1 / 2, 1 / 2] T0 flT0 1) = true := by
    simp [condT, initWalk, uniformX, Field.at]
    norm_num
  have hc1 : condT uniformX (1 / 5) 0 3 (bodyT (1 / 1000000) uniformX ![1, 1, 1] ![1, 1, 1]
      (initWalk ![0, 0, 0] ![1 / 2, 1 / 2, 1 / 2] T0 flT0 1)) = true := by
    rw [hb]
    simp [condT, initWalk, uniformX, Field.at]
    norm_num
  have hl : loopT (1 / 1000000) uniformX ![1, 1, 1] ![1, 1, 1] (1 / 5) 0 3 2
      (initWalk ![0, 0, 0] ![1 / 2, 1 / 2, 1 / 2] T0 flT0 1)
      = bodyT (1 / 1000000) uniformX ![1, 1, 1] ![1, 1, 1]
          (bodyT (1 / 1000000) uniformX ![1, 1, 1] ![1, 1, 1]
            (initWalk ![0, 0, 0] ![1 / 2, 1 / 2, 1 / 2] T0 flT0 1)) := by
    rw [loopT_succ_of_cond _ _ _ _ _ _ _ _ _ hc0, loopT_succ_of_cond _ _ _ _ _ _ _ _ _ hc1]
    rfl
  refine ⟨hw, hg, hc1, ?_, ?_⟩
  · rw [hl, bodyT_tracL, bodyT_tracL]
    rfl
  · rw [hl, bodyT_T, bodyT_tracL]
    show Function.update _ (0 + 1) _ 1 = _
    rw [Function.update_same, hb]

/-- Leaving the grid when `maxAng > 0`: an iteration whose step moves the voxel index
outside the grid sets the index to the sentinel `(0,0,0)` and the alignment to `0`;
the loop condition is then false, so the loop is left in that very state: the last
row recorded is the voxel the walk left the grid from. -/
theorem TrackIt_leaves_grid (EPS_V : ℚ) (CC : Field) (Edge : Fin 3 → ℚ) (dim : Fin 3 → Int)
    (minFA maxAng : ℚ) (arrMax : Int) (hAng : 0 < maxAng) (s : Walk)
    (hw : walkback (s.stest EPS_V (CC.at s.IND) Edge) = false)
    (hg : inGrid dim (s.nextIND EPS_V (CC.at s.IND) Edge) = false) :
    (bodyT EPS_V CC Edge dim s).IND = (fun _ => 0) ∧
    (bodyT EPS_V CC Edge dim s).dotprod = 0 ∧
    condT CC minFA maxAng arrMax (bodyT EPS_V CC Edge dim s) = false ∧
    (∀ fuel, loopT EPS_V CC Edge dim minFA maxAng arrMax fuel (bodyT EPS_V CC Edge dim s)
      = bodyT EPS_V CC Edge dim s) ∧
    (bodyT EPS_V CC Edge dim s).tracL = s.tracL + 1 ∧
    (bodyT EPS_V CC Edge dim s).T = Function.update s.T s.tracL s.IND := by
  have hI : (bodyT EPS_V CC Edge dim s).IND = (fun _ => 0) := by
    rw [bodyT_outside _ _ _ _ _ hw hg]
  have hd : (bodyT EPS_V CC Edge dim s).dotprod = 0 := by
    rw [bodyT_outside _ _ _ _ _ hw hg]
  have hc := condT_false_of_dotprod_zero CC minFA maxAng arrMax _ hAng hd
  exact ⟨hI, hd, hc, fun fuel => loopT_of_cond_false _ _ _ _ _ _ _ _ _ hc,
    bodyT_tracL _ _ _ _ _, bodyT_T _ _ _ _ _⟩

theorem TrackIt_leaves_grid_witness :
    (bodyT (1 / 1000000) uniformX ![1, 1, 1] ![1, 1, 1]
      (initWalk ![0, 0, 0] ![1 / 2, 1 / 2, 1 / 2] T0 flT0 1)).IND = (fun _ => 0) ∧
    condT uniformX (1 / 5) (1 / 2) 3 (bodyT (1 / 1000000) uniformX ![1, 1, 1] ![1, 1, 1]
      (initWalk ![0, 0, 0] ![1 / 2, 1 / 2, 1 / 2] T0 flT0 1)) = false :=
  have h := TrackIt_leaves_grid (1 / 1000000) uniformX ![1, 1, 1] ![1, 1, 1] (1 / 5) (1 / 2) 3
    (by norm_num) (initWalk ![0, 0, 0] ![1 / 2, 1 / 2, 1 / 2] T0 flT0 1)
    (oneVoxel_first T0 flT0).1 (oneVoxel_first T0 flT0).2
  ⟨h.1, h.2.2.1⟩

/-! ## Concrete instances of the general properties -/

theorem TrackIt_no_revisit_witness :
    (0 : ℚ) < 1 / 2 ∧
    ∀ r, TrackIt (1 / 1000000) uniformX ![0, 5, 5] ![1 / 2, 11 / 2, 11 / 2] ![1, 1, 1]
        ![10, 10, 10] (1 / 5) (1 / 2) 100 T0 flT0 1 = some r →
      ∀ i j, i < r.tracL → j < r.tracL → r.T i = r.T j → i = j :=
  ⟨by norm_num,
    (TrackIt_no_revisit (1 / 1000000) uniformX ![0, 5, 5] ![1 / 2, 11 / 2, 11 / 2] ![1, 1, 1]
      ![10, 10, 10] (1 / 5) (1 / 2) 100 T0 flT0 1 (by norm_num)).2.1⟩

theorem TrackIt_recorded_inGrid_witness :
    (∀ n : Fin 3, (0 : Int) ≤ ![0, 5, 5] n ∧ (![0, 5, 5] : Fin 3 → Int) n < ![10, 10, 10] n) ∧
    ∀ r, TrackIt (1 / 1000000) uniformX ![0, 5, 5] ![1 / 2, 11 / 2, 11 / 2] ![1, 1, 1]
        ![10, 10, 10] (1 / 5) (1 / 2) 100 T0 flT0 1 = some r →
      ∀ i, i < r.tracL → ∀ n, 0 ≤ r.T i n ∧ r.T i n < ![10, 10, 10] n :=
  ⟨by intro n; fin_cases n <;> simp,
    (TrackIt_recorded_inGrid (1 / 1000000) uniformX ![0, 5, 5] ![1 / 2, 11 / 2, 11 / 2]
      ![1, 1, 1] ![10, 10, 10] (1 / 5) (1 / 2) 100 T0 flT0 1
      (by intro n; fin_cases n <;> simp)).2⟩

theorem TrackIt_two_voxels_witness :
    ∃ r, TrackIt (1 / 1000000) mutualX ![0, 0, 0] ![1 / 2, 1 / 2, 1 / 2] ![1, 1, 1]
        ![2, 1, 1] (1 / 5) (1 / 2) 100 T0 flT0 1 = some r ∧ r.tracL ≤ 3 :=
  TrackIt_two_voxels (1 / 1000000) mutualX ![0, 0, 0] ![1 / 2, 1 / 2, 1 / 2] ![1, 1, 1]
    ![2, 1, 1] (1 / 5) (1 / 2) 100 T0 flT0 1 (by norm_num) (by norm_num)
    (by intro n; fin_cases n <;> simp) (by simp)

/-! ## `TrackItP` against `TrackIt` -/

theorem stest_congr (EPS_V : ℚ) (d d' : Nat → ℚ) (Edge : Fin 3 → ℚ) (s : Walk)
    (h : ∀ n : Fin 3, d n = d' n) : s.stest EPS_V d Edge = s.stest EPS_V d' Edge := by
  funext n
  simp only [Walk.stest, stest, targedge, divid, vsign, h]

theorem vsign_congr (d d' : Nat → ℚ) (FB : Int) (h : ∀ n : Fin 3, d n = d' n) :
    vsign d FB = vsign d' FB := by
  funext n
  simp only [vsign, h]

theorem goWin_core_congr (d d' : Nat → ℚ) (FB : Int) (IND : Fin 3 → Int)
    (Iam0 Edge : Fin 3 → ℚ) (vs : Fin 3 → Int) (st : Fin 3 → ℚ) (ord : Fin 3 → Fin 3)
    (h : ∀ n : Fin 3, d n = d' n) :
    goWin d FB IND Iam0 Edge vs st ord = goWin d' FB IND Iam0 Edge vs st ord := by
  simp only [goWin, h]

theorem goWin_congr (EPS_V : ℚ) (d d' : Nat → ℚ) (Edge : Fin 3 → ℚ) (s : Walk)
    (h : ∀ n : Fin 3, d n = d' n) : s.goWin EPS_V d Edge = s.goWin EPS_V d' Edge := by
  unfold Walk.goWin
  rw [stest_congr EPS_V d d' Edge s h, vsign_congr d d' s.FB h,
    goWin_core_congr d d' _ _ _ _ _ _ _ h]

theorem nextIND_congr (EPS_V : ℚ) (d d' : Nat → ℚ) (Edge : Fin 3 → ℚ) (s : Walk)
    (h : ∀ n : Fin 3, d n = d' n) : s.nextIND EPS_V d Edge = s.nextIND EPS_V d' Edge := by
  unfold Walk.nextIND
  rw [goWin_congr EPS_V d d' Edge s h]

theorem nextIam0_congr (EPS_V : ℚ) (d d' : Nat → ℚ) (Edge : Fin 3 → ℚ) (s : Walk)
    (h : ∀ n : Fin 3, d n = d' n) : s.nextIam0 EPS_V d Edge = s.nextIam0 EPS_V d' Edge := by
  unfold Walk.nextIam0
  rw [goWin_congr EPS_V d d' Edge s h, stest_congr EPS_V d d' Edge s h]
  funext n
  rw [h]

theorem nextPhysdist_congr (EPS_V : ℚ) (d d' : Nat → ℚ) (Edge : Fin 3 → ℚ) (s : Walk)
    (h : ∀ n : Fin 3, d n = d' n) :
    s.nextPhysdist EPS_V d Edge = s.nextPhysdist EPS_V d' Edge := by
  unfold Walk.nextPhysdist
  rw [goWin_congr EPS_V d d' Edge s h, stest_congr EPS_V d d' Edge s h]

theorem dotRaw_congr (a a' b b' : Nat → ℚ) (FB : Int) (ha : ∀ n : Fin 3, a n = a' n)
    (hb : ∀ n : Fin 3, b n = b' n) : dotRaw a b FB = dotRaw a' b' FB := by
  have a0 := ha 0
  have a1 := ha 1
  have a2 := ha 2
  have b0 := hb 0
  have b1 := hb 1
  have b2 := hb 2
  simp only [Fin.val_zero, Fin.val_one, Fin.val_two] at a0 a1 a2 b0 b1 b2
  simp only [dotRaw, a0, a1, a2, b0, b1, b2]

/-- One iteration of `TrackItP` does to the shared variables what one iteration of
`TrackIt` does, when `tt` is the row of the current voxel, that voxel is inside the
grid and the two fields agree inside the grid; afterwards `tt` is the row of the new
voxel unless the alignment was set to `0`. -/
theorem bodyP_sim (EPS_V : ℚ) (CC : Field) (CCp : FieldP) (ID2 : IndexGrid)
    (Edge : Fin 3 → ℚ) (dim : Fin 3 → Int)
    (hF : ∀ v, inGrid dim v = true → ∀ k, k ≤ 3 → CC.at v k = CCp (ID2.at v) k)
    (sp : WalkP) (hin : inGrid dim sp.IND = true) (htt : sp.tt = ID2.at sp.IND) :
    (bodyP EPS_V CCp ID2 Edge dim sp).toWalk = bodyT EPS_V CC Edge dim sp.toWalk ∧
    ((bodyP EPS_V CCp ID2 Edge dim sp).dotprod = 0 ∨
      (bodyP EPS_V CCp ID2 Edge dim sp).tt = ID2.at (bodyP EPS_V CCp ID2 Edge dim sp).IND) := by
  have hd : ∀ n : Fin 3, CCp sp.tt n = CC.at sp.IND n := by
    intro n
    rw [htt]
    exact (hF sp.IND hin n (by omega)).symm
  have e1 := stest_congr EPS_V _ _ Edge sp.toWalk hd
  have e2 := goWin_congr EPS_V _ _ Edge sp.toWalk hd
  have e3 := nextIND_congr EPS_V _ _ Edge sp.toWalk hd
  have e4 := nextIam0_congr EPS_V _ _ Edge sp.toWalk hd
  have e5 := nextPhysdist_congr EPS_V _ _ Edge sp.toWalk hd
  unfold bodyP
  simp only [e1, e2, e3, e4, e5]
  by_cases hw : walkback (sp.toWalk.stest EPS_V (CC.at sp.IND) Edge) = true
  · rw [if_pos hw, bodyT_walkback _ _ _ _ _ hw]
    exact ⟨rfl, Or.inl rfl⟩
  · have hw' : walkback (sp.toWalk.stest EPS_V (CC.at sp.IND) Edge) = false := by
      simpa using hw
    rw [if_neg hw]
    by_cases hg : inGrid dim (sp.toWalk.nextIND EPS_V (CC.at sp.IND) Edge) = true
    · rw [if_pos hg, bodyT_inside _ _ _ _ _ hw' hg]
      have hold : inGrid dim (fun n => sp.toWalk.nextIND EPS_V (CC.at sp.IND) Edge n
          - (sp.toWalk.goWin EPS_V (CC.at sp.IND) Edge).1 n) = true := by
        rw [nextIND_sub_go]; exact hin
      have hraw : dotRaw (CCp (ID2.at (sp.toWalk.nextIND EPS_V (CC.at sp.IND) Edge)))
          (CCp (ID2.at (fun n => sp.toWalk.nextIND EPS_V (CC.at sp.IND) Edge n
            - (sp.toWalk.goWin EPS_V (CC.at sp.IND) Edge).1 n))) sp.FB
          = dotRaw (CC.at (sp.toWalk.nextIND EPS_V (CC.at sp.IND) Edge))
            (CC.at (fun n => sp.toWalk.nextIND EPS_V (CC.at sp.IND) Edge n
              - (sp.toWalk.goWin EPS_V (CC.at sp.IND) Edge).1 n)) sp.FB :=
        dotRaw_congr _ _ _ _ _
          (fun n => (hF _ hg n (by omega)).symm) (fun n => (hF _ hold n (by omega)).symm)
      rw [hraw]
      exact ⟨rfl, Or.inr rfl⟩
    · have hg' : inGrid dim (sp.toWalk.nextIND EPS_V (CC.at sp.IND) Edge) = false := by
        simpa using hg
      rw [if_neg hg, bodyT_outside _ _ _ _ _ hw' hg']
      exact ⟨rfl, Or.inl rfl⟩

theorem loopP_of_cond_false (EPS_V : ℚ) (CC : FieldP) (ID2 : IndexGrid) (Edge : Fin 3 → ℚ)
    (dim : Fin 3 → Int) (minFA maxAng : ℚ) (arrMax : Int) (fuel : Nat) (s : WalkP)
    (h : condP CC minFA maxAng arrMax s = false) :
    loopP EPS_V CC ID2 Edge dim minFA maxAng arrMax fuel s = s := by
  cases fuel with
  | zero => rfl
  | succ n => simp [loopP, h]

theorem loopP_succ_of_cond (EPS_V : ℚ) (CC : FieldP) (ID2 : IndexGrid) (Edge : Fin 3 → ℚ)
    (dim : Fin 3 → Int) (minFA maxAng : ℚ) (arrMax : Int) (fuel : Nat) (s : WalkP)
    (h : condP CC minFA maxAng arrMax s = true) :
    loopP EPS_V CC ID2 Edge dim minFA maxAng arrMax (fuel + 1) s
      = loopP EPS_V CC ID2 Edge dim minFA maxAng arrMax fuel
          (bodyP EPS_V CC ID2 Edge dim s) := by
  simp [loopP, h]

theorem bodyP_tracL (EPS_V : ℚ) (CC : FieldP) (ID2 : IndexGrid) (Edge : Fin 3 → ℚ)
    (dim : Fin 3 → Int) (s : WalkP) :
    (bodyP EPS_V CC ID2 Edge dim s).tracL = s.tracL + 1 := by
  unfold bodyP
  simp only
  split
  · rfl
  · split <;> rfl

/-- The fuel `arrMax.toNat` suffices for the loop of `TrackItP` as well. -/
theorem loopP_cond_false (EPS_V : ℚ) (CC : FieldP) (ID2 : IndexGrid) (Edge : Fin 3 → ℚ)
    (dim : Fin 3 → Int) (minFA maxAng : ℚ) (arrMax : Int) (fuel : Nat) (s : WalkP)
    (h : arrMax ≤ (fuel : Int) + s.tracL) :
    condP CC minFA maxAng arrMax (loopP EPS_V CC ID2 Edge dim minFA maxAng arrMax fuel s)
      = false := by
  induction fuel generalizing s with
  | zero =>
    simp only [loopP, condP]
    have : ¬ ((s.tracL : Int) < arrMax) := by push_cast at h; omega
    simp [this]
  | succ n ih =>
    unfold loopP
    split
    · apply ih
      rw [bodyP_tracL]
      push_cast at h ⊢
      omega
    · next hc => simpa using hc

theorem walkP_cond_false (EPS_V : ℚ) (CC : FieldP) (IND : Fin 3 → Int)
    (PHYSIND Edge : Fin 3 → ℚ) (dim : Fin 3 → Int) (minFA maxAng : ℚ) (arrMax : Int)
    (T : Nat → Fin 3 → Int) (flT : Nat → Fin 3 → ℚ) (FB : Int) (ID2 : IndexGrid) :
    condP CC minFA maxAng arrMax
      (walkP EPS_V CC IND PHYSIND Edge dim minFA maxAng arrMax T flT FB ID2) = false := by
  unfold walkP
  apply loopP_cond_false
  show arrMax ≤ (arrMax.toNat : Int) + ((0 : Nat) : Int)
  have := Int.self_le_toNat arrMax
  push_cast
  omega

theorem bodyP_walkback (EPS_V : ℚ) (CC : FieldP) (ID2 : IndexGrid) (Edge : Fin 3 → ℚ)
    (dim : Fin 3 → Int) (s : WalkP)
    (hw : walkback (s.toWalk.stest EPS_V (CC s.tt) Edge) = true) :
    bodyP EPS_V CC ID2 Edge dim s
      = { toWalk := { s.toWalk.record with dotprod := 0 }, tt := s.tt } := by
  simp [bodyP, hw]

theorem bodyP_outside (EPS_V : ℚ) (CC : FieldP) (ID2 : IndexGrid) (Edge : Fin 3 → ℚ)
    (dim : Fin 3 → Int) (s : WalkP)
    (hw : walkback (s.toWalk.stest EPS_V (CC s.tt) Edge) = false)
    (hg : inGrid dim (s.toWalk.nextIND EPS_V (CC s.tt) Edge) = false) :
    bodyP EPS_V CC ID2 Edge dim s
      = { toWalk := { s.toWalk.record with
                      Iam0 := s.toWalk.nextIam0 EPS_V (CC s.tt) Edge, IND := fun _ => 0,
                      dotprod := 0, physdist := s.toWalk.nextPhysdist EPS_V (CC s.tt) Edge },
          tt := s.tt } := by
  simp [bodyP, hw, hg]

/-- The two loop conditions agree when `tt` is the row of the current in-grid voxel,
or when the alignment test fails anyway. -/
theorem condP_eq_condT (CC : Field) (CCp : FieldP) (ID2 : IndexGrid) (dim : Fin 3 → Int)
    (minFA maxAng : ℚ) (arrMax : Int)
    (hF : ∀ v, inGrid dim v = true → ∀ k, k ≤ 3 → CC.at v k = CCp (ID2.at v) k)
    (sp : WalkP) (hin : inGrid dim sp.IND = true)
    (htt : sp.dotprod < maxAng ∨ sp.tt = ID2.at sp.IND) :
    condP CCp minFA maxAng arrMax sp = condT CC minFA maxAng arrMax sp.toWalk := by
  rcases htt with h | h
  · have : ¬ (maxAng ≤ sp.dotprod) := not_le.mpr h
    simp [condP, condT, this]
  · simp only [condP, condT]
    rw [h, ← hF sp.IND hin 3 (le_refl _)]

/-- The loops of `TrackItP` and `TrackIt` run in lockstep on the shared variables. -/
theorem loopP_sim (EPS_V : ℚ) (CC : Field) (CCp : FieldP) (ID2 : IndexGrid)
    (Edge : Fin 3 → ℚ) (dim : Fin 3 → Int) (minFA maxAng : ℚ) (arrMax : Int)
    (hAng : 0 < maxAng)
    (hF : ∀ v, inGrid dim v = true → ∀ k, k ≤ 3 → CC.at v k = CCp (ID2.at v) k)
    (fuel : Nat) (sp : WalkP) (hin : inGrid dim sp.IND = true)
    (htt : sp.dotprod < maxAng ∨ sp.tt = ID2.at sp.IND) :
    (loopP EPS_V CCp ID2 Edge dim minFA maxAng arrMax fuel sp).toWalk
      = loopT EPS_V CC Edge dim minFA maxAng arrMax fuel sp.toWalk := by
  induction fuel generalizing sp with
  | zero => rfl
  | succ n ih =>
    have hc := condP_eq_condT CC CCp ID2 dim minFA maxAng arrMax hF sp hin htt
    by_cases hT : condT CC minFA maxAng arrMax sp.toWalk = true
    · rw [loopT_succ_of_cond _ _ _ _ _ _ _ _ _ hT,
        loopP_succ_of_cond _ _ _ _ _ _ _ _ _ _ (hc.trans hT)]
      have hd := condT_dotprod _ _ _ _ _ hT
      have htt' : sp.tt = ID2.at sp.IND := by
        rcases htt with h | h
        · exact absurd hd (not_le.mpr h)
        · exact h
      obtain ⟨e, ht⟩ := bodyP_sim EPS_V CC CCp ID2 Edge dim hF sp hin htt'
      rw [← e]
      apply ih
      · have hI : (bodyP EPS_V CCp ID2 Edge dim sp).IND
            = (bodyT EPS_V CC Edge dim sp.toWalk).IND := by rw [← e]
        rw [hI]
        rcases bodyT_IND_cases EPS_V CC Edge dim sp.toWalk with h | h | h
        · rw [h]; exact hin
        · rw [h]; exact inGrid_sentinel dim sp.IND hin
        · exact h
      · rcases ht with h | h
        · left
          rw [h]; exact hAng
        · right
          exact h
    · have hT' : condT CC minFA maxAng arrMax sp.toWalk = false := by simpa using hT
      rw [loopT_of_cond_false _ _ _ _ _ _ _ _ _ hT',
        loopP_of_cond_false _ _ _ _ _ _ _ _ _ _ (hc.trans hT')]

/-! ## C1: the two implementations -/

theorem sentinel_eq : (fun _ : Fin 3 => (0 : Int)) = ![0, 0, 0] := by
  funext n
  fin_cases n <;> rfl

theorem gatedX_dir (v : Fin 3 → Int) :
    gatedX.at v 0 = 1 ∧ gatedX.at v 1 = 0 ∧ gatedX.at v 2 = 0 := by
  simp [gatedX, Field.at]

theorem gatedRows_dir (row : Int) :
    gatedRows row 0 = 1 ∧ gatedRows row 1 = 0 ∧ gatedRows row 2 = 0 := by
  simp [gatedRows, gatedX]

/-- On the 2x1x1 grid with `maxAng = 0`, `TrackIt` seeded in voxel `(1,0,0)` of
`gatedX` leaves the grid, looks up the sentinel voxel, whose scalar is below `minFA`,
and returns one step. -/
theorem gatedX_TrackIt :
    ∃ r, TrackIt (1 / 1000000) gatedX ![1, 0, 0] ![3 / 2, 1 / 2, 1 / 2] ![1, 1, 1] ![2, 1, 1]
      (1 / 2) 0 2 T0 flT0 1 = some r ∧ r.tracL = 1 := by
  obtain ⟨d0, d1, d2⟩ := gatedX_dir ![1, 0, 0]
  obtain ⟨hw, _, hI, _, _⟩ := xstep_next (1 / 1000000) (by norm_num) (by norm_num)
    (gatedX.at ![1, 0, 0]) d0 d1 d2 (initWalk ![1, 0, 0] ![3 / 2, 1 / 2, 1 / 2] T0 flT0 1)
    1 0 0 (3 / 2) rfl
    (by funext n; fin_cases n <;> simp [initWalk]) rfl (by norm_num) (by norm_num)
  have hg : inGrid ![2, 1, 1] ((initWalk ![1, 0, 0] ![3 / 2, 1 / 2, 1 / 2] T0 flT0 1).nextIND
      (1 / 1000000) (gatedX.at ![1, 0, 0]) ![1, 1, 1]) = false := by
    rw [hI]
    simp [inGrid]
  have hb := bodyT_outside (1 / 1000000) gatedX ![1, 1, 1] ![2, 1, 1]
    (initWalk ![1, 0, 0] ![3 / 2, 1 / 2, 1 / 2] T0 flT0 1) hw hg
  have hc0 : condT gatedX (1 / 2) 0 2
      (initWalk ![1, 0, 0] ![3 / 2, 1 / 2, 1 / 2] T0 flT0 1) = true := by
    simp [condT, initWalk, gatedX, Field.at]
    norm_num
  have hc1 : condT gatedX (1 / 2) 0 2 (bodyT (1 / 1000000) gatedX ![1, 1, 1] ![2, 1, 1]
      (initWalk ![1, 0, 0] ![3 / 2, 1 / 2, 1 / 2] T0 flT0 1)) = false := by
    rw [hb]
    simp [condT, gatedX, Field.at]
  have hwalk : walkT (1 / 1000000) gatedX ![1, 0, 0] ![3 / 2, 1 / 2, 1 / 2] ![1, 1, 1]
      ![2, 1, 1] (1 / 2) 0 2 T0 flT0 1
      = bodyT (1 / 1000000) gatedX ![1, 1, 1] ![2, 1, 1]
          (initWalk ![1, 0, 0] ![3 / 2, 1 / 2, 1 / 2] T0 flT0 1) := by
    unfold walkT
    have h2 : (2 : Int).toNat = 1 + 1 := rfl
    rw [h2, loopT_succ_of_cond _ _ _ _ _ _ _ _ _ hc0, loopT_of_cond_false _ _ _ _ _ _ _ _ _ hc1]
  refine ⟨_, TrackIt_of_lt _ _ _ _ _ _ _ _ _ _ _ _ ?_, ?_⟩
  · rw [hwalk, bodyT_tracL]
    norm_num [initWalk]
  · show (walkT _ _ _ _ _ _ _ _ _ _ _ _).tracL = 1
    rw [hwalk, bodyT_tracL]
    rfl

/-- On the same input `TrackItP` keeps the row `tt` of the voxel it left, passes the
loop check once more, records the sentinel, and ends in the fatal exit. -/
theorem gatedX_TrackItP :
    TrackItP (1 / 1000000) gatedRows ![1, 0, 0] ![3 / 2, 1 / 2, 1 / 2] ![1, 1, 1] ![2, 1, 1]
      (1 / 2) 0 2 T0 flT0 1 xIndex = none := by
  obtain ⟨d0, d1, d2⟩ := gatedRows_dir (xIndex.at ![1, 0, 0])
  obtain ⟨hw, _, hI, hP, _⟩ := xstep_next (1 / 1000000) (by norm_num) (by norm_num)
    (gatedRows (xIndex.at ![1, 0, 0])) d0 d1 d2
    (initWalk ![1, 0, 0] ![3 / 2, 1 / 2, 1 / 2] T0 flT0 1)
    1 0 0 (3 / 2) rfl
    (by funext n; fin_cases n <;> simp [initWalk]) rfl (by norm_num) (by norm_num)
  have hg : inGrid ![2, 1, 1] ((initWalk ![1, 0, 0] ![3 / 2, 1 / 2, 1 / 2] T0 flT0 1).nextIND
      (1 / 1000000) (gatedRows (xIndex.at ![1, 0, 0])) ![1, 1, 1]) = false := by
    rw [hI]
    simp [inGrid]
  have hb := bodyP_outside (1 / 1000000) gatedRows xIndex ![1, 1, 1] ![2, 1, 1]
    { toWalk := initWalk ![1, 0, 0] ![3 / 2, 1 / 2, 1 / 2] T0 flT0 1,
      tt := xIndex.at ![1, 0, 0] } hw hg
  have hc0 : condP gatedRows (1 / 2) 0 2
      { toWalk := initWalk ![1, 0, 0] ![3 / 2, 1 / 2, 1 / 2] T0 flT0 1,
        tt := xIndex.at ![1, 0, 0] } = true := by
    simp [condP, initWalk, gatedRows, gatedX, xIndex, IndexGrid.at]
    norm_num
  have hc1 : condP gatedRows (1 / 2) 0 2 (bodyP (1 / 1000000) gatedRows xIndex ![1, 1, 1]
      ![2, 1, 1] { toWalk := initWalk ![1, 0, 0] ![3 / 2, 1 / 2, 1 / 2] T0 flT0 1,
                   tt := xIndex.at ![1, 0, 0] }) = true := by
    rw [hb]
    simp [condP, initWalk, gatedRows, gatedX, xIndex, IndexGrid.at]
    norm_num
  have hst := xstep_stest (1 / 1000000) (by norm_num) (by norm_num)
    (gatedRows (xIndex.at ![1, 0, 0])) d0 d1 d2
    (bodyP (1 / 1000000) gatedRows xIndex ![1, 1, 1] ![2, 1, 1]
      { toWalk := initWalk ![1, 0, 0] ![3 / 2, 1 / 2, 1 / 2] T0 flT0 1,
        tt := xIndex.at ![1, 0, 0] }).toWalk 0 0 0 (((1 : Int) : ℚ) + 1)
    (by rw [hb]; exact sentinel_eq) (by rw [hb]; exact hP) (by rw [hb]; rfl)
  have htt : (bodyP (1 / 1000000) gatedRows xIndex ![1, 1, 1] ![2, 1, 1]
      { toWalk := initWalk ![1, 0, 0] ![3 / 2, 1 / 2, 1 / 2] T0 flT0 1,
        tt := xIndex.at ![1, 0, 0] }).tt = xIndex.at ![1, 0, 0] := by
    rw [hb]
  have hw2 : walkback ((bodyP (1 / 1000000) gatedRows xIndex ![1, 1, 1] ![2, 1, 1]
      { toWalk := initWalk ![1, 0, 0] ![3 / 2, 1 / 2, 1 / 2] T0 flT0 1,
        tt := xIndex.at ![1, 0, 0] }).toWalk.stest (1 / 1000000)
      (gatedRows (bodyP (1 / 1000000) gatedRows xIndex ![1, 1, 1] ![2, 1, 1]
        { toWalk := initWalk ![1, 0, 0] ![3 / 2, 1 / 2, 1 / 2] T0 flT0 1,
          tt := xIndex.at ![1, 0, 0] }).tt) ![1, 1, 1]) = true := by
    rw [htt, hst, xstep_walkback _ (by norm_num)]
    exact decide_eq_true (by norm_num)
  have hb2 := bodyP_walkback (1 / 1000000) gatedRows xIndex ![1, 1, 1] ![2, 1, 1] _ hw2
  unfold TrackItP walkP
  have h2 : (2 : Int).toNat = 1 + 1 := rfl
  rw [h2, loopP_succ_of_cond _ _ _ _ _ _ _ _ _ _ hc0, loopP_succ_of_cond _ _ _ _ _ _ _ _ _ _ hc1,
    hb2]
  simp only [loopP, finish]
  rw [if_pos]
  rw [hb]
  show ((0 + 1 + 1 : Nat) : Int) ≥ 2
  norm_num

/-- C1, a failing input: the fields `gatedX` and `gatedRows` (through `xIndex`) hold
the same values at every voxel, yet with `maxAng = 0`, seeded in voxel `(1,0,0)` of the
2x1x1 grid, `TrackIt` returns one step and `TrackItP` takes the fatal exit.  Once the
walk has left the grid `TrackItP` resets `IND` and keeps the row `tt` of the voxel it
left (lines 533-540; line 378 says that `tt` changes when `IND` does), where `TrackIt`
looks up the sentinel `(0,0,0)`. -/
theorem TrackItP_differs_from_TrackIt :
    (∀ x y z : Int, ∀ k : Nat, gatedX x y z k = gatedRows (xIndex x y z) k) ∧
    (∃ r, TrackIt (1 / 1000000) gatedX ![1, 0, 0] ![3 / 2, 1 / 2, 1 / 2] ![1, 1, 1] ![2, 1, 1]
      (1 / 2) 0 2 T0 flT0 1 = some r ∧ r.tracL = 1) ∧
    TrackItP (1 / 1000000) gatedRows ![1, 0, 0] ![3 / 2, 1 / 2, 1 / 2] ![1, 1, 1] ![2, 1, 1]
      (1 / 2) 0 2 T0 flT0 1 xIndex = none :=
  ⟨fun _ _ _ _ => rfl, gatedX_TrackIt, gatedX_TrackItP⟩

/-- Agreement of the two functions where the row `tt` kept after leaving the grid is
never looked up: when `CC[x][y][z][k] = CCp[ID2[x][y][z]][k]` for every voxel
inside the grid and `k` in `0..3`, then for `maxAng > 0` and a seed voxel inside the
grid, `TrackItP` and `TrackIt` either both take the fatal exit or both return, with the
same step count, the same `T`, `flT`, `physL[0]` and final `IND`. -/
theorem TrackItP_eq_TrackIt (EPS_V : ℚ) (CC : Field) (CCp : FieldP) (ID2 : IndexGrid)
    (IND : Fin 3 → Int) (PHYSIND Edge : Fin 3 → ℚ) (dim : Fin 3 → Int) (minFA maxAng : ℚ)
    (arrMax : Int) (T : Nat → Fin 3 → Int) (flT : Nat → Fin 3 → ℚ) (FB : Int)
    (hF : ∀ x y z : Int, 0 ≤ x → x < dim 0 → 0 ≤ y → y < dim 1 → 0 ≤ z → z < dim 2 →
      ∀ k : Nat, k ≤ 3 → CC x y z k = CCp (ID2 x y z) k)
    (hAng : 0 < maxAng) (hSeed : ∀ n, 0 ≤ IND n ∧ IND n < dim n) :
    TrackItP EPS_V CCp IND PHYSIND Edge dim minFA maxAng arrMax T flT FB ID2
      = TrackIt EPS_V CC IND PHYSIND Edge dim minFA maxAng arrMax T flT FB := by
  have hF' : ∀ v, inGrid dim v = true → ∀ k, k ≤ 3 → CC.at v k = CCp (ID2.at v) k := by
    intro v hv k hk
    rw [inGrid_iff] at hv
    exact hF (v 0) (v 1) (v 2) (hv 0).1 (hv 0).2 (hv 1).1 (hv 1).2 (hv 2).1 (hv 2).2 k hk
  have hin : inGrid dim IND = true := (inGrid_iff dim IND).mpr hSeed
  have key := loopP_sim EPS_V CC CCp ID2 Edge dim minFA maxAng arrMax hAng hF' arrMax.toNat
    { toWalk := initWalk IND PHYSIND T flT FB, tt := ID2.at IND } hin (Or.inr rfl)
  unfold TrackItP TrackIt walkP walkT
  rw [key]

theorem TrackItP_eq_TrackIt_witness :
    TrackItP (1 / 1000000) gatedRows ![1, 0, 0] ![3 / 2, 1 / 2, 1 / 2] ![1, 1, 1] ![2, 1, 1]
        (1 / 2) (1 / 2) 2 T0 flT0 1 xIndex
      = TrackIt (1 / 1000000) gatedX ![1, 0, 0] ![3 / 2, 1 / 2, 1 / 2] ![1, 1, 1] ![2, 1, 1]
        (1 / 2) (1 / 2) 2 T0 flT0 1 :=
  TrackItP_eq_TrackIt (1 / 1000000) gatedX gatedRows xIndex ![1, 0, 0] ![3 / 2, 1 / 2, 1 / 2]
    ![1, 1, 1] ![2, 1, 1] (1 / 2) (1 / 2) 2 T0 flT0 1
    (fun _ _ _ _ _ _ _ _ _ _ _ => rfl) (by norm_num) (by intro n; fin_cases n <;> simp)

/-! ## C9: negating directions -/

theorem flipSign_sq (S : Int → Int → Int → Bool) (v : Fin 3 → Int) :
    ((flipSign S v : Int) : ℚ) * ((flipSign S v : Int) : ℚ) = 1 := by
  unfold flipSign
  split <;> norm_num

theorem flipDir_dir (S : Int → Int → Int → Bool) (F : Field) (v : Fin 3 → Int) (n : Fin 3) :
    (flipDir S F).at v n = ((flipSign S v : Int) : ℚ) * F.at v n := by
  have hn : (n : Nat) < 3 := n.isLt
  unfold flipDir flipSign Field.at
  by_cases h : S (v 0) (v 1) (v 2) = true
  · simp [h, hn]
  · simp [h]

theorem flipDir_scalar (S : Int → Int → Int → Bool) (F : Field) (v : Fin 3 → Int) :
    (flipDir S F).at v 3 = F.at v 3 := by
  simp [flipDir, Field.at]

theorem stest_eff (EPS_V : ℚ) (d d' : Nat → ℚ) (FB FB' : Int) (IND : Fin 3 → Int)
    (Iam0 Edge : Fin 3 → ℚ) (ha : ∀ n : Fin 3, |d' n| = |d n|)
    (hp : ∀ n : Fin 3, (FB' : ℚ) * d' n = (FB : ℚ) * d n) :
    stest EPS_V d' FB' IND Iam0 Edge = stest EPS_V d FB IND Iam0 Edge := by
  funext n
  have hq : d' n * (FB' : ℚ) = d n * (FB : ℚ) := by
    rw [mul_comm, hp n, mul_comm]
  simp only [stest, targedge, divid, vsign, hq, ha n, hp n]

theorem vsign_eff (d d' : Nat → ℚ) (FB FB' : Int)
    (hp : ∀ n : Fin 3, (FB' : ℚ) * d' n = (FB : ℚ) * d n) :
    vsign d' FB' = vsign d FB := by
  funext n
  have hq : d' n * (FB' : ℚ) = d n * (FB : ℚ) := by
    rw [mul_comm, hp n, mul_comm]
  simp only [vsign, hq]

theorem goWin_eff (d d' : Nat → ℚ) (FB FB' : Int) (IND : Fin 3 → Int)
    (Iam0 Edge : Fin 3 → ℚ) (vs : Fin 3 → Int) (st : Fin 3 → ℚ) (ord : Fin 3 → Fin 3)
    (hp : ∀ n : Fin 3, (FB' : ℚ) * d' n = (FB : ℚ) * d n) :
    goWin d' FB' IND Iam0 Edge vs st ord = goWin d FB IND Iam0 Edge vs st ord := by
  have hq : ∀ (t : ℚ) (n : Fin 3), t * (FB' : ℚ) * d' n = t * (FB : ℚ) * d n := by
    intro t n
    rw [mul_assoc, hp n, mul_assoc]
  simp only [goWin, hq]

/-- The geometric part of an iteration sees the direction only through its magnitude
and through the product `FB * d`. -/
theorem walk_eff (EPS_V : ℚ) (d d' : Nat → ℚ) (Edge : Fin 3 → ℚ) (s : Walk) (FB' : Int)
    (ha : ∀ n : Fin 3, |d' n| = |d n|)
    (hp : ∀ n : Fin 3, (FB' : ℚ) * d' n = (s.FB : ℚ) * d n) :
    Walk.stest EPS_V d' Edge { s with FB := FB' } = s.stest EPS_V d Edge ∧
    Walk.goWin EPS_V d' Edge { s with FB := FB' } = s.goWin EPS_V d Edge ∧
    Walk.nextIND EPS_V d' Edge { s with FB := FB' } = s.nextIND EPS_V d Edge ∧
    Walk.nextIam0 EPS_V d' Edge { s with FB := FB' } = s.nextIam0 EPS_V d Edge ∧
    Walk.nextPhysdist EPS_V d' Edge { s with FB := FB' } = s.nextPhysdist EPS_V d Edge := by
  have e1 : Walk.stest EPS_V d' Edge { s with FB := FB' } = s.stest EPS_V d Edge :=
    stest_eff EPS_V d d' s.FB FB' s.IND s.Iam0 Edge ha hp
  have e2 : Walk.goWin EPS_V d' Edge { s with FB := FB' } = s.goWin EPS_V d Edge := by
    unfold Walk.goWin
    rw [e1]
    show goWin d' FB' s.IND s.Iam0 Edge (vsign d' FB') _ _ = _
    rw [vsign_eff d d' s.FB FB' hp, goWin_eff d d' s.FB FB' _ _ _ _ _ _ hp]
  refine ⟨e1, e2, ?_, ?_, ?_⟩
  · unfold Walk.nextIND
    rw [e2]
  · unfold Walk.nextIam0
    rw [e1, e2]
    funext n
    show s.Iam0 n + _ * (FB' : ℚ) * d' n = s.Iam0 n + _ * (s.FB : ℚ) * d n
    rw [mul_assoc, hp n, mul_assoc]
  · unfold Walk.nextPhysdist
    rw [e1, e2]

theorem flipSign_cases (S : Int → Int → Int → Bool) (v : Fin 3 → Int) :
    flipSign S v = 1 ∨ flipSign S v = -1 := by
  unfold flipSign
  split
  · exact Or.inr rfl
  · exact Or.inl rfl

theorem dotRaw_flip (S : Int → Int → Int → Bool) (F : Field) (v w : Fin 3 → Int) (FB : Int) :
    dotRaw ((flipDir S F).at v) ((flipDir S F).at w) (FB * flipSign S w)
      = ((flipSign S v : Int) : ℚ) * dotRaw (F.at v) (F.at w) FB := by
  have v0 := flipDir_dir S F v 0
  have v1 := flipDir_dir S F v 1
  have v2 := flipDir_dir S F v 2
  have w0 := flipDir_dir S F w 0
  have w1 := flipDir_dir S F w 1
  have w2 := flipDir_dir S F w 2
  simp only [Fin.val_zero, Fin.val_one, Fin.val_two] at v0 v1 v2 w0 w1 w2
  simp only [dotRaw, v0, v1, v2, w0, w1, w2]
  rcases flipSign_cases S w with h | h <;> rw [h] <;> push_cast <;> ring

/-- One iteration on the field with negated directions, started with the sign that
compensates the negation at the current voxel, changes every variable but `FB` as the
iteration on the original field does; afterwards the sign again compensates the
negation at the new voxel, unless the alignment is `0`. -/
theorem bodyT_flip (EPS_V : ℚ) (F : Field) (S : Int → Int → Int → Bool) (Edge : Fin 3 → ℚ)
    (dim : Fin 3 → Int) (s : Walk) :
    bodyT EPS_V (flipDir S F) Edge dim { s with FB := s.FB * flipSign S s.IND }
      = { bodyT EPS_V F Edge dim s with
          FB := (bodyT EPS_V (flipDir S F) Edge dim
            { s with FB := s.FB * flipSign S s.IND }).FB } ∧
    ((bodyT EPS_V F Edge dim s).dotprod = 0 ∨
      (bodyT EPS_V (flipDir S F) Edge dim { s with FB := s.FB * flipSign S s.IND }).FB
        = (bodyT EPS_V F Edge dim s).FB * flipSign S (bodyT EPS_V F Edge dim s).IND) := by
  have hsq := flipSign_sq S s.IND
  have ha : ∀ n : Fin 3, |(flipDir S F).at s.IND n| = |F.at s.IND n| := by
    intro n
    rw [flipDir_dir, abs_mul]
    rcases flipSign_cases S s.IND with h | h <;> rw [h] <;> norm_num
  have hp : ∀ n : Fin 3, ((s.FB * flipSign S s.IND : Int) : ℚ) * (flipDir S F).at s.IND n
      = (s.FB : ℚ) * F.at s.IND n := by
    intro n
    rw [flipDir_dir]
    push_cast
    rw [mul_assoc, ← mul_assoc ((flipSign S s.IND : Int) : ℚ), hsq, one_mul]
  obtain ⟨e1, e2, e3, e4, e5⟩ := walk_eff EPS_V (F.at s.IND) ((flipDir S F).at s.IND) Edge s
    (s.FB * flipSign S s.IND) ha hp
  by_cases hw : walkback (s.stest EPS_V (F.at s.IND) Edge) = true
  · have hw' : walkback (Walk.stest EPS_V ((flipDir S F).at s.IND) Edge
        { s with FB := s.FB * flipSign S s.IND }) = true := by rw [e1]; exact hw
    rw [bodyT_walkback EPS_V F Edge dim s hw,
      bodyT_walkback EPS_V (flipDir S F) Edge dim { s with FB := s.FB * flipSign S s.IND } hw']
    exact ⟨rfl, Or.inl rfl⟩
  · have hw1 : walkback (s.stest EPS_V (F.at s.IND) Edge) = false := by simpa using hw
    have hw' : walkback (Walk.stest EPS_V ((flipDir S F).at s.IND) Edge
        { s with FB := s.FB * flipSign S s.IND }) = false := by rw [e1]; exact hw1
    by_cases hg : inGrid dim (s.nextIND EPS_V (F.at s.IND) Edge) = true
    · have hg' : inGrid dim (Walk.nextIND EPS_V ((flipDir S F).at s.IND) Edge
          { s with FB := s.FB * flipSign S s.IND }) = true := by rw [e3]; exact hg
      rw [bodyT_inside EPS_V F Edge dim s hw1 hg,
        bodyT_inside EPS_V (flipDir S F) Edge dim { s with FB := s.FB * flipSign S s.IND }
          hw' hg']
      simp only [e2, e3, e4, e5, nextIND_sub_go, dotRaw_flip]
      generalize dotRaw (F.at (s.nextIND EPS_V (F.at s.IND) Edge)) (F.at s.IND) s.FB = r
      generalize s.nextIND EPS_V (F.at s.IND) Edge = v
      have hdp : (if ((flipSign S v : Int) : ℚ) * r < 0 then
            ((flipSign S v : Int) : ℚ) * r * (-1) else ((flipSign S v : Int) : ℚ) * r)
          = (if r < 0 then r * (-1) else r) := by
        rcases flipSign_cases S v with h | h <;> rw [h] <;> push_cast
        · simp
        · rcases lt_trichotomy r 0 with hr | hr | hr
          · rw [if_neg (by linarith), if_pos hr]; ring
          · subst hr; simp
          · rw [if_pos (by linarith), if_neg (by linarith)]; ring
      rw [hdp]
      refine ⟨rfl, ?_⟩
      by_cases hr : r = 0
      · left
        subst hr
        show revisit _ _ _ _ = 0
        rw [revisit_eq]
        simp
      · right
        show (if ((flipSign S v : Int) : ℚ) * r < 0 then (-1 : Int) else 1)
          = (if r < 0 then (-1 : Int) else 1) * flipSign S v
        rcases flipSign_cases S v with h | h <;> rw [h] <;> push_cast
        · simp
        · rcases lt_or_gt_of_ne hr with hr' | hr'
          · rw [if_neg (by linarith), if_pos hr']; rfl
          · rw [if_pos (by linarith), if_neg (by linarith)]; rfl
    · have hg1 : inGrid dim (s.nextIND EPS_V (F.at s.IND) Edge) = false := by simpa using hg
      have hg' : inGrid dim (Walk.nextIND EPS_V ((flipDir S F).at s.IND) Edge
          { s with FB := s.FB * flipSign S s.IND }) = false := by rw [e3]; exact hg1
      rw [bodyT_outside EPS_V F Edge dim s hw1 hg1,
        bodyT_outside EPS_V (flipDir S F) Edge dim { s with FB := s.FB * flipSign S s.IND }
          hw' hg']
      rw [e4, e5]
      exact ⟨rfl, Or.inl rfl⟩

theorem condT_flip (F : Field) (S : Int → Int → Int → Bool) (minFA maxAng : ℚ) (arrMax : Int)
    (s : Walk) (FB' : Int) :
    condT (flipDir S F) minFA maxAng arrMax { s with FB := FB' }
      = condT F minFA maxAng arrMax s := by
  simp only [condT, flipDir_scalar]

/-- The loop on the field with negated directions follows the loop on the original
field in every variable but `FB`, which compensates the negation at the current voxel
as long as the alignment test passes. -/
theorem loopT_flip (EPS_V : ℚ) (F : Field) (S : Int → Int → Int → Bool) (Edge : Fin 3 → ℚ)
    (dim : Fin 3 → Int) (minFA maxAng : ℚ) (arrMax : Int) (hAng : 0 < maxAng) (fuel : Nat)
    (s : Walk) (FB' : Int) (h : s.dotprod < maxAng ∨ FB' = s.FB * flipSign S s.IND) :
    ∃ fb : Int,
      loopT EPS_V (flipDir S F) Edge dim minFA maxAng arrMax fuel { s with FB := FB' }
        = { loopT EPS_V F Edge dim minFA maxAng arrMax fuel s with FB := fb } ∧
      ((loopT EPS_V F Edge dim minFA maxAng arrMax fuel s).dotprod < maxAng ∨
        fb = (loopT EPS_V F Edge dim minFA maxAng arrMax fuel s).FB
          * flipSign S (loopT EPS_V F Edge dim minFA maxAng arrMax fuel s).IND) := by
  induction fuel generalizing s FB' with
  | zero => exact ⟨FB', rfl, h⟩
  | succ n ih =>
    have hc := condT_flip F S minFA maxAng arrMax s FB'
    by_cases hT : condT F minFA maxAng arrMax s = true
    · have hd := condT_dotprod _ _ _ _ _ hT
      have hFB : FB' = s.FB * flipSign S s.IND := by
        rcases h with h | h
        · exact absurd hd (not_le.mpr h)
        · exact h
      subst hFB
      obtain ⟨e, hrel⟩ := bodyT_flip EPS_V F S Edge dim s
      rw [loopT_succ_of_cond _ _ _ _ _ _ _ _ _ hT,
        loopT_succ_of_cond _ _ _ _ _ _ _ _ _ (hc.trans hT), e]
      apply ih
      rcases hrel with h0 | h0
      · left
        rw [h0]; exact hAng
      · right
        exact h0
    · have hT' : condT F minFA maxAng arrMax s = false := by simpa using hT
      rw [loopT_of_cond_false _ _ _ _ _ _ _ _ _ hT',
        loopT_of_cond_false _ _ _ _ _ _ _ _ _ (hc.trans hT')]
      exact ⟨FB', rfl, h⟩

/-- Negating directions at the voxels of `S` and starting with the compensating sign
does not change what `TrackIt` returns, for `maxAng > 0`. -/
theorem TrackIt_flip (EPS_V : ℚ) (F : Field) (S : Int → Int → Int → Bool) (IND : Fin 3 → Int)
    (PHYSIND Edge : Fin 3 → ℚ) (dim : Fin 3 → Int) (minFA maxAng : ℚ) (arrMax : Int)
    (T : Nat → Fin 3 → Int) (flT : Nat → Fin 3 → ℚ) (FB : Int) (hAng : 0 < maxAng) :
    TrackIt EPS_V (flipDir S F) IND PHYSIND Edge dim minFA maxAng arrMax T flT
        (if S (IND 0) (IND 1) (IND 2) = true then -FB else FB)
      = TrackIt EPS_V F IND PHYSIND Edge dim minFA maxAng arrMax T flT FB := by
  have hFB : (if S (IND 0) (IND 1) (IND 2) = true then -FB else FB)
      = (initWalk IND PHYSIND T flT FB).FB * flipSign S (initWalk IND PHYSIND T flT FB).IND := by
    show _ = FB * flipSign S IND
    unfold flipSign
    split <;> simp
  obtain ⟨fb, e, _⟩ := loopT_flip EPS_V F S Edge dim minFA maxAng arrMax hAng arrMax.toNat
    (initWalk IND PHYSIND T flT FB) _ (Or.inr hFB)
  unfold TrackIt walkT
  have hi : initWalk IND PHYSIND T flT (if S (IND 0) (IND 1) (IND 2) = true then -FB else FB)
      = { initWalk IND PHYSIND T flT FB with
          FB := if S (IND 0) (IND 1) (IND 2) = true then -FB else FB } := rfl
  rw [hi, e]
  rfl

/-- What `TrackIt` returns in the uniform `+x` scenario. -/
theorem uniformX_result (EPS_V : ℚ) (h0 : 0 < EPS_V) (h1 : EPS_V ≤ 1 / 2)
    (T : Nat → Fin 3 → Int) (flT : Nat → Fin 3 → ℚ) :
    ∃ r, TrackIt EPS_V uniformX ![0, 5, 5] ![1 / 2, 11 / 2, 11 / 2] ![1, 1, 1]
        ![10, 10, 10] (1 / 5) (1 / 2) 100 T flT 1 = some r ∧
      r.tracL = 10 ∧ ∀ k, k < 10 → r.T k = ![(k : Int), 5, 5] := by
  have hs := uniformX_loop EPS_V h0 h1 T flT 100 9 (le_refl _) (by norm_num)
  have hwalk := uniformX_walk EPS_V h0 h1 T flT 100 (by norm_num)
  obtain ⟨_, _, a3, _, _, _, a7, _⟩ := uniformXState_last EPS_V h0 h1 T flT _ hs
  refine ⟨_, TrackIt_of_lt _ _ _ _ _ _ _ _ _ _ _ _ ?_, ?_, ?_⟩
  · rw [hwalk, a3]; norm_num
  · show (walkT _ _ _ _ _ _ _ _ _ _ _ _).tracL = 10
    rw [hwalk, a3]
  · intro k hk
    show (walkT _ _ _ _ _ _ _ _ _ _ _ _).T k = _
    rw [hwalk]
    exact (a7 k hk).1

/-- State of the scenario on the field negated for `x >= 5`, at the loop check after
`k <= 9` iterations: voxel `(k,5,5)`, and a sign that is `-1` exactly from `k = 5`. -/
theorem fromFive_loop (EPS_V : ℚ) (h0 : 0 < EPS_V) (h1 : EPS_V ≤ 1 / 2)
    (T : Nat → Fin 3 → Int) (flT : Nat → Fin 3 → ℚ) (k : Nat) (hk : k ≤ 9) :
    (loopT EPS_V (flipDir fromFive uniformX) ![1, 1, 1] ![10, 10, 10] (1 / 5) (1 / 2) 100 k
      (initWalk ![0, 5, 5] ![1 / 2, 11 / 2, 11 / 2] T flT 1)).IND = ![(k : Int), 5, 5] ∧
    (loopT EPS_V (flipDir fromFive uniformX) ![1, 1, 1] ![10, 10, 10] (1 / 5) (1 / 2) 100 k
      (initWalk ![0, 5, 5] ![1 / 2, 11 / 2, 11 / 2] T flT 1)).FB = (if 5 ≤ k then -1 else 1) ∧
    (loopT EPS_V (flipDir fromFive uniformX) ![1, 1, 1] ![10, 10, 10] (1 / 5) (1 / 2) 100 k
      (initWalk ![0, 5, 5] ![1 / 2, 11 / 2, 11 / 2] T flT 1)).dotprod
        = (if k = 0 then 999 / 1000 else 1) := by
  have hs := uniformX_loop EPS_V h0 h1 T flT 100 k hk (by omega)
  obtain ⟨fb, e, hfb⟩ := loopT_flip EPS_V uniformX fromFive ![1, 1, 1] ![10, 10, 10] (1 / 5)
    (1 / 2) 100 (by norm_num) k (initWalk ![0, 5, 5] ![1 / 2, 11 / 2, 11 / 2] T flT 1) 1
    (Or.inr (by simp [initWalk, flipSign, fromFive]))
  have hi : ({ initWalk ![0, 5, 5] ![1 / 2, 11 / 2, 11 / 2] T flT 1 with FB := 1 } : Walk)
      = initWalk ![0, 5, 5] ![1 / 2, 11 / 2, 11 / 2] T flT 1 := rfl
  rw [hi] at e
  obtain ⟨_, g2, _, g4, g5, _⟩ := hs
  rw [e]
  refine ⟨g2, ?_, g5⟩
  show fb = _
  rcases hfb with h | h
  · rw [g5] at h
    split at h <;> norm_num at h
  · rw [h, g2, g4]
    simp only [flipSign, fromFive, Matrix.cons_val_zero, decide_eq_true_eq, one_mul]
    by_cases h5 : 5 ≤ k
    · rw [if_pos (by exact_mod_cast h5), if_pos h5]
    · rw [if_neg (by exact_mod_cast h5), if_neg h5]

/-- C9: for `maxAng > 0`, negating the direction vector (components `0..2`) at an
arbitrary set `S` of voxels and starting with sign `-FB` if the seed is in `S`, else
`FB`, does not change what `TrackIt` does: both calls take the fatal exit, or both
return the same step count, `T`, `flT`, `physL[0]` and final `IND`.  In particular, in
the 10x10x10 `+x` scenario with the field negated for `x >= 5` (any `EPS_V` in
`(0, 1/2]`), `TrackIt` returns the 10 voxels `(0,5,5)..(9,5,5)`; at the loop check
after four iterations the sign is `+1`, and after five iterations the walk is in voxel
`(5,5,5)` with sign `-1` and stored alignment `+1`. -/
theorem TrackIt_direction_sign (EPS_V : ℚ) (F : Field) (S : Int → Int → Int → Bool)
    (IND : Fin 3 → Int) (PHYSIND Edge : Fin 3 → ℚ) (dim : Fin 3 → Int) (minFA maxAng : ℚ)
    (arrMax : Int) (T : Nat → Fin 3 → Int) (flT : Nat → Fin 3 → ℚ) (FB : Int)
    (hAng : 0 < maxAng) :
    TrackIt EPS_V (flipDir S F) IND PHYSIND Edge dim minFA maxAng arrMax T flT
        (if S (IND 0) (IND 1) (IND 2) = true then -FB else FB)
      = TrackIt EPS_V F IND PHYSIND Edge dim minFA maxAng arrMax T flT FB ∧
    (0 < EPS_V → EPS_V ≤ 1 / 2 →
      (∃ r, TrackIt EPS_V (flipDir fromFive uniformX) ![0, 5, 5] ![1 / 2, 11 / 2, 11 / 2]
          ![1, 1, 1] ![10, 10, 10] (1 / 5) (1 / 2) 100 T flT 1 = some r ∧
        r.tracL = 10 ∧ ∀ k, k < 10 → r.T k = ![(k : Int), 5, 5]) ∧
      (loopT EPS_V (flipDir fromFive uniformX) ![1, 1, 1] ![10, 10, 10] (1 / 5) (1 / 2) 100 4
        (initWalk ![0, 5, 5] ![1 / 2, 11 / 2, 11 / 2] T flT 1)).FB = 1 ∧
      (loopT EPS_V (flipDir fromFive uniformX) ![1, 1, 1] ![10, 10, 10] (1 / 5) (1 / 2) 100 5
        (initWalk ![0, 5, 5] ![1 / 2, 11 / 2, 11 / 2] T flT 1)).IND = ![5, 5, 5] ∧
      (loopT EPS_V (flipDir fromFive uniformX) ![1, 1, 1] ![10, 10, 10] (1 / 5) (1 / 2) 100 5
        (initWalk ![0, 5, 5] ![1 / 2, 11 / 2, 11 / 2] T flT 1)).FB = -1 ∧
      (loopT EPS_V (flipDir fromFive uniformX) ![1, 1, 1] ![10, 10, 10] (1 / 5) (1 / 2) 100 5
        (initWalk ![0, 5, 5] ![1 / 2, 11 / 2, 11 / 2] T flT 1)).dotprod = 1) := by
  refine ⟨TrackIt_flip EPS_V F S IND PHYSIND Edge dim minFA maxAng arrMax T flT FB hAng, ?_⟩
  intro h0 h1
  have hflip := TrackIt_flip EPS_V uniformX fromFive ![0, 5, 5] ![1 / 2, 11 / 2, 11 / 2]
    ![1, 1, 1] ![10, 10, 10] (1 / 5) (1 / 2) 100 T flT 1 (by norm_num)
  have hseed : (if fromFive ((![0, 5, 5] : Fin 3 → Int) 0) ((![0, 5, 5] : Fin 3 → Int) 1)
      ((![0, 5, 5] : Fin 3 → Int) 2) = true then (-1 : Int) else 1) = 1 := by
    simp [fromFive]
  rw [hseed] at hflip
  obtain ⟨_, b4, _⟩ := fromFive_loop EPS_V h0 h1 T flT 4 (by norm_num)
  obtain ⟨a5, b5, c5⟩ := fromFive_loop EPS_V h0 h1 T flT 5 (by norm_num)
  refine ⟨?_, ?_, ?_, ?_, ?_⟩
  · rw [hflip]
    exact uniformX_result EPS_V h0 h1 T flT
  · rw [b4]; rfl
  · rw [a5]; rfl
  · rw [b5]; rfl
  · rw [c5]; rfl

theorem TrackIt_direction_sign_witness :
    (0 : ℚ) < 1 / 2 ∧
    TrackIt (1 / 1000000) (flipDir fromFive uniformX) ![6, 5, 5] ![13 / 2, 11 / 2, 11 / 2]
        ![1, 1, 1] ![10, 10, 10] (1 / 5) (1 / 2) 100 T0 flT0
        (if fromFive ((![6, 5, 5] : Fin 3 → Int) 0) ((![6, 5, 5] : Fin 3 → Int) 1)
          ((![6, 5, 5] : Fin 3 → Int) 2) = true then -1 else 1)
      = TrackIt (1 / 1000000) uniformX ![6, 5, 5] ![13 / 2, 11 / 2, 11 / 2] ![1, 1, 1]
        ![10, 10, 10] (1 / 5) (1 / 2) 100 T0 flT0 1 :=
  ⟨by norm_num,
    (TrackIt_direction_sign (1 / 1000000) uniformX fromFive ![6, 5, 5]
      ![13 / 2, 11 / 2, 11 / 2] ![1, 1, 1] ![10, 10, 10] (1 / 5) (1 / 2) 100 T0 flT0 1
      (by norm_num)).1⟩

/-! ## C11, C12: the first loop check, the scalar of recorded voxels -/

/-- Rows below the step count are never written again, and the step count never
decreases. -/
theorem loopT_rows_stable (EPS_V : ℚ) (CC : Field) (Edge : Fin 3 → ℚ) (dim : Fin 3 → Int)
    (minFA maxAng : ℚ) (arrMax : Int) (fuel : Nat) (s : Walk) :
    s.tracL ≤ (loopT EPS_V CC Edge dim minFA maxAng arrMax fuel s).tracL ∧
    ∀ i, i < s.tracL →
      (loopT EPS_V CC Edge dim minFA maxAng arrMax fuel s).T i = s.T i ∧
      (loopT EPS_V CC Edge dim minFA maxAng arrMax fuel s).flT i = s.flT i := by
  refine loopT_invariant EPS_V CC Edge dim minFA maxAng arrMax
    (fun t => s.tracL ≤ t.tracL ∧ ∀ i, i < s.tracL → t.T i = s.T i ∧ t.flT i = s.flT i)
    ?_ fuel s ⟨le_refl _, fun i _ => ⟨rfl, rfl⟩⟩
  rintro t ⟨h1, h2⟩ _
  refine ⟨by rw [bodyT_tracL]; omega, ?_⟩
  intro i hi
  rw [bodyT_T, bodyT_flT, Function.update_noteq (by omega), Function.update_noteq (by omega)]
  exact h2 i hi

/-- When the loop condition fails on entry and `arrMax >= 1`, the call returns at once
with nothing recorded. -/
theorem TrackIt_of_cond_false (EPS_V : ℚ) (CC : Field) (IND : Fin 3 → Int)
    (PHYSIND Edge : Fin 3 → ℚ) (dim : Fin 3 → Int) (minFA maxAng : ℚ) (arrMax : Int)
    (T : Nat → Fin 3 → Int) (flT : Nat → Fin 3 → ℚ) (FB : Int) (hMax : 1 ≤ arrMax)
    (hc : condT CC minFA maxAng arrMax (initWalk IND PHYSIND T flT FB) = false) :
    TrackIt EPS_V CC IND PHYSIND Edge dim minFA maxAng arrMax T flT FB
      = some { tracL := 0, IND := IND, T := T, flT := flT, physL := 0 } := by
  have hlt : ¬ ((0 : Int) ≥ arrMax) := by omega
  unfold TrackIt walkT
  rw [loopT_of_cond_false _ _ _ _ _ _ _ _ _ hc]
  simp only [finish, initWalk]
  rw [if_neg (by simpa using hlt)]

/-- When the loop condition holds on entry, the first iteration runs: the loop is left
with at least one step, and row `0` of `T` and `flT` holds the seed voxel and the seed
position. -/
theorem walkT_first_row (EPS_V : ℚ) (CC : Field) (IND : Fin 3 → Int)
    (PHYSIND Edge : Fin 3 → ℚ) (dim : Fin 3 → Int) (minFA maxAng : ℚ) (arrMax : Int)
    (T : Nat → Fin 3 → Int) (flT : Nat → Fin 3 → ℚ) (FB : Int)
    (hc : condT CC minFA maxAng arrMax (initWalk IND PHYSIND T flT FB) = true) :
    1 ≤ (walkT EPS_V CC IND PHYSIND Edge dim minFA maxAng arrMax T flT FB).tracL ∧
    (walkT EPS_V CC IND PHYSIND Edge dim minFA maxAng arrMax T flT FB).T 0 = IND ∧
    (walkT EPS_V CC IND PHYSIND Edge dim minFA maxAng arrMax T flT FB).flT 0 = PHYSIND := by
  have hpos : 0 < arrMax := by
    have := condT_tracL _ _ _ _ _ hc
    simpa [initWalk] using this
  obtain ⟨k, hk⟩ : ∃ k : Nat, arrMax.toNat = k + 1 :=
    ⟨arrMax.toNat - 1, by have := Int.toNat_of_nonneg (le_of_lt hpos); omega⟩
  unfold walkT
  rw [hk, loopT_succ_of_cond _ _ _ _ _ _ _ _ _ hc]
  have hb1 : (bodyT EPS_V CC Edge dim (initWalk IND PHYSIND T flT FB)).tracL = 1 := by
    rw [bodyT_tracL]; rfl
  obtain ⟨h1, h2⟩ := loopT_rows_stable EPS_V CC Edge dim minFA maxAng arrMax k
    (bodyT EPS_V CC Edge dim (initWalk IND PHYSIND T flT FB))
  rw [hb1] at h1 h2
  obtain ⟨hT, hfl⟩ := h2 0 (by norm_num)
  refine ⟨h1, ?_, ?_⟩
  · rw [hT, bodyT_T]
    exact Function.update_same _ _ _
  · rw [hfl, bodyT_flT]
    exact Function.update_same _ _ _

/-- C11 as stated fails for `maxAng > 0.999`: in the uniform `+x` scenario with
`maxAng = 1`, where `arrMax = 100 >= 1` and the seed scalar `1` is at least
`minFA = 0.2`, `TrackIt` returns with no step recorded. -/
theorem TrackIt_first_check_fails :
    (1 : Int) ≤ 100 ∧ (1 : ℚ) / 5 ≤ uniformX 0 5 5 3 ∧
    TrackIt (1 / 1000000) uniformX ![0, 5, 5] ![1 / 2, 11 / 2, 11 / 2] ![1, 1, 1]
        ![10, 10, 10] (1 / 5) 1 100 T0 flT0 1
      = some { tracL := 0, IND := ![0, 5, 5], T := T0, flT := flT0, physL := 0 } := by
  refine ⟨by norm_num, by norm_num [uniformX], ?_⟩
  apply TrackIt_of_cond_false _ _ _ _ _ _ _ _ _ _ _ _ (by norm_num)
  have : ¬ ((1 : ℚ) ≤ 999 / 1000) := by norm_num
  simp [condT, initWalk, this]

/-- C11 (as amended): for `maxAng <= 0.999`, if `arrMax >= 1` and the seed scalar is
at least `minFA`, the first loop check passes, `TrackIt` runs the first iteration, and
row `0` of `T` and `flT` is the seed voxel and the seed position when the loop is left
and in what a returning call hands back. -/
theorem TrackIt_first_iteration (EPS_V : ℚ) (CC : Field) (IND : Fin 3 → Int)
    (PHYSIND Edge : Fin 3 → ℚ) (dim : Fin 3 → Int) (minFA maxAng : ℚ) (arrMax : Int)
    (T : Nat → Fin 3 → Int) (flT : Nat → Fin 3 → ℚ) (FB : Int)
    (hAng : maxAng ≤ 999 / 1000) (hMax : 1 ≤ arrMax)
    (hFA : minFA ≤ CC (IND 0) (IND 1) (IND 2) 3) :
    condT CC minFA maxAng arrMax (initWalk IND PHYSIND T flT FB) = true ∧
    1 ≤ (walkT EPS_V CC IND PHYSIND Edge dim minFA maxAng arrMax T flT FB).tracL ∧
    (walkT EPS_V CC IND PHYSIND Edge dim minFA maxAng arrMax T flT FB).T 0 = IND ∧
    (walkT EPS_V CC IND PHYSIND Edge dim minFA maxAng arrMax T flT FB).flT 0 = PHYSIND ∧
    (∀ r, TrackIt EPS_V CC IND PHYSIND Edge dim minFA maxAng arrMax T flT FB = some r →
      1 ≤ r.tracL ∧ r.T 0 = IND ∧ r.flT 0 = PHYSIND) := by
  have hc : condT CC minFA maxAng arrMax (initWalk IND PHYSIND T flT FB) = true := by
    simp only [condT, initWalk, Field.at, Bool.and_eq_true, decide_eq_true_eq, ge_iff_le]
    exact ⟨⟨by push_cast; omega, hFA⟩, hAng⟩
  obtain ⟨h1, h2, h3⟩ :=
    walkT_first_row EPS_V CC IND PHYSIND Edge dim minFA maxAng arrMax T flT FB hc
  refine ⟨hc, h1, h2, h3, ?_⟩
  intro r hr
  obtain ⟨e1, _, e3, e4, _⟩ := TrackIt_eq_some _ _ _ _ _ _ _ _ _ _ _ _ r hr
  rw [e1, e3, e4]
  exact ⟨h1, h2, h3⟩

theorem TrackIt_first_iteration_witness :
    ((1 : ℚ) / 2 ≤ 999 / 1000 ∧ (1 : Int) ≤ 100 ∧ (1 : ℚ) / 5 ≤ uniformX 0 5 5 3) ∧
    (walkT (1 / 1000000) uniformX ![0, 5, 5] ![1 / 2, 11 / 2, 11 / 2] ![1, 1, 1]
      ![10, 10, 10] (1 / 5) (1 / 2) 100 T0 flT0 1).T 0 = ![0, 5, 5] :=
  ⟨⟨by norm_num, by norm_num, by norm_num [uniformX]⟩,
    (TrackIt_first_iteration (1 / 1000000) uniformX ![0, 5, 5] ![1 / 2, 11 / 2, 11 / 2]
      ![1, 1, 1] ![10, 10, 10] (1 / 5) (1 / 2) 100 T0 flT0 1 (by norm_num) (by norm_num)
      (by norm_num [uniformX])).2.2.1⟩

/-- C12: every row `T[0..tracL-1]` recorded by `TrackIt` is a voxel whose continuation
scalar (component `3` of the field) is at least `minFA`, in the state in which the
loop is left and in what a returning call hands back. -/
theorem TrackIt_recorded_scalar (EPS_V : ℚ) (CC : Field) (IND : Fin 3 → Int)
    (PHYSIND Edge : Fin 3 → ℚ) (dim : Fin 3 → Int) (minFA maxAng : ℚ) (arrMax : Int)
    (T : Nat → Fin 3 → Int) (flT : Nat → Fin 3 → ℚ) (FB : Int) :
    (∀ i, i < (walkT EPS_V CC IND PHYSIND Edge dim minFA maxAng arrMax T flT FB).tracL →
      minFA ≤ CC ((walkT EPS_V CC IND PHYSIND Edge dim minFA maxAng arrMax T flT FB).T i 0)
        ((walkT EPS_V CC IND PHYSIND Edge dim minFA maxAng arrMax T flT FB).T i 1)
        ((walkT EPS_V CC IND PHYSIND Edge dim minFA maxAng arrMax T flT FB).T i 2) 3) ∧
    (∀ r, TrackIt EPS_V CC IND PHYSIND Edge dim minFA maxAng arrMax T flT FB = some r →
      ∀ i, i < r.tracL → minFA ≤ CC (r.T i 0) (r.T i 1) (r.T i 2) 3) := by
  have key : ∀ i,
      i < (walkT EPS_V CC IND PHYSIND Edge dim minFA maxAng arrMax T flT FB).tracL →
      minFA ≤ CC.at
        ((walkT EPS_V CC IND PHYSIND Edge dim minFA maxAng arrMax T flT FB).T i) 3 := by
    refine loopT_invariant EPS_V CC Edge dim minFA maxAng arrMax
      (fun s => ∀ i, i < s.tracL → minFA ≤ CC.at (s.T i) 3) ?_ arrMax.toNat
      (initWalk IND PHYSIND T flT FB) (by intro i hi; simp [initWalk] at hi)
    intro s hs hc i hi
    rw [bodyT_tracL] at hi
    rw [bodyT_T]
    by_cases hi' : i = s.tracL
    · rw [hi', Function.update_same]
      exact condT_FA _ _ _ _ _ hc
    · rw [Function.update_noteq hi']
      exact hs i (by omega)
  refine ⟨key, ?_⟩
  intro r hr
  obtain ⟨e1, _, e3, _⟩ := TrackIt_eq_some _ _ _ _ _ _ _ _ _ _ _ _ r hr
  rw [e1, e3]
  exact key

/-! ## C13, C14: the stored alignment -/

theorem dotRaw_eq (a b : Nat → ℚ) (FB : Int) : dotRaw a b FB = (FB : ℚ) * dot3 a b := by
  unfold dotRaw dot3
  ring

theorem abs_dotRaw (a b : Nat → ℚ) (FB : Int) (hFB : FB = 1 ∨ FB = -1) :
    |dotRaw a b FB| = |dot3 a b| := by
  rw [dotRaw_eq]
  rcases hFB with h | h <;> rw [h] <;> simp

theorem flipped_eq_abs (r : ℚ) : (if r < 0 then r * (-1) else r) = |r| := by
  split
  · next h => rw [abs_of_neg h]; ring
  · next h => rw [abs_of_nonneg (not_lt.mp h)]

theorem revisit_cases (T : Nat → Fin 3 → Int) (tracL : Nat) (IND : Fin 3 → Int) (dp : ℚ) :
    revisit T tracL IND dp = 0 ∨ revisit T tracL IND dp = dp := by
  rw [revisit_eq]
  split
  · exact Or.inl rfl
  · exact Or.inr rfl

/-- The sign after an iteration is the sign before it, `+1` or `-1`. -/
theorem bodyT_FB_cases (EPS_V : ℚ) (CC : Field) (Edge : Fin 3 → ℚ) (dim : Fin 3 → Int)
    (s : Walk) :
    (bodyT EPS_V CC Edge dim s).FB = s.FB ∨ (bodyT EPS_V CC Edge dim s).FB = 1 ∨
      (bodyT EPS_V CC Edge dim s).FB = -1 := by
  by_cases hw : walkback (s.stest EPS_V (CC.at s.IND) Edge) = true
  · left
    rw [bodyT_walkback EPS_V CC Edge dim s hw]
    rfl
  · have hw : walkback (s.stest EPS_V (CC.at s.IND) Edge) = false := by simpa using hw
    by_cases hg : inGrid dim (s.nextIND EPS_V (CC.at s.IND) Edge) = true
    · right
      rw [bodyT_inside EPS_V CC Edge dim s hw hg]
      show (if _ < 0 then (-1 : Int) else 1) = 1 ∨ (if _ < 0 then (-1 : Int) else 1) = -1
      split
      · exact Or.inr rfl
      · exact Or.inl rfl
    · have hg : inGrid dim (s.nextIND EPS_V (CC.at s.IND) Edge) = false := by simpa using hg
      left
      rw [bodyT_outside EPS_V CC Edge dim s hw hg]
      rfl

/-- The alignment stored by an iteration is never negative and, when the iteration
starts with sign `+1` or `-1`, never exceeds the absolute dot product of the
directions at the voxel reached and at the voxel left. -/
theorem bodyT_dotprod_bounds (EPS_V : ℚ) (CC : Field) (Edge : Fin 3 → ℚ) (dim : Fin 3 → Int)
    (s : Walk) :
    0 ≤ (bodyT EPS_V CC Edge dim s).dotprod ∧
    ((s.FB = 1 ∨ s.FB = -1) →
      (bodyT EPS_V CC Edge dim s).dotprod
        ≤ |dot3 (CC.at (bodyT EPS_V CC Edge dim s).IND) (CC.at s.IND)|) := by
  by_cases hw : walkback (s.stest EPS_V (CC.at s.IND) Edge) = true
  · rw [bodyT_walkback EPS_V CC Edge dim s hw]
    exact ⟨le_refl _, fun _ => abs_nonneg _⟩
  · have hw : walkback (s.stest EPS_V (CC.at s.IND) Edge) = false := by simpa using hw
    by_cases hg : inGrid dim (s.nextIND EPS_V (CC.at s.IND) Edge) = true
    · rw [bodyT_inside EPS_V CC Edge dim s hw hg]
      simp only [nextIND_sub_go, flipped_eq_abs]
      rcases revisit_cases s.record.T s.record.tracL (s.nextIND EPS_V (CC.at s.IND) Edge)
        |dotRaw (CC.at (s.nextIND EPS_V (CC.at s.IND) Edge)) (CC.at s.IND) s.FB| with h | h
      · rw [h]
        exact ⟨le_refl _, fun _ => abs_nonneg _⟩
      · rw [h]
        refine ⟨abs_nonneg _, fun hFB => ?_⟩
        rw [abs_dotRaw _ _ _ hFB]
    · have hg : inGrid dim (s.nextIND EPS_V (CC.at s.IND) Edge) = false := by simpa using hg
      rw [bodyT_outside EPS_V CC Edge dim s hw hg]
      exact ⟨le_refl _, fun _ => abs_nonneg _⟩

/-- Cauchy-Schwarz for vectors of norm at most `1`. -/
theorem abs_dot3_le_one (a b : Nat → ℚ) (ha : dot3 a a ≤ 1) (hb : dot3 b b ≤ 1) :
    |dot3 a b| ≤ 1 := by
  unfold dot3 at *
  rw [abs_le]
  constructor
  · nlinarith [sq_nonneg (a 0 + b 0), sq_nonneg (a 1 + b 1), sq_nonneg (a 2 + b 2)]
  · nlinarith [sq_nonneg (a 0 - b 0), sq_nonneg (a 1 - b 1), sq_nonneg (a 2 - b 2)]

/-- First iteration on the 2x1x1 grid of `doubleX`, seeded at the centre of voxel
`(0,0,0)` with sign `+1`: the step goes to voxel `(1,0,0)` and the alignment stored is
`2 * 1 * 2 = 4`. -/
theorem doubleX_first :
    (bodyT (1 / 1000000) doubleX ![1, 1, 1] ![2, 1, 1]
      (initWalk ![0, 0, 0] ![1 / 2, 1 / 2, 1 / 2] T0 flT0 1)).IND = ![1, 0, 0] ∧
    (bodyT (1 / 1000000) doubleX ![1, 1, 1] ![2, 1, 1]
      (initWalk ![0, 0, 0] ![1 / 2, 1 / 2, 1 / 2] T0 flT0 1)).dotprod = 4 := by
  have hst : (initWalk ![0, 0, 0] ![1 / 2, 1 / 2, 1 / 2] T0 flT0 1).stest (1 / 1000000)
      (doubleX.at ![0, 0, 0]) ![1, 1, 1] = ![1 / 4, 500000, 500000] := by
    funext n
    fin_cases n <;>
      norm_num [Walk.stest, stest, targedge, divid, vsign, doubleX, Field.at, initWalk]
  have hord : ordCascade ![(1 / 4 : ℚ), 500000, 500000] = ![0, 1, 2] := by
    apply ordCascade_sorted
    · show (1 / 4 : ℚ) ≤ 500000
      norm_num
    · exact le_refl _
  have hw : walkback ((initWalk ![0, 0, 0] ![1 / 2, 1 / 2, 1 / 2] T0 flT0 1).stest
      (1 / 1000000) (doubleX.at ![0, 0, 0]) ![1, 1, 1]) = false := by
    rw [hst]
    norm_num [walkback]
  have hv : ∀ n : Fin 3, vsign (doubleX.at ![0, 0, 0]) 1 n = 1 := by
    intro n
    fin_cases n <;> simp [vsign, doubleX, Field.at]
  have hgw : (initWalk ![0, 0, 0] ![1 / 2, 1 / 2, 1 / 2] T0 flT0 1).goWin (1 / 1000000)
      (doubleX.at ![0, 0, 0]) ![1, 1, 1] = (![1, 0, 0], 0) := by
    rw [Walk.goWin, hst, hord]
    have hl : ∀ t : ℚ, t = 1 / 2 → leavesCorridor 1 t 1 = false := by
      intro t ht
      subst ht
      norm_num [leavesCorridor, BB, FF]
    simp only [goWin, initWalk, Matrix.cons_val_zero, Matrix.cons_val_one, Matrix.head_cons,
      hv, update_zero_one]
    rw [hl _ (by norm_num [doubleX, Field.at])]
    simp
  have hI : (initWalk ![0, 0, 0] ![1 / 2, 1 / 2, 1 / 2] T0 flT0 1).nextIND (1 / 1000000)
      (doubleX.at ![0, 0, 0]) ![1, 1, 1] = ![1, 0, 0] := by
    unfold Walk.nextIND
    rw [hgw]
    funext n
    fin_cases n <;> simp [initWalk]
  have hg : inGrid ![2, 1, 1] ((initWalk ![0, 0, 0] ![1 / 2, 1 / 2, 1 / 2] T0 flT0 1).nextIND
      (1 / 1000000) (doubleX.at ![0, 0, 0]) ![1, 1, 1]) = true := by
    rw [hI]
    simp [inGrid]
  have hb := bodyT_inside (1 / 1000000) doubleX ![1, 1, 1] ![2, 1, 1]
    (initWalk ![0, 0, 0] ![1 / 2, 1 / 2, 1 / 2] T0 flT0 1) hw hg
  have hraw : ∀ v w : Fin 3 → Int, dotRaw (doubleX.at v) (doubleX.at w)
      (initWalk ![0, 0, 0] ![1 / 2, 1 / 2, 1 / 2] T0 flT0 1).FB = 4 := by
    intro v w
    norm_num [dotRaw, doubleX, Field.at, initWalk]
  rw [hb]
  refine ⟨hI, ?_⟩
  show revisit _ _ _ _ = 4
  rw [hraw, if_neg (by norm_num), revisit_eq, if_neg]
  rintro ⟨n, hn, he⟩
  have hn0 : n = 0 := by
    have : n < 0 + 1 := hn
    omega
  subst hn0
  have he2 : (![1, 0, 0] : Fin 3 → Int)
      = (initWalk ![0, 0, 0] ![1 / 2, 1 / 2, 1 / 2] T0 flT0 1).record.T 0 := hI.symm.trans he
  have := congrFun he2 0
  simp [Walk.record, initWalk] at this

/-- C14 as stated fails for direction vectors longer than `1`: on the 2x1x1 grid of
`doubleX` (direction `(2,0,0)`), after the first iteration of the walk seeded at the
centre of voxel `(0,0,0)` with sign `+1`, the stored alignment is `4`, outside
`[0,1]`. -/
theorem TrackIt_alignment_exceeds_one :
    (bodyT (1 / 1000000) doubleX ![1, 1, 1] ![2, 1, 1]
      (initWalk ![0, 0, 0] ![1 / 2, 1 / 2, 1 / 2] T0 flT0 1)).dotprod = 4 ∧
    ¬ ((bodyT (1 / 1000000) doubleX ![1, 1, 1] ![2, 1, 1]
      (initWalk ![0, 0, 0] ![1 / 2, 1 / 2, 1 / 2] T0 flT0 1)).dotprod ≤ 1) := by
  obtain ⟨_, h⟩ := doubleX_first
  refine ⟨h, ?_⟩
  rw [h]
  norm_num

/-- C14 (as amended): the alignment stored by a `TrackIt` iteration is non-negative for
every direction field; when the iteration starts with sign `+1` or `-1` and every
direction vector of the field has Euclidean norm at most `1`, it lies in `[0,1]`, and
so does the alignment at every loop check of a walk started with sign `+1` or `-1`
(exact arithmetic). -/
theorem TrackIt_alignment_range (EPS_V : ℚ) (CC : Field) (Edge : Fin 3 → ℚ)
    (dim : Fin 3 → Int) (minFA maxAng : ℚ) (arrMax : Int) :
    (∀ s : Walk, 0 ≤ (bodyT EPS_V CC Edge dim s).dotprod) ∧
    ((∀ v : Fin 3 → Int, dot3 (CC.at v) (CC.at v) ≤ 1) →
      (∀ s : Walk, (s.FB = 1 ∨ s.FB = -1) →
        (bodyT EPS_V CC Edge dim s).dotprod ≤ 1 ∧
        ((bodyT EPS_V CC Edge dim s).FB = 1 ∨ (bodyT EPS_V CC Edge dim s).FB = -1)) ∧
      (∀ (IND : Fin 3 → Int) (PHYSIND : Fin 3 → ℚ) (T : Nat → Fin 3 → Int)
        (flT : Nat → Fin 3 → ℚ) (FB : Int) (fuel : Nat), (FB = 1 ∨ FB = -1) →
        0 ≤ (loopT EPS_V CC Edge dim minFA maxAng arrMax fuel
          (initWalk IND PHYSIND T flT FB)).dotprod ∧
        (loopT EPS_V CC Edge dim minFA maxAng arrMax fuel
          (initWalk IND PHYSIND T flT FB)).dotprod ≤ 1)) := by
  refine ⟨fun s => (bodyT_dotprod_bounds EPS_V CC Edge dim s).1, ?_⟩
  intro hUnit
  have hstep : ∀ s : Walk, (s.FB = 1 ∨ s.FB = -1) →
      (bodyT EPS_V CC Edge dim s).dotprod ≤ 1 ∧
      ((bodyT EPS_V CC Edge dim s).FB = 1 ∨ (bodyT EPS_V CC Edge dim s).FB = -1) := by
    intro s hFB
    constructor
    · exact le_trans ((bodyT_dotprod_bounds EPS_V CC Edge dim s).2 hFB)
        (abs_dot3_le_one _ _ (hUnit _) (hUnit _))
    · rcases bodyT_FB_cases EPS_V CC Edge dim s with h | h | h
      · rw [h]; exact hFB
      · exact Or.inl h
      · exact Or.inr h
  refine ⟨hstep, ?_⟩
  intro IND PHYSIND T flT FB fuel hFB
  have key := loopT_invariant EPS_V CC Edge dim minFA maxAng arrMax
    (fun s => (s.FB = 1 ∨ s.FB = -1) ∧ 0 ≤ s.dotprod ∧ s.dotprod ≤ 1)
    (by
      rintro s ⟨g1, _, _⟩ _
      exact ⟨(hstep s g1).2, (bodyT_dotprod_bounds EPS_V CC Edge dim s).1, (hstep s g1).1⟩)
    fuel (initWalk IND PHYSIND T flT FB)
    ⟨hFB, by norm_num [initWalk], by norm_num [initWalk]⟩
  exact key.2

theorem TrackIt_alignment_range_witness :
    (∀ v : Fin 3 → Int, dot3 (uniformX.at v) (uniformX.at v) ≤ 1) ∧
    (bodyT (1 / 1000000) uniformX ![1, 1, 1] ![10, 10, 10]
      (initWalk ![0, 5, 5] ![1 / 2, 11 / 2, 11 / 2] T0 flT0 1)).dotprod ≤ 1 :=
  have hU : ∀ v : Fin 3 → Int, dot3 (uniformX.at v) (uniformX.at v) ≤ 1 := by
    intro v
    norm_num [dot3, uniformX, Field.at]
  ⟨hU, (((TrackIt_alignment_range (1 / 1000000) uniformX ![1, 1, 1] ![10, 10, 10] (1 / 5)
    (1 / 2) 100).2 hU).1 (initWalk ![0, 5, 5] ![1 / 2, 11 / 2, 11 / 2] T0 flT0 1)
    (Or.inl rfl)).1⟩

/-! ## C15: scaling the direction vectors -/

theorem scaleDir_dir (c : ℚ) (F : Field) (v : Fin 3 → Int) (n : Fin 3) :
    (scaleDir c F).at v n = c * F.at v n := by
  have hn : (n : Nat) < 3 := n.isLt
  simp [scaleDir, Field.at, hn]

theorem scaleDir_scalar (c : ℚ) (F : Field) (v : Fin 3 → Int) :
    (scaleDir c F).at v 3 = F.at v 3 := by
  simp [scaleDir, Field.at]

theorem walkback_scaled (c : ℚ) (hc : 0 < c) (st : Fin 3 → ℚ) :
    walkback (fun n => st n / c) = walkback st := by
  have h : ∀ a : ℚ, a / c < 0 ↔ a < 0 := by
    intro a
    rw [div_lt_iff₀ hc, zero_mul]
  simp only [walkback, h]

theorem ordCascade_scaled (c : ℚ) (hc : 0 < c) (st : Fin 3 → ℚ) :
    ordCascade (fun n => st n / c) = ordCascade st := by
  have h : ∀ a b : ℚ, a / c < b / c ↔ a < b := by
    intro a b
    exact div_lt_div_iff_of_pos_right hc
  simp only [ordCascade, h]

theorem goWin_scaled (d d' : Nat → ℚ) (FB : Int) (IND : Fin 3 → Int) (Iam0 Edge : Fin 3 → ℚ)
    (vs : Fin 3 → Int) (st st' : Fin 3 → ℚ) (ord : Fin 3 → Fin 3)
    (hq : ∀ k j : Fin 3, st' k * (FB : ℚ) * d' j = st k * (FB : ℚ) * d j) :
    goWin d' FB IND Iam0 Edge vs st' ord = goWin d FB IND Iam0 Edge vs st ord := by
  simp only [goWin, hq]

theorem stest_scaled (EPS_V c : ℚ) (d d' : Nat → ℚ) (FB : Int) (IND : Fin 3 → Int)
    (Iam0 Edge : Fin 3 → ℚ) (hc : 0 < c) (hd : ∀ n : Fin 3, d' n = c * d n)
    (hmag : ∀ n : Fin 3, EPS_V ≤ |d n| ∧ EPS_V ≤ |d' n|) (n : Fin 3) :
    stest EPS_V d' FB IND Iam0 Edge n = stest EPS_V d FB IND Iam0 Edge n / c := by
  have h1 : ¬ (|d n| < EPS_V) := not_lt.mpr (hmag n).1
  have h2 : ¬ (|d' n| < EPS_V) := not_lt.mpr (hmag n).2
  have hv : (d' n * (FB : ℚ) ≥ 0) ↔ (d n * (FB : ℚ) ≥ 0) := by
    rw [hd n, mul_assoc]
    exact mul_nonneg_iff_of_pos_left hc
  simp only [stest, targedge, divid, hv, if_neg h1, if_neg h2]
  rw [hd n, div_div, mul_left_comm, mul_comm c]

theorem vsign_scaled (c : ℚ) (d d' : Nat → ℚ) (FB : Int) (hc : 0 < c)
    (hd : ∀ n : Fin 3, d' n = c * d n) : vsign d' FB = vsign d FB := by
  funext n
  have hv : (d' n * (FB : ℚ) ≥ 0) ↔ (d n * (FB : ℚ) ≥ 0) := by
    rw [hd n, mul_assoc]
    exact mul_nonneg_iff_of_pos_left hc
  simp only [vsign, hv]

/-- Multiplying the direction by `c > 0` (no component of either vector below `EPS_V`
in magnitude) divides the distances `stest` by `c` and leaves the step, the new index
and the new position as they are; the accumulated length is divided by `c`. -/
theorem walk_scaled (EPS_V c : ℚ) (d d' : Nat → ℚ) (Edge : Fin 3 → ℚ) (s : Walk) (dp' : ℚ)
    (hc : 0 < c) (hd : ∀ n : Fin 3, d' n = c * d n)
    (hmag : ∀ n : Fin 3, EPS_V ≤ |d n| ∧ EPS_V ≤ |d' n|) :
    walkback (Walk.stest EPS_V d' Edge { s with dotprod := dp', physdist := s.physdist / c })
      = walkback (s.stest EPS_V d Edge) ∧
    Walk.goWin EPS_V d' Edge { s with dotprod := dp', physdist := s.physdist / c }
      = s.goWin EPS_V d Edge ∧
    Walk.nextIND EPS_V d' Edge { s with dotprod := dp', physdist := s.physdist / c }
      = s.nextIND EPS_V d Edge ∧
    Walk.nextIam0 EPS_V d' Edge { s with dotprod := dp', physdist := s.physdist / c }
      = s.nextIam0 EPS_V d Edge ∧
    Walk.nextPhysdist EPS_V d' Edge { s with dotprod := dp', physdist := s.physdist / c }
      = s.nextPhysdist EPS_V d Edge / c := by
  have e1 : Walk.stest EPS_V d' Edge { s with dotprod := dp', physdist := s.physdist / c }
      = fun n => s.stest EPS_V d Edge n / c := by
    funext n
    exact stest_scaled EPS_V c d d' s.FB s.IND s.Iam0 Edge hc hd hmag n
  have hq : ∀ k j : Fin 3, (fun n => s.stest EPS_V d Edge n / c) k * (s.FB : ℚ) * d' j
      = s.stest EPS_V d Edge k * (s.FB : ℚ) * d j := by
    intro k j
    rw [hd j]
    field_simp
    ring
  have e2 : Walk.goWin EPS_V d' Edge { s with dotprod := dp', physdist := s.physdist / c }
      = s.goWin EPS_V d Edge := by
    unfold Walk.goWin
    rw [e1, ordCascade_scaled c hc]
    show goWin d' s.FB s.IND s.Iam0 Edge (vsign d' s.FB) _ _ = _
    rw [vsign_scaled c d d' s.FB hc hd]
    exact goWin_scaled d d' s.FB s.IND s.Iam0 Edge _ _ _ _ hq
  refine ⟨?_, e2, ?_, ?_, ?_⟩
  · rw [e1, walkback_scaled c hc]
  · unfold Walk.nextIND
    rw [e2]
  · unfold Walk.nextIam0
    rw [e1, e2]
    funext n
    show s.Iam0 n + _ = s.Iam0 n + _
    rw [hq]
  · unfold Walk.nextPhysdist
    rw [e1, e2]
    show s.physdist / c + _ / c = _
    rw [add_div]

theorem dotRaw_scale (c : ℚ) (F : Field) (v w : Fin 3 → Int) (FB : Int) :
    dotRaw ((scaleDir c F).at v) ((scaleDir c F).at w) FB
      = c * c * dotRaw (F.at v) (F.at w) FB := by
  have v0 := scaleDir_dir c F v 0
  have v1 := scaleDir_dir c F v 1
  have v2 := scaleDir_dir c F v 2
  have w0 := scaleDir_dir c F w 0
  have w1 := scaleDir_dir c F w 1
  have w2 := scaleDir_dir c F w 2
  simp only [Fin.val_zero, Fin.val_one, Fin.val_two] at v0 v1 v2 w0 w1 w2
  simp only [dotRaw, v0, v1, v2, w0, w1, w2]
  ring

theorem revisit_scale (T : Nat → Fin 3 → Int) (tracL : Nat) (IND : Fin 3 → Int) (k dp : ℚ) :
    revisit T tracL IND (k * dp) = k * revisit T tracL IND dp := by
  rw [revisit_eq, revisit_eq]
  split
  · rw [mul_zero]
  · rfl

theorem flipped_scale (k r : ℚ) (hk : 0 < k) :
    (if k * r < 0 then k * r * (-1) else k * r) = k * (if r < 0 then r * (-1) else r) := by
  have h : k * r < 0 ↔ r < 0 := by
    constructor <;> intro h <;> nlinarith
  by_cases hr : r < 0
  · rw [if_pos (h.mpr hr), if_pos hr]; ring
  · rw [if_neg (fun h' => hr (h.mp h')), if_neg hr]

/-- One iteration on the field scaled by `c > 0`, from a state whose accumulated length
is that of the original walk divided by `c`: every variable is as after the iteration
on the original field, except that the stored alignment is multiplied by `c*c` and the
length is divided by `c`. -/
theorem bodyT_scale (EPS_V c : ℚ) (F : Field) (Edge : Fin 3 → ℚ) (dim : Fin 3 → Int)
    (hc : 0 < c) (s : Walk) (dp' : ℚ)
    (hmag : ∀ n : Fin 3, EPS_V ≤ |F.at s.IND n| ∧ EPS_V ≤ |c * F.at s.IND n|) :
    bodyT EPS_V (scaleDir c F) Edge dim { s with dotprod := dp', physdist := s.physdist / c }
      = { bodyT EPS_V F Edge dim s with
          dotprod := c * c * (bodyT EPS_V F Edge dim s).dotprod,
          physdist := (bodyT EPS_V F Edge dim s).physdist / c } := by
  have hd : ∀ n : Fin 3, (scaleDir c F).at s.IND n = c * F.at s.IND n :=
    fun n => scaleDir_dir c F s.IND n
  have hmag' : ∀ n : Fin 3, EPS_V ≤ |F.at s.IND n| ∧ EPS_V ≤ |(scaleDir c F).at s.IND n| := by
    intro n
    rw [hd n]
    exact hmag n
  obtain ⟨e1, e2, e3, e4, e5⟩ := walk_scaled EPS_V c (F.at s.IND) ((scaleDir c F).at s.IND)
    Edge s dp' hc hd hmag'
  by_cases hw : walkback (s.stest EPS_V (F.at s.IND) Edge) = true
  · have hw' : walkback (Walk.stest EPS_V ((scaleDir c F).at s.IND) Edge
        { s with dotprod := dp', physdist := s.physdist / c }) = true := by rw [e1]; exact hw
    rw [bodyT_walkback EPS_V F Edge dim s hw,
      bodyT_walkback EPS_V (scaleDir c F) Edge dim
        { s with dotprod := dp', physdist := s.physdist / c } hw']
    simp only [mul_zero]
    rfl
  · have hw1 : walkback (s.stest EPS_V (F.at s.IND) Edge) = false := by simpa using hw
    have hw' : walkback (Walk.stest EPS_V ((scaleDir c F).at s.IND) Edge
        { s with dotprod := dp', physdist := s.physdist / c }) = false := by rw [e1]; exact hw1
    by_cases hg : inGrid dim (s.nextIND EPS_V (F.at s.IND) Edge) = true
    · have hg' : inGrid dim (Walk.nextIND EPS_V ((scaleDir c F).at s.IND) Edge
          { s with dotprod := dp', physdist := s.physdist / c }) = true := by rw [e3]; exact hg
      have hsign : ∀ r : ℚ, c * c * r < 0 ↔ r < 0 := by
        intro r
        have hcc : 0 < c * c := mul_pos hc hc
        constructor <;> intro h <;> nlinarith
      rw [bodyT_inside EPS_V F Edge dim s hw1 hg,
        bodyT_inside EPS_V (scaleDir c F) Edge dim
          { s with dotprod := dp', physdist := s.physdist / c } hw' hg']
      simp only [e2, e3, e4, e5, dotRaw_scale]
      simp only [flipped_scale _ _ (mul_pos hc hc), revisit_scale]
      simp only [hsign]
      rfl
    · have hg1 : inGrid dim (s.nextIND EPS_V (F.at s.IND) Edge) = false := by simpa using hg
      have hg' : inGrid dim (Walk.nextIND EPS_V ((scaleDir c F).at s.IND) Edge
          { s with dotprod := dp', physdist := s.physdist / c }) = false := by rw [e3]; exact hg1
      rw [bodyT_outside EPS_V F Edge dim s hw1 hg1,
        bodyT_outside EPS_V (scaleDir c F) Edge dim
          { s with dotprod := dp', physdist := s.physdist / c } hw' hg']
      rw [e4, e5]
      simp only [mul_zero]
      rfl

theorem condT_scale (c : ℚ) (F : Field) (minFA maxAng : ℚ) (arrMax : Int) (s : Walk) (dp' : ℚ)
    (hdp : maxAng ≤ s.dotprod ↔ c * c * maxAng ≤ dp') :
    condT (scaleDir c F) minFA (c * c * maxAng) arrMax
        { s with dotprod := dp', physdist := s.physdist / c }
      = condT F minFA maxAng arrMax s := by
  simp only [condT, scaleDir_scalar, ge_iff_le]
  rw [decide_eq_decide.mpr hdp]

/-- The loop on the field scaled by `c > 0` against threshold `c*c*maxAng` follows the
loop on the original field against `maxAng`, with the accumulated length divided by
`c`, once the two alignment tests agree at the first check. -/
theorem loopT_scale (EPS_V c : ℚ) (F : Field) (Edge : Fin 3 → ℚ) (dim : Fin 3 → Int)
    (minFA maxAng : ℚ) (arrMax : Int) (hc : 0 < c)
    (hmag : ∀ v, inGrid dim v = true →
      ∀ n : Fin 3, EPS_V ≤ |F.at v n| ∧ EPS_V ≤ |c * F.at v n|)
    (fuel : Nat) (s : Walk) (dp' : ℚ) (hin : inGrid dim s.IND = true)
    (hdp : maxAng ≤ s.dotprod ↔ c * c * maxAng ≤ dp') :
    ∃ dpf : ℚ,
      loopT EPS_V (scaleDir c F) Edge dim minFA (c * c * maxAng) arrMax fuel
          { s with dotprod := dp', physdist := s.physdist / c }
        = { loopT EPS_V F Edge dim minFA maxAng arrMax fuel s with
            dotprod := dpf,
            physdist := (loopT EPS_V F Edge dim minFA maxAng arrMax fuel s).physdist / c } := by
  induction fuel generalizing s dp' with
  | zero => exact ⟨dp', rfl⟩
  | succ n ih =>
    have hcond := condT_scale c F minFA maxAng arrMax s dp' hdp
    by_cases hT : condT F minFA maxAng arrMax s = true
    · rw [loopT_succ_of_cond _ _ _ _ _ _ _ _ _ hT,
        loopT_succ_of_cond _ _ _ _ _ _ _ _ _ (hcond.trans hT),
        bodyT_scale EPS_V c F Edge dim hc s dp' (hmag s.IND hin)]
      apply ih
      · rcases bodyT_IND_cases EPS_V F Edge dim s with h | h | h
        · rw [h]; exact hin
        · rw [h]; exact inGrid_sentinel dim s.IND hin
        · exact h
      · exact (mul_le_mul_left (mul_pos hc hc)).symm
    · have hT' : condT F minFA maxAng arrMax s = false := by simpa using hT
      rw [loopT_of_cond_false _ _ _ _ _ _ _ _ _ hT',
        loopT_of_cond_false _ _ _ _ _ _ _ _ _ (hcond.trans hT')]
      exact ⟨dp', rfl⟩

/-- What `TrackIt` returns on the field scaled by `c > 0` against `c*c*maxAng`: the
result on the original field against `maxAng`, with `physL[0]` divided by `c`. -/
theorem TrackIt_scale_sim (EPS_V c : ℚ) (F : Field) (IND : Fin 3 → Int)
    (PHYSIND Edge : Fin 3 → ℚ) (dim : Fin 3 → Int) (minFA maxAng : ℚ) (arrMax : Int)
    (T : Nat → Fin 3 → Int) (flT : Nat → Fin 3 → ℚ) (FB : Int) (hc : 0 < c)
    (hmag : ∀ v, inGrid dim v = true →
      ∀ n : Fin 3, EPS_V ≤ |F.at v n| ∧ EPS_V ≤ |c * F.at v n|)
    (hSeed : ∀ n, 0 ≤ IND n ∧ IND n < dim n)
    (hfirst : maxAng ≤ 999 / 1000 ↔ c * c * maxAng ≤ 999 / 1000) :
    TrackIt EPS_V (scaleDir c F) IND PHYSIND Edge dim minFA (c * c * maxAng) arrMax T flT FB
      = (TrackIt EPS_V F IND PHYSIND Edge dim minFA maxAng arrMax T flT FB).map
          (fun r => { r with physL := r.physL / c }) := by
  have hi : ({ initWalk IND PHYSIND T flT FB with
          dotprod := 999 / 1000,
          physdist := (initWalk IND PHYSIND T flT FB).physdist / c } : Walk)
      = initWalk IND PHYSIND T flT FB := by
    simp [initWalk]
  obtain ⟨dpf, e⟩ := loopT_scale EPS_V c F Edge dim minFA maxAng arrMax hc hmag arrMax.toNat
    (initWalk IND PHYSIND T flT FB) (999 / 1000) ((inGrid_iff dim IND).mpr hSeed) hfirst
  rw [hi] at e
  unfold TrackIt walkT
  rw [e]
  unfold finish
  split
  · rfl
  · rfl

/-- The only iteration of the walk on the 1x1x1 grid of `slantX`, seeded at the voxel
centre with sign `+1`: the step leaves the grid along `+x` after a distance `1/2`. -/
theorem slantX_first :
    bodyT (1 / 1000000) slantX ![1, 1, 1] ![1, 1, 1]
        (initWalk ![0, 0, 0] ![1 / 2, 1 / 2, 1 / 2] T0 flT0 1)
      = { (initWalk ![0, 0, 0] ![1 / 2, 1 / 2, 1 / 2] T0 flT0 1).record with
          Iam0 := (initWalk ![0, 0, 0] ![1 / 2, 1 / 2, 1 / 2] T0 flT0 1).nextIam0 (1 / 1000000)
            (slantX.at ![0, 0, 0]) ![1, 1, 1],
          IND := fun _ => 0, dotprod := 0, physdist := 1 / 2 } := by
  have hst : (initWalk ![0, 0, 0] ![1 / 2, 1 / 2, 1 / 2] T0 flT0 1).stest (1 / 1000000)
      (slantX.at ![0, 0, 0]) ![1, 1, 1] = ![1 / 2, 2, 2] := by
    funext n
    fin_cases n <;>
      norm_num [Walk.stest, stest, targedge, divid, vsign, slantX, Field.at, initWalk,
        abs_of_pos]
  have hord : ordCascade ![(1 / 2 : ℚ), 2, 2] = ![0, 1, 2] := by
    apply ordCascade_sorted
    · show (1 / 2 : ℚ) ≤ 2
      norm_num
    · exact le_refl _
  have hw : walkback ((initWalk ![0, 0, 0] ![1 / 2, 1 / 2, 1 / 2] T0 flT0 1).stest
      (1 / 1000000) (slantX.at ![0, 0, 0]) ![1, 1, 1]) = false := by
    rw [hst]
    norm_num [walkback]
  have hv : ∀ n : Fin 3, vsign (slantX.at ![0, 0, 0]) 1 n = 1 := by
    intro n
    fin_cases n <;> norm_num [vsign, slantX, Field.at]
  have hgw : (initWalk ![0, 0, 0] ![1 / 2, 1 / 2, 1 / 2] T0 flT0 1).goWin (1 / 1000000)
      (slantX.at ![0, 0, 0]) ![1, 1, 1] = (![1, 0, 0], 0) := by
    rw [Walk.goWin, hst, hord]
    have hl : ∀ t : ℚ, t = 5 / 8 → leavesCorridor 1 t 1 = false := by
      intro t ht
      subst ht
      norm_num [leavesCorridor, BB, FF]
    simp only [goWin, initWalk, Matrix.cons_val_zero, Matrix.cons_val_one, Matrix.head_cons,
      hv, update_zero_one]
    rw [hl _ (by norm_num [slantX, Field.at])]
    simp
  have hI : (initWalk ![0, 0, 0] ![1 / 2, 1 / 2, 1 / 2] T0 flT0 1).nextIND (1 / 1000000)
      (slantX.at ![0, 0, 0]) ![1, 1, 1] = ![1, 0, 0] := by
    unfold Walk.nextIND
    rw [hgw]
    funext n
    fin_cases n <;> simp [initWalk]
  have hg : inGrid ![1, 1, 1] ((initWalk ![0, 0, 0] ![1 / 2, 1 / 2, 1 / 2] T0 flT0 1).nextIND
      (1 / 1000000) (slantX.at ![0, 0, 0]) ![1, 1, 1]) = false := by
    rw [hI]
    simp [inGrid]
  have hP : (initWalk ![0, 0, 0] ![1 / 2, 1 / 2, 1 / 2] T0 flT0 1).nextPhysdist (1 / 1000000)
      (slantX.at ![0, 0, 0]) ![1, 1, 1] = 1 / 2 := by
    unfold Walk.nextPhysdist
    rw [hgw, hst]
    norm_num [initWalk]
  have hb := bodyT_outside (1 / 1000000) slantX ![1, 1, 1] ![1, 1, 1]
    (initWalk ![0, 0, 0] ![1 / 2, 1 / 2, 1 / 2] T0 flT0 1) hw hg
  rw [hb]
  have hP' : (initWalk ![0, 0, 0] ![1 / 2, 1 / 2, 1 / 2] T0 flT0 1).nextPhysdist (1 / 1000000)
      (slantX.at (initWalk ![0, 0, 0] ![1 / 2, 1 / 2, 1 / 2] T0 flT0 1).IND) ![1, 1, 1]
      = 1 / 2 := hP
  rw [hP']
  rfl

/-- For `0 < maxAng <= 0.999` the walk on the 1x1x1 grid of `slantX` returns one step
and the length `1/2`. -/
theorem slantX_walk (maxAng : ℚ) (h0 : 0 < maxAng) (h1 : maxAng ≤ 999 / 1000) :
    ∃ r, TrackIt (1 / 1000000) slantX ![0, 0, 0] ![1 / 2, 1 / 2, 1 / 2] ![1, 1, 1] ![1, 1, 1]
        (1 / 5) maxAng 100 T0 flT0 1 = some r ∧ r.tracL = 1 ∧ r.physL = 1 / 2 := by
  have hc0 : condT slantX (1 / 5) maxAng 100
      (initWalk ![0, 0, 0] ![1 / 2, 1 / 2, 1 / 2] T0 flT0 1) = true := by
    simp only [condT, initWalk, Bool.and_eq_true, decide_eq_true_eq, ge_iff_le]
    refine ⟨⟨by norm_num, by norm_num [slantX, Field.at]⟩, h1⟩
  have hc1 : condT slantX (1 / 5) maxAng 100 (bodyT (1 / 1000000) slantX ![1, 1, 1] ![1, 1, 1]
      (initWalk ![0, 0, 0] ![1 / 2, 1 / 2, 1 / 2] T0 flT0 1)) = false := by
    apply condT_false_of_dotprod_zero _ _ _ _ _ h0
    rw [slantX_first]
  have hwalk : walkT (1 / 1000000) slantX ![0, 0, 0] ![1 / 2, 1 / 2, 1 / 2] ![1, 1, 1]
      ![1, 1, 1] (1 / 5) maxAng 100 T0 flT0 1
      = bodyT (1 / 1000000) slantX ![1, 1, 1] ![1, 1, 1]
          (initWalk ![0, 0, 0] ![1 / 2, 1 / 2, 1 / 2] T0 flT0 1) := by
    unfold walkT
    have h2 : (100 : Int).toNat = 99 + 1 := rfl
    rw [h2, loopT_succ_of_cond _ _ _ _ _ _ _ _ _ hc0, loopT_of_cond_false _ _ _ _ _ _ _ _ _ hc1]
  refine ⟨_, TrackIt_of_lt _ _ _ _ _ _ _ _ _ _ _ _ ?_, ?_, ?_⟩
  · rw [hwalk, bodyT_tracL]
    norm_num [initWalk]
  · show (walkT _ _ _ _ _ _ _ _ _ _ _ _).tracL = 1
    rw [hwalk, bodyT_tracL]
    rfl
  · show (walkT _ _ _ _ _ _ _ _ _ _ _ _).physdist = 1 / 2
    rw [hwalk, slantX_first]

theorem slantX_magnitudes (v : Fin 3 → Int) (n : Fin 3) :
    (1 / 1000000 : ℚ) ≤ |slantX.at v n| ∧ (1 / 1000000 : ℚ) ≤ |2 * slantX.at v n| := by
  fin_cases n <;> norm_num [slantX, Field.at, abs_of_pos]

/-- C15 as stated fails.  On the 1x1x1 grid of `slantX` (direction `(1, 1/4, 1/4)`, all
components of it and of its double at least `EPS_V = 0.000001`), seed at the voxel
centre, factor `c = 2`: with `maxAng = 0.1` both walks record one step but the lengths
returned are `1/2` and `1/4`; with `maxAng = 0.5` the original walk records one step
and the scaled walk, against `c*c*maxAng = 2 > 0.999`, records none. -/
theorem TrackIt_scale_changes_result :
    (∀ (v : Fin 3 → Int) (n : Fin 3),
      (1 / 1000000 : ℚ) ≤ |slantX.at v n| ∧ (1 / 1000000 : ℚ) ≤ |2 * slantX.at v n|) ∧
    (∃ r r', TrackIt (1 / 1000000) slantX ![0, 0, 0] ![1 / 2, 1 / 2, 1 / 2] ![1, 1, 1]
        ![1, 1, 1] (1 / 5) (1 / 10) 100 T0 flT0 1 = some r ∧
      TrackIt (1 / 1000000) (scaleDir 2 slantX) ![0, 0, 0] ![1 / 2, 1 / 2, 1 / 2] ![1, 1, 1]
        ![1, 1, 1] (1 / 5) (2 * 2 * (1 / 10)) 100 T0 flT0 1 = some r' ∧
      r.physL = 1 / 2 ∧ r'.physL = 1 / 4) ∧
    (∃ r r', TrackIt (1 / 1000000) slantX ![0, 0, 0] ![1 / 2, 1 / 2, 1 / 2] ![1, 1, 1]
        ![1, 1, 1] (1 / 5) (1 / 2) 100 T0 flT0 1 = some r ∧
      TrackIt (1 / 1000000) (scaleDir 2 slantX) ![0, 0, 0] ![1 / 2, 1 / 2, 1 / 2] ![1, 1, 1]
        ![1, 1, 1] (1 / 5) (2 * 2 * (1 / 2)) 100 T0 flT0 1 = some r' ∧
      r.tracL = 1 ∧ r'.tracL = 0) := by
  refine ⟨slantX_magnitudes, ?_, ?_⟩
  · obtain ⟨r, hr, _, hp⟩ := slantX_walk (1 / 10) (by norm_num) (by norm_num)
    have hs := TrackIt_scale_sim (1 / 1000000) 2 slantX ![0, 0, 0] ![1 / 2, 1 / 2, 1 / 2]
      ![1, 1, 1] ![1, 1, 1] (1 / 5) (1 / 10) 100 T0 flT0 1 (by norm_num)
      (fun v _ n => slantX_magnitudes v n) (by intro n; fin_cases n <;> simp)
      (by norm_num)
    rw [hr] at hs
    refine ⟨r, _, hr, hs, hp, ?_⟩
    show r.physL / 2 = 1 / 4
    rw [hp]
    norm_num
  · obtain ⟨r, hr, ht, _⟩ := slantX_walk (1 / 2) (by norm_num) (by norm_num)
    refine ⟨r, { tracL := 0, IND := ![0, 0, 0], T := T0, flT := flT0, physL := 0 }, hr, ?_,
      ht, rfl⟩
    apply TrackIt_of_cond_false _ _ _ _ _ _ _ _ _ _ _ _ (by norm_num)
    have : ¬ ((2 : ℚ) * 2 * (1 / 2) ≤ 999 / 1000) := by norm_num
    simp only [condT, initWalk, ge_iff_le, this, decide_False, Bool.and_false]

/-- C15 (as amended): let every direction vector be multiplied by `c > 0`, all
components of both fields inside the grid having magnitude at least `EPS_V`, let
`maxAng` be multiplied by `c*c`, and let the first loop check, on the seeded alignment
`0.999`, decide alike for `maxAng` and `c*c*maxAng`.  Then for a seed inside the grid
`TrackIt` takes the fatal exit on both fields or returns on both, with the same step
count, `T`, `flT` and final `IND`, and with `physL[0]` divided by `c` (exact
arithmetic). -/
theorem TrackIt_scale_directions (EPS_V c : ℚ) (F : Field) (IND : Fin 3 → Int)
    (PHYSIND Edge : Fin 3 → ℚ) (dim : Fin 3 → Int) (minFA maxAng : ℚ) (arrMax : Int)
    (T : Nat → Fin 3 → Int) (flT : Nat → Fin 3 → ℚ) (FB : Int) (hc : 0 < c)
    (hmag : ∀ v, inGrid dim v = true →
      ∀ n : Fin 3, EPS_V ≤ |F.at v n| ∧ EPS_V ≤ |c * F.at v n|)
    (hSeed : ∀ n, 0 ≤ IND n ∧ IND n < dim n)
    (hfirst : maxAng ≤ 999 / 1000 ↔ c * c * maxAng ≤ 999 / 1000) :
    (TrackIt EPS_V F IND PHYSIND Edge dim minFA maxAng arrMax T flT FB = none →
      TrackIt EPS_V (scaleDir c F) IND PHYSIND Edge dim minFA (c * c * maxAng) arrMax T flT FB
        = none) ∧
    (∀ r, TrackIt EPS_V F IND PHYSIND Edge dim minFA maxAng arrMax T flT FB = some r →
      TrackIt EPS_V (scaleDir c F) IND PHYSIND Edge dim minFA (c * c * maxAng) arrMax T flT FB
        = some { tracL := r.tracL, IND := r.IND, T := r.T, flT := r.flT,
                 physL := r.physL / c }) := by
  have hs := TrackIt_scale_sim EPS_V c F IND PHYSIND Edge dim minFA maxAng arrMax T flT FB hc
    hmag hSeed hfirst
  constructor
  · intro h
    rw [hs, h]
    rfl
  · intro r h
    rw [hs, h]
    rfl

theorem TrackIt_scale_directions_witness :
    ∃ r, TrackIt (1 / 1000000) (scaleDir 2 slantX) ![0, 0, 0] ![1 / 2, 1 / 2, 1 / 2]
      ![1, 1, 1] ![1, 1, 1] (1 / 5) (2 * 2 * (1 / 10)) 100 T0 flT0 1 = some r ∧
      r.tracL = 1 ∧ r.physL = 1 / 2 / 2 := by
  obtain ⟨r, hr, ht, hp⟩ := slantX_walk (1 / 10) (by norm_num) (by norm_num)
  have h := (TrackIt_scale_directions (1 / 1000000) 2 slantX ![0, 0, 0]
    ![1 / 2, 1 / 2, 1 / 2] ![1, 1, 1] ![1, 1, 1] (1 / 5) (1 / 10) 100 T0 flT0 1 (by norm_num)
    (fun v _ n => slantX_magnitudes v n) (by intro n; fin_cases n <;> simp)
    (by norm_num)).2 r hr
  exact ⟨_, h, ht, by rw [← hp]⟩

/-! ## `ViveLeRoi`: marking -/

theorem markFold_eq (REF : RoiDataset) (m : Nat) (row : Int → Int) (n : Nat) (p : Int) :
    (List.range n).foldl
        (fun r i =>
          if REF.voxel i m > 1 / 2 then Function.update r (cInt (REF.voxel i m)) 1 else r)
        row p
      = if ∃ i, i < n ∧ REF.voxel i m > 1 / 2 ∧ cInt (REF.voxel i m) = p then 1 else row p := by
  induction n with
  | zero => simp
  | succ k ih =>
    rw [List.range_succ, List.foldl_append]
    simp only [List.foldl_cons, List.foldl_nil]
    by_cases hk : REF.voxel k m > 1 / 2 ∧ cInt (REF.voxel k m) = p
    · have hex : ∃ i, i < k + 1 ∧ REF.voxel i m > 1 / 2 ∧ cInt (REF.voxel i m) = p :=
        ⟨k, by omega, hk⟩
      rw [if_pos hk.1, if_pos hex, ← hk.2, Function.update_same]
    · have hstep : (if REF.voxel k m > 1 / 2 then
            Function.update ((List.range k).foldl
              (fun r i => if REF.voxel i m > 1 / 2 then
                Function.update r (cInt (REF.voxel i m)) 1 else r) row)
              (cInt (REF.voxel k m)) 1
          else (List.range k).foldl
              (fun r i => if REF.voxel i m > 1 / 2 then
                Function.update r (cInt (REF.voxel i m)) 1 else r) row) p
          = (List.range k).foldl
              (fun r i => if REF.voxel i m > 1 / 2 then
                Function.update r (cInt (REF.voxel i m)) 1 else r) row p := by
        split
        · next h =>
          rw [Function.update_noteq]
          intro hp
          exact hk ⟨h, hp.symm⟩
        · rfl
      rw [hstep, ih]
      by_cases hex : ∃ i, i < k ∧ REF.voxel i m > 1 / 2 ∧ cInt (REF.voxel i m) = p
      · obtain ⟨i, hi, h⟩ := hex
        rw [if_pos ⟨i, hi, h⟩, if_pos ⟨i, by omega, h⟩]
      · have hex' : ¬ ∃ i, i < k + 1 ∧ REF.voxel i m > 1 / 2 ∧ cInt (REF.voxel i m) = p := by
          rintro ⟨i, hi, h⟩
          rcases Nat.lt_succ_iff_lt_or_eq.mp hi with h' | h'
          · exact hex ⟨i, h', h⟩
          · subst h'
            exact hk h
        rw [if_neg hex, if_neg hex']

/-- After the marking of sub-volume `m`, an entry of its row is `1` when some voxel
value above `0.5` has that integer part, and is otherwise as before. -/
theorem markRow_eq (REF : RoiDataset) (m : Nat) (row : Int → Int) (p : Int) :
    markRow REF m row p
      = if ∃ i, i < REF.Nvox ∧ REF.voxel i m > 1 / 2 ∧ cInt (REF.voxel i m) = p then 1
        else row p :=
  markFold_eq REF m row REF.Nvox p

theorem markAllFold_eq (REF : RoiDataset) (R : Nat → Int → Int) (k m : Nat) :
    (List.range k).foldl (fun R m => Function.update R m (markRow REF m (R m))) R m
      = if m < k then markRow REF m (R m) else R m := by
  induction k with
  | zero => simp
  | succ n ih =>
    rw [List.range_succ, List.foldl_append]
    simp only [List.foldl_cons, List.foldl_nil]
    by_cases hm : m = n
    · subst hm
      rw [Function.update_same, if_pos (by omega)]
      have := ih
      rw [if_neg (by omega)] at this
      rw [this]
    · rw [Function.update_noteq hm, ih]
      by_cases hlt : m < n
      · rw [if_pos hlt, if_pos (by omega)]
      · rw [if_neg hlt, if_neg (by omega)]

/-- The first loop nest marks each sub-volume in its own row. -/
theorem markAll_eq (REF : RoiDataset) (R : Nat → Int → Int) (m : Nat) :
    markAll REF R m = if m < REF.Nbrik then markRow REF m (R m) else R m :=
  markAllFold_eq REF R REF.Nbrik m

/-! ## `ViveLeRoi`: compaction -/

theorem compactRow_zero (roi inv : Int → Int) :
    compactRow 0 roi inv = { roi := roi, inv := inv, j := 1 } := rfl

theorem compactRow_succ (n : Nat) (roi inv : Int → Int) :
    compactRow (n + 1) roi inv = compactStep (compactRow n roi inv) ((n : Int) + 1) := by
  unfold compactRow
  rw [List.range_succ, List.map_append, List.foldl_append]
  rfl

/-- Invariant of the compaction loop after the indices `1..n`: the entries from `j` on
(and below `1`) are still the marks; the entries `1..j-1` are the marked indices of
`1..n` in increasing order; `inv` sends each of them back to its position and is
otherwise as before. -/
theorem compactRow_inv (roi0 inv0 : Int → Int) (n : Nat) :
    1 ≤ (compactRow n roi0 inv0).j ∧ (compactRow n roi0 inv0).j - 1 ≤ n ∧
    (∀ p, p < 1 ∨ (compactRow n roi0 inv0).j ≤ p → (compactRow n roi0 inv0).roi p = roi0 p) ∧
    (∀ k, 1 ≤ k → k < (compactRow n roi0 inv0).j →
      1 ≤ (compactRow n roi0 inv0).roi k ∧ (compactRow n roi0 inv0).roi k ≤ n ∧
      roi0 ((compactRow n roi0 inv0).roi k) = 1 ∧
      (compactRow n roi0 inv0).inv ((compactRow n roi0 inv0).roi k) = k) ∧
    (∀ k k', 1 ≤ k → k < k' → k' < (compactRow n roi0 inv0).j →
      (compactRow n roi0 inv0).roi k < (compactRow n roi0 inv0).roi k') ∧
    (∀ p : Int, 1 ≤ p → p ≤ (n : Int) → roi0 p = 1 →
      1 ≤ (compactRow n roi0 inv0).inv p ∧
      (compactRow n roi0 inv0).inv p < (compactRow n roi0 inv0).j ∧
      (compactRow n roi0 inv0).roi ((compactRow n roi0 inv0).inv p) = p) ∧
    (∀ p : Int, ¬ (1 ≤ p ∧ p ≤ (n : Int) ∧ roi0 p = 1) →
      (compactRow n roi0 inv0).inv p = inv0 p) := by
  induction n with
  | zero =>
    rw [compactRow_zero]
    refine ⟨le_refl _, by norm_num, fun _ _ => rfl, ?_, ?_, ?_, fun _ _ => rfl⟩
    · intro k h1 h2
      exact absurd h2 (by simp only; omega)
    · intro k k' h1 h2 h3
      exact absurd h3 (by simp only; omega)
    · intro p h1 h2
      exact absurd h2 (by push_cast; omega)
  | succ n ih =>
    obtain ⟨a1, a2, a3, a4, a5, a6, a7⟩ := ih
    rw [compactRow_succ]
    generalize compactRow n roi0 inv0 = c at a1 a2 a3 a4 a5 a6 a7
    have hread : c.roi ((n : Int) + 1) = roi0 ((n : Int) + 1) := a3 _ (Or.inr (by omega))
    unfold compactStep
    by_cases hm : c.roi ((n : Int) + 1) = 1
    · rw [if_pos hm]
      rw [hread] at hm
      simp only
      refine ⟨by omega, by push_cast; omega, ?_, ?_, ?_, ?_, ?_⟩
      · intro p hp
        rw [Function.update_noteq (by omega)]
        exact a3 p (by omega)
      · intro k h1 h2
        by_cases hk : k = c.j
        · subst hk
          rw [Function.update_same, Function.update_same]
          exact ⟨by omega, by push_cast; omega, hm, rfl⟩
        · rw [Function.update_noteq hk]
          obtain ⟨b1, b2, b3, b4⟩ := a4 k h1 (by omega)
          refine ⟨b1, by push_cast; omega, b3, ?_⟩
          rw [Function.update_noteq (by omega)]
          exact b4
      · intro k k' h1 h2 h3
        rw [Function.update_noteq (by omega)]
        by_cases hk' : k' = c.j
        · subst hk'
          rw [Function.update_same]
          have := (a4 k h1 h2).2.1
          omega
        · rw [Function.update_noteq hk']
          exact a5 k k' h1 h2 (by omega)
      · intro p h1 h2 h3
        by_cases hp : p = (n : Int) + 1
        · subst hp
          rw [Function.update_same, Function.update_same]
          exact ⟨a1, by omega, rfl⟩
        · rw [Function.update_noteq hp]
          obtain ⟨b1, b2, b3⟩ := a6 p h1 (by push_cast at h2; omega) h3
          refine ⟨b1, by omega, ?_⟩
          rw [Function.update_noteq (by omega)]
          exact b3
      · intro p hp
        have hne : p ≠ (n : Int) + 1 := by
          rintro rfl
          exact hp ⟨by omega, by push_cast; omega, hm⟩
        rw [Function.update_noteq hne]
        apply a7
        rintro ⟨h1, h2, h3⟩
        exact hp ⟨h1, by push_cast; omega, h3⟩
    · rw [if_neg hm]
      rw [hread] at hm
      refine ⟨a1, by push_cast; omega, a3, ?_, a5, ?_, ?_⟩
      · intro k h1 h2
        obtain ⟨b1, b2, b3, b4⟩ := a4 k h1 h2
        exact ⟨b1, by push_cast; omega, b3, b4⟩
      · intro p h1 h2 h3
        have hne : p ≠ (n : Int) + 1 := by
          rintro rfl
          exact hm h3
        exact a6 p h1 (by push_cast at h2; omega) h3
      · intro p hp
        apply a7
        rintro ⟨h1, h2, h3⟩
        exact hp ⟨h1, by push_cast; omega, h3⟩

/-! ## `ViveLeRoi`: the loop over sub-volumes -/

theorem roiBrik_of_nonneg (INVROI : Nat → Int) (st : RoiLists) (m : Nat) (h : 0 ≤ INVROI m) :
    roiBrik INVROI st m
      = some
        { ROILIST := Function.update st.ROILIST m
            (compactRow (INVROI m).toNat (st.ROILIST m) (st.INVLIST m)).roi,
          INVLIST := Function.update st.INVLIST m
            (compactRow (INVROI m).toNat (st.ROILIST m) (st.INVLIST m)).inv,
          NUMROI := Function.update st.NUMROI m
            ((compactRow (INVROI m).toNat (st.ROILIST m) (st.INVLIST m)).j - 1) } := by
  have hle := (compactRow_inv (st.ROILIST m) (st.INVLIST m) (INVROI m).toNat).2.1
  rw [Int.toNat_of_nonneg h] at hle
  unfold roiBrik
  simp only
  rw [if_neg (not_lt.mpr hle)]

theorem roiBrik_of_neg (INVROI : Nat → Int) (st : RoiLists) (m : Nat) (h : INVROI m < 0) :
    roiBrik INVROI st m = none := by
  have h0 : (INVROI m).toNat = 0 := Int.toNat_eq_zero.mpr (le_of_lt h)
  unfold roiBrik
  simp only
  rw [h0, compactRow_zero, if_pos]
  simpa using h

theorem foldlM_range_succ (INVROI : Nat → Int) (k : Nat) (st0 : RoiLists) :
    (List.range (k + 1)).foldlM (roiBrik INVROI) st0
      = ((List.range k).foldlM (roiBrik INVROI) st0).bind (fun st => roiBrik INVROI st k) := by
  rw [List.range_succ, List.foldlM_append]
  simp

/-- When no `INVROI[m]` is negative, the second loop runs through: sub-volume `m` gets
the result of the compaction of its own rows, and later rows are untouched. -/
theorem foldBrik_some (INVROI : Nat → Int) (k : Nat) (st0 : RoiLists)
    (h : ∀ m, m < k → 0 ≤ INVROI m) :
    ∃ res, (List.range k).foldlM (roiBrik INVROI) st0 = some res ∧
      (∀ m, m < k →
        res.ROILIST m = (compactRow (INVROI m).toNat (st0.ROILIST m) (st0.INVLIST m)).roi ∧
        res.INVLIST m = (compactRow (INVROI m).toNat (st0.ROILIST m) (st0.INVLIST m)).inv ∧
        res.NUMROI m = (compactRow (INVROI m).toNat (st0.ROILIST m) (st0.INVLIST m)).j - 1) ∧
      (∀ m, k ≤ m → res.ROILIST m = st0.ROILIST m ∧ res.INVLIST m = st0.INVLIST m ∧
        res.NUMROI m = st0.NUMROI m) := by
  induction k with
  | zero =>
    refine ⟨st0, rfl, ?_, fun _ _ => ⟨rfl, rfl, rfl⟩⟩
    intro m hm
    omega
  | succ n ih =>
    obtain ⟨res, e, g1, g2⟩ := ih (fun m hm => h m (by omega))
    obtain ⟨r1, r2, r3⟩ := g2 n (le_refl _)
    rw [foldlM_range_succ, e, Option.some_bind, roiBrik_of_nonneg INVROI res n (h n (by omega))]
    refine ⟨_, rfl, ?_, ?_⟩
    · intro m hm
      by_cases hmn : m = n
      · subst hmn
        simp only [Function.update_same, r1, r2]
        exact ⟨trivial, trivial, trivial⟩
      · simp only [Function.update_noteq hmn]
        exact g1 m (by omega)
    · intro m hm
      have hmn : m ≠ n := by omega
      simp only [Function.update_noteq hmn]
      exact g2 m (by omega)

theorem foldBrik_none (INVROI : Nat → Int) (k : Nat) (st0 : RoiLists)
    (h : ∃ m, m < k ∧ INVROI m < 0) :
    (List.range k).foldlM (roiBrik INVROI) st0 = none := by
  induction k with
  | zero =>
    obtain ⟨m, hm, _⟩ := h
    omega
  | succ n ih =>
    rw [foldlM_range_succ]
    by_cases hex : ∃ m, m < n ∧ INVROI m < 0
    · rw [ih hex]
      rfl
    · have hall : ∀ m, m < n → 0 ≤ INVROI m := by
        intro m hm
        by_contra hneg
        exact hex ⟨m, hm, not_le.mp hneg⟩
      obtain ⟨res, e, _⟩ := foldBrik_some INVROI n st0 hall
      obtain ⟨m, hm, hneg⟩ := h
      have hmn : m = n := by
        by_contra hne
        exact hex ⟨m, by omega, hneg⟩
      subst hmn
      rw [e, Option.some_bind, roiBrik_of_neg INVROI res m hneg]

/-- The call is fatal exactly when some `INVROI[m]` is negative. -/
theorem ViveLeRoi_eq_none_iff (REF : RoiDataset) (ROILIST INVLIST : Nat → Int → Int)
    (NUMROI INVROI : Nat → Int) :
    ViveLeRoi REF ROILIST INVLIST NUMROI INVROI = none ↔ ∃ m, m < REF.Nbrik ∧ INVROI m < 0 := by
  constructor
  · intro hnone
    by_contra hex
    have hall : ∀ m, m < REF.Nbrik → 0 ≤ INVROI m := by
      intro m hm
      by_contra hneg
      exact hex ⟨m, hm, not_le.mp hneg⟩
    obtain ⟨res, e, _⟩ := foldBrik_some INVROI REF.Nbrik
      { ROILIST := markAll REF ROILIST, INVLIST := INVLIST, NUMROI := NUMROI } hall
    unfold ViveLeRoi at hnone
    rw [e] at hnone
    exact absurd hnone (by simp)
  · intro hex
    exact foldBrik_none INVROI REF.Nbrik _ hex

/-- What a returning call leaves in the rows of sub-volume `m`: the compaction, over
`1..INVROI[m]`, of the marked row. -/
theorem ViveLeRoi_rows (REF : RoiDataset) (ROILIST INVLIST : Nat → Int → Int)
    (NUMROI INVROI : Nat → Int) (res : RoiLists)
    (h : ViveLeRoi REF ROILIST INVLIST NUMROI INVROI = some res) (m : Nat)
    (hm : m < REF.Nbrik) :
    0 ≤ INVROI m ∧
    res.ROILIST m
      = (compactRow (INVROI m).toNat (markRow REF m (ROILIST m)) (INVLIST m)).roi ∧
    res.INVLIST m
      = (compactRow (INVROI m).toNat (markRow REF m (ROILIST m)) (INVLIST m)).inv ∧
    res.NUMROI m
      = (compactRow (INVROI m).toNat (markRow REF m (ROILIST m)) (INVLIST m)).j - 1 := by
  have hall : ∀ m, m < REF.Nbrik → 0 ≤ INVROI m := by
    intro m' hm'
    by_contra hneg
    have := (ViveLeRoi_eq_none_iff REF ROILIST INVLIST NUMROI INVROI).mpr
      ⟨m', hm', not_le.mp hneg⟩
    rw [h] at this
    exact absurd this (by simp)
  obtain ⟨res', e, g1, _⟩ := foldBrik_some INVROI REF.Nbrik
    { ROILIST := markAll REF ROILIST, INVLIST := INVLIST, NUMROI := NUMROI } hall
  unfold ViveLeRoi at h
  rw [e] at h
  have hres : res' = res := Option.some.inj h
  subst hres
  obtain ⟨a, b, c⟩ := g1 m hm
  have hmark : markAll REF ROILIST m = markRow REF m (ROILIST m) := by
    rw [markAll_eq, if_pos hm]
  simp only [hmark] at a b c
  exact ⟨hall m hm, a, b, c⟩

/-- The call returns when no `INVROI[m]` is negative. -/
theorem ViveLeRoi_returns (REF : RoiDataset) (ROILIST INVLIST : Nat → Int → Int)
    (NUMROI INVROI : Nat → Int) (h : ∀ m, m < REF.Nbrik → 0 ≤ INVROI m) :
    ∃ res, ViveLeRoi REF ROILIST INVLIST NUMROI INVROI = some res := by
  obtain ⟨res, e, _⟩ := foldBrik_some INVROI REF.Nbrik
    { ROILIST := markAll REF ROILIST, INVLIST := INVLIST, NUMROI := NUMROI } h
  exact ⟨res, e⟩

/-! ## `ViveLeRoi`: labels and marks -/

theorem cInt_intCast (L : Int) : cInt (L : ℚ) = L := by
  unfold cInt
  split
  · exact Int.floor_intCast L
  · exact Int.ceil_intCast L

theorem intCast_gt_half (L : Int) : (L : ℚ) > 1 / 2 ↔ 0 < L := by
  constructor
  · intro h
    by_contra hle
    have : (L : ℚ) ≤ 0 := by exact_mod_cast not_lt.mp hle
    linarith
  · intro h
    have : (1 : ℚ) ≤ (L : ℚ) := by exact_mod_cast h
    linarith

theorem mem_labelSet (REF : RoiDataset) (m : Nat) (L : Int) :
    L ∈ labelSet REF m ↔ present REF m L := by
  unfold labelSet
  rw [Finset.mem_filter, Finset.mem_image]
  constructor
  · exact fun h => h.2
  · intro h
    refine ⟨?_, h⟩
    obtain ⟨_, i, hi, hv⟩ := h
    exact ⟨i, Finset.mem_range.mpr hi, by rw [hv, cInt_intCast]⟩

/-- A present label is marked, whatever the row held before. -/
theorem markRow_of_present (REF : RoiDataset) (m : Nat) (row : Int → Int) (L : Int)
    (h : present REF m L) : markRow REF m row L = 1 := by
  obtain ⟨hpos, i, hi, hv⟩ := h
  rw [markRow_eq, if_pos]
  exact ⟨i, hi, by rw [hv]; exact (intCast_gt_half L).mpr hpos, by rw [hv, cInt_intCast]⟩

/-- On a row that was zero, with integer voxel values, exactly the present labels are
marked. -/
theorem markRow_eq_one_iff (REF : RoiDataset) (INVROI : Nat → Int) (m : Nat)
    (row : Int → Int) (hzero : ∀ p, row p = 0) (hrange : labelsInRange REF INVROI m)
    (p : Int) : markRow REF m row p = 1 ↔ present REF m p := by
  constructor
  · intro h
    rw [markRow_eq] at h
    by_cases hex : ∃ i, i < REF.Nvox ∧ REF.voxel i m > 1 / 2 ∧ cInt (REF.voxel i m) = p
    · obtain ⟨i, hi, hgt, hc⟩ := hex
      obtain ⟨L, hL, _, _⟩ := hrange i hi
      rw [hL, cInt_intCast] at hc
      rw [hL] at hgt
      subst hc
      exact ⟨(intCast_gt_half L).mp hgt, i, hi, hL⟩
    · rw [if_neg hex, hzero] at h
      exact absurd h (by norm_num)
  · exact markRow_of_present REF m row p

theorem present_bounds (REF : RoiDataset) (INVROI : Nat → Int) (m : Nat)
    (hrange : labelsInRange REF INVROI m) (L : Int) (h : present REF m L) :
    1 ≤ L ∧ L ≤ INVROI m := by
  obtain ⟨hpos, i, hi, hv⟩ := h
  obtain ⟨L', hL', _, hle⟩ := hrange i hi
  have : L = L' := by
    have : (L : ℚ) = (L' : ℚ) := by rw [← hv, hL']
    exact_mod_cast this
  subst this
  exact ⟨by omega, hle⟩

/-- The compaction counts the marked indices: `j - 1` is the number of elements of any
finite set whose members are exactly the marked indices of `1..n`. -/
theorem compactRow_count (roi0 inv0 : Int → Int) (n : Nat) (S : Finset Int)
    (hS : ∀ p : Int, p ∈ S ↔ 1 ≤ p ∧ p ≤ (n : Int) ∧ roi0 p = 1) :
    (compactRow n roi0 inv0).j - 1 = (S.card : Int) := by
  obtain ⟨a1, _, _, a4, a5, a6, _⟩ := compactRow_inv roi0 inv0 n
  have hcard : (Finset.Icc 1 ((compactRow n roi0 inv0).j - 1)).card = S.card := by
    apply Finset.card_bij (fun k _ => (compactRow n roi0 inv0).roi k)
    · intro k hk
      rw [Finset.mem_Icc] at hk
      obtain ⟨b1, b2, b3, _⟩ := a4 k hk.1 (by omega)
      exact (hS _).mpr ⟨b1, b2, b3⟩
    · intro k hk k' hk' he
      rw [Finset.mem_Icc] at hk hk'
      rcases lt_trichotomy k k' with h | h | h
      · have := a5 k k' hk.1 h (by omega)
        omega
      · exact h
      · have := a5 k' k hk'.1 h (by omega)
        omega
    · intro L hL
      obtain ⟨c1, c2, c3⟩ := (hS L).mp hL
      obtain ⟨d1, d2, d3⟩ := a6 L c1 c2 c3
      exact ⟨(compactRow n roi0 inv0).inv L, Finset.mem_Icc.mpr ⟨d1, by omega⟩, d3⟩
  rw [← hcard, Int.card_Icc]
  have : (compactRow n roi0 inv0).j - 1 + 1 - 1 = (compactRow n roi0 inv0).j - 1 := by ring
  rw [this, Int.toNat_of_nonneg (by omega)]

/-- Entry `k` of the compacted row has exactly `k - 1` marked indices below it. -/
theorem compactRow_rank (roi0 inv0 : Int → Int) (n : Nat) (S : Finset Int)
    (hS : ∀ p : Int, p ∈ S ↔ 1 ≤ p ∧ p ≤ (n : Int) ∧ roi0 p = 1) (k : Int) (hk1 : 1 ≤ k)
    (hk2 : k < (compactRow n roi0 inv0).j) :
    ((S.filter (fun L => L < (compactRow n roi0 inv0).roi k)).card : Int) = k - 1 := by
  obtain ⟨a1, _, _, a4, a5, a6, _⟩ := compactRow_inv roi0 inv0 n
  have hcard : (Finset.Icc 1 (k - 1)).card
      = (S.filter (fun L => L < (compactRow n roi0 inv0).roi k)).card := by
    apply Finset.card_bij (fun i _ => (compactRow n roi0 inv0).roi i)
    · intro i hi
      rw [Finset.mem_Icc] at hi
      obtain ⟨b1, b2, b3, _⟩ := a4 i hi.1 (by omega)
      rw [Finset.mem_filter]
      exact ⟨(hS _).mpr ⟨b1, b2, b3⟩, a5 i k hi.1 (by omega) hk2⟩
    · intro i hi i' hi' he
      rw [Finset.mem_Icc] at hi hi'
      rcases lt_trichotomy i i' with h | h | h
      · have := a5 i i' hi.1 h (by omega)
        omega
      · exact h
      · have := a5 i' i hi'.1 h (by omega)
        omega
    · intro L hL
      rw [Finset.mem_filter] at hL
      obtain ⟨c1, c2, c3⟩ := (hS L).mp hL.1
      obtain ⟨d1, d2, d3⟩ := a6 L c1 c2 c3
      refine ⟨(compactRow n roi0 inv0).inv L, Finset.mem_Icc.mpr ⟨d1, ?_⟩, d3⟩
      by_contra hge
      have hlt := hL.2
      rw [← d3] at hlt
      rcases lt_or_eq_of_le (show k ≤ (compactRow n roi0 inv0).inv L by omega) with h | h
      · have := a5 k _ hk1 h d2
        omega
      · rw [← h] at hlt
        omega
  rw [← hcard, Int.card_Icc]
  have : k - 1 + 1 - 1 = k - 1 := by ring
  rw [this, Int.toNat_of_nonneg (by omega)]

/-- With integer voxel values in `0..INVROI[m]` and a row that was zero, the label set
of sub-volume `m` is the set of marked indices of `1..INVROI[m]`. -/
theorem labelSet_marked (REF : RoiDataset) (INVROI : Nat → Int) (m : Nat) (row : Int → Int)
    (hzero : ∀ p, row p = 0) (hrange : labelsInRange REF INVROI m) (hINV : 0 ≤ INVROI m)
    (p : Int) :
    p ∈ labelSet REF m ↔
      1 ≤ p ∧ p ≤ ((INVROI m).toNat : Int) ∧ markRow REF m row p = 1 := by
  rw [mem_labelSet, Int.toNat_of_nonneg hINV]
  constructor
  · intro h
    obtain ⟨b1, b2⟩ := present_bounds REF INVROI m hrange p h
    exact ⟨b1, b2, markRow_of_present REF m row p h⟩
  · intro h
    exact (markRow_eq_one_iff REF INVROI m row hzero hrange p).mp h.2.2

/-! ## C16..C20 -/

/-- C16: when `ViveLeRoi` returns, for every sub-volume `m` whose `ROILIST` row was all
zero and whose voxel values are integers in `0..INVROI[m]`, `NUMROI[m]` is the number of
distinct positive labels that occur in sub-volume `m`, and is at most `INVROI[m]`; and
`ViveLeRoi` does return when no `INVROI[m]` is negative. -/
theorem ViveLeRoi_count (REF : RoiDataset) (ROILIST INVLIST : Nat → Int → Int)
    (NUMROI INVROI : Nat → Int) :
    (∀ res, ViveLeRoi REF ROILIST INVLIST NUMROI INVROI = some res →
      ∀ m, m < REF.Nbrik → (∀ p, ROILIST m p = 0) → labelsInRange REF INVROI m →
        res.NUMROI m = ((labelSet REF m).card : Int) ∧ res.NUMROI m ≤ INVROI m) ∧
    ((∀ m, m < REF.Nbrik → 0 ≤ INVROI m) →
      ∃ res, ViveLeRoi REF ROILIST INVLIST NUMROI INVROI = some res) := by
  refine ⟨?_, ViveLeRoi_returns REF ROILIST INVLIST NUMROI INVROI⟩
  intro res hres m hm hzero hrange
  obtain ⟨hINV, _, _, hN⟩ := ViveLeRoi_rows REF ROILIST INVLIST NUMROI INVROI res hres m hm
  have hle := (compactRow_inv (markRow REF m (ROILIST m)) (INVLIST m) (INVROI m).toNat).2.1
  rw [Int.toNat_of_nonneg hINV] at hle
  rw [hN]
  exact ⟨compactRow_count _ _ _ _
    (labelSet_marked REF INVROI m (ROILIST m) hzero hrange hINV), hle⟩

theorem ViveLeRoi_count_witness :
    ∃ res, ViveLeRoi oneLabelTwo zeroRows zeroRows (fun _ => 0) (fun _ => 2) = some res ∧
      res.NUMROI 0 = ((labelSet oneLabelTwo 0).card : Int) ∧ res.NUMROI 0 ≤ 2 := by
  have h := ViveLeRoi_count oneLabelTwo zeroRows zeroRows (fun _ => 0) (fun _ => 2)
  obtain ⟨res, hres⟩ := h.2 (fun _ _ => by norm_num)
  refine ⟨res, hres, h.1 res hres 0 (by decide) (fun _ => rfl) ?_⟩
  intro i _
  exact ⟨2, by simp [oneLabelTwo], by norm_num, by norm_num⟩

/-- C17: when `ViveLeRoi` returns, for a sub-volume `m` whose `ROILIST` row was all zero
and whose voxel values are integers in `0..INVROI[m]`, the entries `ROILIST[m][1..M]`,
`M = NUMROI[m]`, are strictly increasing and are exactly the positive labels present in
sub-volume `m`; entry `k` has exactly `k - 1` present labels below it, so it is the
`k`-th smallest; and at every stage of the compaction the write position `j` is at most
the next index to read and the entries from `j` on are still the marks. -/
theorem ViveLeRoi_ordering (REF : RoiDataset) (ROILIST INVLIST : Nat → Int → Int)
    (NUMROI INVROI : Nat → Int) (res : RoiLists)
    (hres : ViveLeRoi REF ROILIST INVLIST NUMROI INVROI = some res) (m : Nat)
    (hm : m < REF.Nbrik) (hzero : ∀ p, ROILIST m p = 0)
    (hrange : labelsInRange REF INVROI m) :
    (∀ k k' : Int, 1 ≤ k → k < k' → k' ≤ res.NUMROI m →
      res.ROILIST m k < res.ROILIST m k') ∧
    (∀ L : Int, present REF m L ↔ ∃ k, 1 ≤ k ∧ k ≤ res.NUMROI m ∧ res.ROILIST m k = L) ∧
    (∀ k : Int, 1 ≤ k → k ≤ res.NUMROI m →
      (((labelSet REF m).filter (fun L => L < res.ROILIST m k)).card : Int) = k - 1) ∧
    (∀ n : Nat,
      (compactRow n (markRow REF m (ROILIST m)) (INVLIST m)).j ≤ (n : Int) + 1 ∧
      ∀ p, (compactRow n (markRow REF m (ROILIST m)) (INVLIST m)).j ≤ p →
        (compactRow n (markRow REF m (ROILIST m)) (INVLIST m)).roi p
          = markRow REF m (ROILIST m) p) := by
  obtain ⟨hINV, hR, _, hN⟩ := ViveLeRoi_rows REF ROILIST INVLIST NUMROI INVROI res hres m hm
  obtain ⟨_, _, _, a4, a5, a6, _⟩ :=
    compactRow_inv (markRow REF m (ROILIST m)) (INVLIST m) (INVROI m).toNat
  have hS := labelSet_marked REF INVROI m (ROILIST m) hzero hrange hINV
  rw [hR, hN]
  refine ⟨?_, ?_, ?_, ?_⟩
  · intro k k' h1 h2 h3
    exact a5 k k' h1 h2 (by omega)
  · intro L
    rw [← mem_labelSet, hS]
    constructor
    · rintro ⟨c1, c2, c3⟩
      obtain ⟨d1, d2, d3⟩ := a6 L c1 c2 c3
      exact ⟨_, d1, by omega, d3⟩
    · rintro ⟨k, h1, h2, rfl⟩
      obtain ⟨b1, b2, b3, _⟩ := a4 k h1 (by omega)
      exact ⟨b1, b2, b3⟩
  · intro k h1 h2
    exact compactRow_rank _ _ _ _ hS k h1 (by omega)
  · intro n
    obtain ⟨_, b2, b3, _⟩ := compactRow_inv (markRow REF m (ROILIST m)) (INVLIST m) n
    exact ⟨by omega, fun p hp => b3 p (Or.inr hp)⟩

theorem oneLabelTwo_inRange : labelsInRange oneLabelTwo (fun _ => 2) 0 := by
  intro i _
  exact ⟨2, by simp [oneLabelTwo], by norm_num, by norm_num⟩

theorem ViveLeRoi_ordering_witness :
    ∃ res, ViveLeRoi oneLabelTwo zeroRows zeroRows (fun _ => 0) (fun _ => 2) = some res ∧
      ∀ L : Int, present oneLabelTwo 0 L ↔
        ∃ k, 1 ≤ k ∧ k ≤ res.NUMROI 0 ∧ res.ROILIST 0 k = L := by
  obtain ⟨res, hres⟩ := ViveLeRoi_returns oneLabelTwo zeroRows zeroRows (fun _ => 0)
    (fun _ => 2) (fun _ _ => by norm_num)
  exact ⟨res, hres, (ViveLeRoi_ordering oneLabelTwo zeroRows zeroRows (fun _ => 0)
    (fun _ => 2) res hres 0 (by decide) (fun _ => rfl) oneLabelTwo_inRange).2.1⟩

theorem labelsOneTwo_present_two : present labelsOneTwo 0 2 :=
  ⟨by norm_num, 1, by decide, by simp [labelsOneTwo]⟩

theorem oneLabelTwo_present_two : present oneLabelTwo 0 2 :=
  ⟨by norm_num, 0, by decide, by simp [oneLabelTwo]⟩

/-- C18 as stated fails for a present label above `INVROI[m]`: in the sub-volume with
the voxel values `1` and `2` and `INVROI = 1` (zero rows), `ViveLeRoi` returns, the
label `2` is present, and `INVLIST[2]` is still `0`, below `1`. -/
theorem ViveLeRoi_label_above_max_unmapped :
    present labelsOneTwo 0 2 ∧
    ∃ res, ViveLeRoi labelsOneTwo zeroRows zeroRows (fun _ => 0) (fun _ => 1) = some res ∧
      res.INVLIST 0 2 = 0 ∧ ¬ (1 ≤ res.INVLIST 0 2) := by
  refine ⟨labelsOneTwo_present_two, ?_⟩
  obtain ⟨res, hres⟩ := ViveLeRoi_returns labelsOneTwo zeroRows zeroRows (fun _ => 0)
    (fun _ => 1) (fun _ _ => by norm_num)
  obtain ⟨_, _, hI, _⟩ := ViveLeRoi_rows labelsOneTwo zeroRows zeroRows (fun _ => 0)
    (fun _ => 1) res hres 0 (by decide)
  have h7 := (compactRow_inv (markRow labelsOneTwo 0 (zeroRows 0)) (zeroRows 0)
    ((fun _ : Nat => (1 : Int)) 0).toNat).2.2.2.2.2.2 2
    (by
      rintro ⟨_, h, _⟩
      have h1 : ((((fun _ : Nat => (1 : Int)) 0).toNat : Nat) : Int) = 1 := rfl
      rw [h1] at h
      omega)
  have h0 : res.INVLIST 0 2 = 0 := by
    rw [hI, h7]
    rfl
  refine ⟨res, hres, h0, ?_⟩
  rw [h0]
  norm_num

/-- C18 (as amended): when `ViveLeRoi` returns, for a sub-volume `m`: every present
label `L` with `L <= INVROI[m]` has `1 <= INVLIST[m][L] <= NUMROI[m]` and
`ROILIST[m][INVLIST[m][L]] = L`; and every `k` in `1..NUMROI[m]` has
`INVLIST[m][ROILIST[m][k]] = k`. -/
theorem ViveLeRoi_mutual_inverse (REF : RoiDataset) (ROILIST INVLIST : Nat → Int → Int)
    (NUMROI INVROI : Nat → Int) (res : RoiLists)
    (hres : ViveLeRoi REF ROILIST INVLIST NUMROI INVROI = some res) (m : Nat)
    (hm : m < REF.Nbrik) :
    (∀ L : Int, present REF m L → L ≤ INVROI m →
      1 ≤ res.INVLIST m L ∧ res.INVLIST m L ≤ res.NUMROI m ∧
      res.ROILIST m (res.INVLIST m L) = L) ∧
    (∀ k : Int, 1 ≤ k → k ≤ res.NUMROI m → res.INVLIST m (res.ROILIST m k) = k) := by
  obtain ⟨hINV, hR, hI, hN⟩ := ViveLeRoi_rows REF ROILIST INVLIST NUMROI INVROI res hres m hm
  obtain ⟨_, _, _, a4, _, a6, _⟩ :=
    compactRow_inv (markRow REF m (ROILIST m)) (INVLIST m) (INVROI m).toNat
  rw [hR, hI, hN]
  constructor
  · intro L hL hmax
    have hpos : 1 ≤ L := hL.1
    obtain ⟨d1, d2, d3⟩ := a6 L hpos (by rw [Int.toNat_of_nonneg hINV]; exact hmax)
      (markRow_of_present REF m (ROILIST m) L hL)
    exact ⟨d1, by omega, d3⟩
  · intro k h1 h2
    exact (a4 k h1 (by omega)).2.2.2

theorem ViveLeRoi_mutual_inverse_witness :
    ∃ res, ViveLeRoi oneLabelTwo zeroRows zeroRows (fun _ => 0) (fun _ => 2) = some res ∧
      (1 ≤ res.INVLIST 0 2 ∧ res.INVLIST 0 2 ≤ res.NUMROI 0 ∧
        res.ROILIST 0 (res.INVLIST 0 2) = 2) ∧
      ∀ k : Int, 1 ≤ k → k ≤ res.NUMROI 0 → res.INVLIST 0 (res.ROILIST 0 k) = k := by
  obtain ⟨res, hres⟩ := ViveLeRoi_returns oneLabelTwo zeroRows zeroRows (fun _ => 0)
    (fun _ => 2) (fun _ _ => by norm_num)
  have h := ViveLeRoi_mutual_inverse oneLabelTwo zeroRows zeroRows (fun _ => 0)
    (fun _ => 2) res hres 0 (by decide)
  exact ⟨res, hres, h.1 2 oneLabelTwo_present_two (by norm_num), h.2⟩

/-- Marks of the dataset with the single voxel value `2`, on a row that was zero. -/
theorem oneLabelTwo_marks (p : Int) :
    markRow oneLabelTwo 0 (zeroRows 0) p = if p = 2 then 1 else 0 := by
  have hc : cInt (2 : ℚ) = 2 := by
    have := cInt_intCast 2
    simpa using this
  rw [markRow_eq]
  by_cases hp : p = 2
  · rw [if_pos hp, if_pos]
    exact ⟨0, by decide, by norm_num [oneLabelTwo], by rw [hp]; exact hc⟩
  · rw [if_neg hp, if_neg]
    · rfl
    · rintro ⟨i, _, _, he⟩
      apply hp
      rw [← he]
      exact hc.symm

/-- Compaction of those marks over `1..2`: the label `2` moves to entry `1`, the stale
mark stays at entry `2`, and `INVLIST[2] = 1`. -/
theorem oneLabelTwo_compact :
    compactRow 2 (markRow oneLabelTwo 0 (zeroRows 0)) (zeroRows 0)
      = { roi := Function.update (markRow oneLabelTwo 0 (zeroRows 0)) 1 2,
          inv := Function.update (zeroRows 0) 2 1, j := 2 } := by
  have h1 : markRow oneLabelTwo 0 (zeroRows 0) 1 ≠ 1 := by
    rw [oneLabelTwo_marks]
    norm_num
  have h2 : markRow oneLabelTwo 0 (zeroRows 0) 2 = 1 := by
    rw [oneLabelTwo_marks]
    norm_num
  have e1 : compactRow 1 (markRow oneLabelTwo 0 (zeroRows 0)) (zeroRows 0)
      = { roi := markRow oneLabelTwo 0 (zeroRows 0), inv := zeroRows 0, j := 1 } := by
    rw [compactRow_succ, compactRow_zero]
    unfold compactStep
    rw [if_neg]
    simpa using h1
  rw [compactRow_succ, e1]
  unfold compactStep
  rw [if_pos]
  · norm_num
  · simpa using h2

/-- C19 as stated fails when the labels are not `1..M`: in the sub-volume whose only
voxel value is `2` (with `INVROI = 2` and zero rows), the label `2` is present,
`INVLIST[2] = 1` and `ROILIST[1] = 2`, so `INVLIST[ROILIST[INVLIST[2]]] = 1`, not `2`;
with the two maps taken the other way round, `ROILIST[INVLIST[ROILIST[2]]] = 0`. -/
theorem ViveLeRoi_triple_roundtrip_fails :
    present oneLabelTwo 0 2 ∧
    ∃ res, ViveLeRoi oneLabelTwo zeroRows zeroRows (fun _ => 0) (fun _ => 2) = some res ∧
      res.INVLIST 0 (res.ROILIST 0 (res.INVLIST 0 2)) = 1 ∧
      res.ROILIST 0 (res.INVLIST 0 (res.ROILIST 0 2)) = 0 := by
  refine ⟨oneLabelTwo_present_two, ?_⟩
  obtain ⟨res, hres⟩ := ViveLeRoi_returns oneLabelTwo zeroRows zeroRows (fun _ => 0)
    (fun _ => 2) (fun _ _ => by norm_num)
  obtain ⟨_, hR, hI, _⟩ := ViveLeRoi_rows oneLabelTwo zeroRows zeroRows (fun _ => 0)
    (fun _ => 2) res hres 0 (by decide)
  have h2 : ((fun _ : Nat => (2 : Int)) 0).toNat = 2 := rfl
  rw [h2, oneLabelTwo_compact] at hR hI
  simp only at hR hI
  refine ⟨res, hres, ?_, ?_⟩
  · rw [hR, hI, Function.update_same, Function.update_same, Function.update_same]
  · have a1 : Function.update (markRow oneLabelTwo 0 (zeroRows 0)) 1 2 2 = 1 := by
      rw [Function.update_noteq (by decide), oneLabelTwo_marks, if_pos rfl]
    have a2 : Function.update (zeroRows 0) 2 1 (1 : Int) = 0 := by
      rw [Function.update_noteq (by decide)]
      rfl
    have a3 : Function.update (markRow oneLabelTwo 0 (zeroRows 0)) 1 2 0 = 0 := by
      rw [Function.update_noteq (by decide), oneLabelTwo_marks, if_neg (by decide)]
    rw [hR, hI, a1, a2, a3]

/-- C19 (as amended): when `ViveLeRoi` returns, for every label `L` present in a
sub-volume `m` with `L <= INVROI[m]`, `ROILIST[m][INVLIST[m][L]] = L`; the triple
composition `INVLIST[m][ROILIST[m][INVLIST[m][L]]]` is the compacted index
`INVLIST[m][L]`, and equals `L` exactly when `L` is its own compacted index. -/
theorem ViveLeRoi_roundtrip (REF : RoiDataset) (ROILIST INVLIST : Nat → Int → Int)
    (NUMROI INVROI : Nat → Int) (res : RoiLists)
    (hres : ViveLeRoi REF ROILIST INVLIST NUMROI INVROI = some res) (m : Nat)
    (hm : m < REF.Nbrik) (L : Int) (hL : present REF m L) (hmax : L ≤ INVROI m) :
    res.ROILIST m (res.INVLIST m L) = L ∧
    res.INVLIST m (res.ROILIST m (res.INVLIST m L)) = res.INVLIST m L ∧
    (res.INVLIST m (res.ROILIST m (res.INVLIST m L)) = L ↔ res.INVLIST m L = L) := by
  obtain ⟨hINV, hR, hI, _⟩ := ViveLeRoi_rows REF ROILIST INVLIST NUMROI INVROI res hres m hm
  obtain ⟨_, _, _, _, _, a6, _⟩ :=
    compactRow_inv (markRow REF m (ROILIST m)) (INVLIST m) (INVROI m).toNat
  have hpos : 1 ≤ L := hL.1
  obtain ⟨_, _, d3⟩ := a6 L hpos (by rw [Int.toNat_of_nonneg hINV]; exact hmax)
    (markRow_of_present REF m (ROILIST m) L hL)
  rw [hR, hI]
  exact ⟨d3, by rw [d3], by rw [d3]⟩

theorem ViveLeRoi_roundtrip_witness :
    ∃ res, ViveLeRoi oneLabelTwo zeroRows zeroRows (fun _ => 0) (fun _ => 2) = some res ∧
      res.ROILIST 0 (res.INVLIST 0 2) = 2 := by
  obtain ⟨res, hres⟩ := ViveLeRoi_returns oneLabelTwo zeroRows zeroRows (fun _ => 0)
    (fun _ => 2) (fun _ _ => by norm_num)
  exact ⟨res, hres, (ViveLeRoi_roundtrip oneLabelTwo zeroRows zeroRows (fun _ => 0)
    (fun _ => 2) res hres 0 (by decide) 2 oneLabelTwo_present_two (by norm_num)).1⟩

/-- C20 as stated fails: the sub-volume with the voxel values `1` and `2` has two
distinct positive labels, more than the declared maximum `INVROI = 1`, and `ViveLeRoi`
returns all the same, with `NUMROI = 1`. -/
theorem ViveLeRoi_no_exit_on_excess_labels :
    (1 : Int) < ((labelSet labelsOneTwo 0).card : Int) ∧
    ∃ res, ViveLeRoi labelsOneTwo zeroRows zeroRows (fun _ => 0) (fun _ => 1) = some res := by
  constructor
  · have h1 : (1 : Int) ∈ labelSet labelsOneTwo 0 :=
      (mem_labelSet _ _ _).mpr ⟨by norm_num, 0, by decide, by simp [labelsOneTwo]⟩
    have h2 : (2 : Int) ∈ labelSet labelsOneTwo 0 :=
      (mem_labelSet _ _ _).mpr ⟨by norm_num, 1, by decide, by simp [labelsOneTwo]⟩
    have : 1 < (labelSet labelsOneTwo 0).card :=
      Finset.one_lt_card.mpr ⟨1, h1, 2, h2, by decide⟩
    exact_mod_cast this
  · exact ViveLeRoi_returns labelsOneTwo zeroRows zeroRows (fun _ => 0) (fun _ => 1)
      (fun _ _ => by norm_num)

/-- C20 (as amended): `ViveLeRoi` fails fatally exactly when some `INVROI[m]` is
negative.  The count `j - 1` it compares with `INVROI[m]` counts only marks at the
indices `1..INVROI[m]`, so for `INVROI[m] >= 0` it never exceeds `INVROI[m]`, however
many distinct labels the sub-volume holds. -/
theorem ViveLeRoi_fatal_iff (REF : RoiDataset) (ROILIST INVLIST : Nat → Int → Int)
    (NUMROI INVROI : Nat → Int) :
    (ViveLeRoi REF ROILIST INVLIST NUMROI INVROI = none ↔
      ∃ m, m < REF.Nbrik ∧ INVROI m < 0) ∧
    (∀ (m : Nat) (roi inv : Int → Int), 0 ≤ INVROI m →
      (compactRow (INVROI m).toNat roi inv).j - 1 ≤ INVROI m) := by
  refine ⟨ViveLeRoi_eq_none_iff REF ROILIST INVLIST NUMROI INVROI, ?_⟩
  intro m roi inv h
  have hle := (compactRow_inv roi inv (INVROI m).toNat).2.1
  rw [Int.toNat_of_nonneg h] at hle
  exact hle

/-! ## `CheckNotMask` -/

/-- C21: `CheckNotMask` returns `0` or `1`; it returns `1` exactly when the selected mask
entry is nonzero, the selected entry being `amask[id][br]` when `AO` is nonzero and
`amask[id][0]` when `AO` is zero; with `AO = 0` the result is the same for every `br`. -/
theorem CheckNotMask_spec (id br : Int) (amask : Int → Int → Int) (AO : Int) :
    (CheckNotMask id br amask AO = 0 ∨ CheckNotMask id br amask AO = 1) ∧
    (CheckNotMask id br amask AO = 1 ↔
      (if AO ≠ 0 then amask id br else amask id 0) ≠ 0) ∧
    (AO ≠ 0 → (CheckNotMask id br amask AO = 1 ↔ amask id br ≠ 0)) ∧
    (AO = 0 → (CheckNotMask id br amask AO = 1 ↔ amask id 0 ≠ 0)) ∧
    (AO = 0 → ∀ br2, CheckNotMask id br2 amask AO = CheckNotMask id br amask AO) := by
  unfold CheckNotMask
  by_cases hA : AO = 0
  · by_cases h0 : amask id 0 = 0 <;> simp [hA, h0]
  · by_cases h0 : amask id br = 0 <;> simp [hA, h0]

/-! ## `ScoreTrackGrid` -/

theorem addSlot_apply (PG : ParamGrid) (h C B : Int) (k : Nat) (v : ℚ) (h2 C2 B2 : Int)
    (k2 : Nat) :
    addSlot PG h C B k v h2 C2 B2 k2
      = PG h2 C2 B2 k2 + if h2 = h ∧ C2 = C ∧ B2 = B ∧ k2 = k then v else 0 := by
  unfold addSlot
  by_cases e1 : h2 = h
  · subst e1
    rw [Function.update_same]
    by_cases e2 : C2 = C
    · subst e2
      rw [Function.update_same]
      by_cases e3 : B2 = B
      · subst e3
        rw [Function.update_same]
        by_cases e4 : k2 = k
        · subst e4
          simp
        · rw [Function.update_noteq e4]
          simp [e4]
      · rw [Function.update_noteq e3]
        simp [e3]
    · rw [Function.update_noteq e2]
      simp [e2]
  · rw [Function.update_noteq e1]
    simp [e1]

/-- What one call adds to slot `k` of the addressed cell. -/
theorem ScoreTrackGrid_apply (PG : ParamGrid) (idx : Nat) (h C B : Int)
    (FA MD L1 : RoiDataset) (h2 C2 B2 : Int) (k : Nat) :
    ScoreTrackGrid PG idx h C B FA MD L1 h2 C2 B2 k
      = PG h2 C2 B2 k +
        if h2 = h ∧ C2 = C ∧ B2 = B then
          (if k = 0 then FA.voxel idx 0
           else if k = 1 then (FA.voxel idx 0) ^ 2
           else if k = 2 then MD.voxel idx 0
           else if k = 3 then (MD.voxel idx 0) ^ 2
           else if k = 4 then (1 / 2) * (3 * MD.voxel idx 0 - L1.voxel idx 0)
           else if k = 5 then ((1 / 2) * (3 * MD.voxel idx 0 - L1.voxel idx 0)) ^ 2
           else if k = 6 then L1.voxel idx 0
           else if k = 7 then (L1.voxel idx 0) ^ 2
           else if k = 8 then 1 else 0)
        else 0 := by
  unfold ScoreTrackGrid
  simp only [addSlot_apply]
  by_cases hc : h2 = h ∧ C2 = C ∧ B2 = B
  · obtain ⟨e1, e2, e3⟩ := hc
    subst e1 e2 e3
    simp only [true_and, and_self, if_true]
    by_cases k0 : k = 0
    · subst k0; simp
    by_cases k1 : k = 1
    · subst k1; simp
    by_cases k2 : k = 2
    · subst k2; simp
    by_cases k3 : k = 3
    · subst k3; simp
    by_cases k4 : k = 4
    · subst k4; simp
    by_cases k5 : k = 5
    · subst k5; simp
    by_cases k6 : k = 6
    · subst k6; simp
    by_cases k7 : k = 7
    · subst k7; simp
    by_cases k8 : k = 8
    · subst k8; simp
    simp [k0, k1, k2, k3, k4, k5, k6, k7, k8]
  · have : ∀ j : Nat, ¬ (h2 = h ∧ C2 = C ∧ B2 = B ∧ k = j) := fun j hj =>
      hc ⟨hj.1, hj.2.1, hj.2.2.1⟩
    simp only [this, hc, if_false, add_zero]

/-- C22 as stated fails: the call accumulates four metrics, not three.  On the zero
accumulator, with the volumes `FA = 2`, `MD = 3`, `L1 = 5`, all nine slots `0..8` of the
addressed cell change; slots `6` and `7` receive the value and the square of `L1`, a
third metric read directly, beside `FA` (slots `0`, `1`), `MD` (slots `2`, `3`) and the
derived `0.5*(3*MD - L1) = 2` (slots `4`, `5`). -/
theorem ScoreTrackGrid_changes_nine_slots :
    (∀ k, k < 9 →
      ScoreTrackGrid zeroGrid 0 0 0 0 (constVolume 2) (constVolume 3) (constVolume 5) 0 0 0 k
        ≠ zeroGrid 0 0 0 k) ∧
    ScoreTrackGrid zeroGrid 0 0 0 0 (constVolume 2) (constVolume 3) (constVolume 5) 0 0 0 0 = 2 ∧
    ScoreTrackGrid zeroGrid 0 0 0 0 (constVolume 2) (constVolume 3) (constVolume 5) 0 0 0 2 = 3 ∧
    ScoreTrackGrid zeroGrid 0 0 0 0 (constVolume 2) (constVolume 3) (constVolume 5) 0 0 0 4 = 2 ∧
    ScoreTrackGrid zeroGrid 0 0 0 0 (constVolume 2) (constVolume 3) (constVolume 5) 0 0 0 6 = 5 ∧
    ScoreTrackGrid zeroGrid 0 0 0 0 (constVolume 2) (constVolume 3) (constVolume 5) 0 0 0 7
      = 25 := by
  refine ⟨?_, ?_, ?_, ?_, ?_, ?_⟩
  · intro k hk
    rw [ScoreTrackGrid_apply]
    interval_cases k <;> norm_num [zeroGrid, constVolume]
  all_goals
    rw [ScoreTrackGrid_apply]
    norm_num [zeroGrid, constVolume]

/-- C22 (as amended): one `ScoreTrackGrid` call on cell `(h,C,B)` at voxel `idx` adds the
value and the squared value of four metrics - `FA`, `MD` and `L1` read from their
volumes (slots `0,1`, `2,3`, `6,7`) and `0.5*(3*MD - L1)` (slots `4,5`) - and `1` to the
visit count (slot `8`); it changes no other slot of that cell and no other cell. -/
theorem ScoreTrackGrid_slots (PG : ParamGrid) (idx : Nat) (h C B : Int)
    (FA MD L1 : RoiDataset) :
    ScoreTrackGrid PG idx h C B FA MD L1 h C B 0 = PG h C B 0 + FA.voxel idx 0 ∧
    ScoreTrackGrid PG idx h C B FA MD L1 h C B 1 = PG h C B 1 + (FA.voxel idx 0) ^ 2 ∧
    ScoreTrackGrid PG idx h C B FA MD L1 h C B 2 = PG h C B 2 + MD.voxel idx 0 ∧
    ScoreTrackGrid PG idx h C B FA MD L1 h C B 3 = PG h C B 3 + (MD.voxel idx 0) ^ 2 ∧
    ScoreTrackGrid PG idx h C B FA MD L1 h C B 4
      = PG h C B 4 + (1 / 2) * (3 * MD.voxel idx 0 - L1.voxel idx 0) ∧
    ScoreTrackGrid PG idx h C B FA MD L1 h C B 5
      = PG h C B 5 + ((1 / 2) * (3 * MD.voxel idx 0 - L1.voxel idx 0)) ^ 2 ∧
    ScoreTrackGrid PG idx h C B FA MD L1 h C B 6 = PG h C B 6 + L1.voxel idx 0 ∧
    ScoreTrackGrid PG idx h C B FA MD L1 h C B 7 = PG h C B 7 + (L1.voxel idx 0) ^ 2 ∧
    ScoreTrackGrid PG idx h C B FA MD L1 h C B 8 = PG h C B 8 + 1 ∧
    (∀ k, 9 ≤ k → ScoreTrackGrid PG idx h C B FA MD L1 h C B k = PG h C B k) ∧
    (∀ h2 C2 B2 k, ¬ (h2 = h ∧ C2 = C ∧ B2 = B) →
      ScoreTrackGrid PG idx h C B FA MD L1 h2 C2 B2 k = PG h2 C2 B2 k) := by
  refine ⟨?_, ?_, ?_, ?_, ?_, ?_, ?_, ?_, ?_, ?_, ?_⟩
  · rw [ScoreTrackGrid_apply]; simp
  · rw [ScoreTrackGrid_apply]; simp
  · rw [ScoreTrackGrid_apply]; simp
  · rw [ScoreTrackGrid_apply]; simp
  · rw [ScoreTrackGrid_apply]; simp
  · rw [ScoreTrackGrid_apply]; simp
  · rw [ScoreTrackGrid_apply]; simp
  · rw [ScoreTrackGrid_apply]; simp
  · rw [ScoreTrackGrid_apply]; simp
  · intro k hk
    rw [ScoreTrackGrid_apply]
    have : ∀ j, j < 9 → k ≠ j := fun j hj => by omega
    simp [this]
  · intro h2 C2 B2 k hne
    rw [ScoreTrackGrid_apply, if_neg hne, add_zero]

theorem scoreVisits_nil (FA MD L1 : RoiDataset) (PG : ParamGrid) :
    scoreVisits FA MD L1 PG [] = PG := rfl

theorem scoreVisits_cons (FA MD L1 : RoiDataset) (PG : ParamGrid) (v : Visit)
    (vs : List Visit) :
    scoreVisits FA MD L1 PG (v :: vs)
      = scoreVisits FA MD L1 (ScoreTrackGrid PG v.idx v.h v.C v.B FA MD L1) vs := rfl

theorem scoreVisits_append (FA MD L1 : RoiDataset) (PG : ParamGrid) (xs ys : List Visit) :
    scoreVisits FA MD L1 PG (xs ++ ys)
      = scoreVisits FA MD L1 (scoreVisits FA MD L1 PG xs) ys := by
  unfold scoreVisits
  rw [List.foldl_append]

/-- Accumulating from `PG` is accumulating from zero and adding `PG`. -/
theorem scoreVisits_shift (FA MD L1 : RoiDataset) (vs : List Visit) :
    ∀ (PG : ParamGrid) (h C B : Int) (k : Nat),
      scoreVisits FA MD L1 PG vs h C B k
        = PG h C B k + scoreVisits FA MD L1 zeroGrid vs h C B k := by
  induction vs with
  | nil =>
    intro PG h C B k
    simp [scoreVisits_nil, zeroGrid]
  | cons v vs ih =>
    intro PG h C B k
    rw [scoreVisits_cons, scoreVisits_cons, ih (ScoreTrackGrid PG v.idx v.h v.C v.B FA MD L1),
      ih (ScoreTrackGrid zeroGrid v.idx v.h v.C v.B FA MD L1), ScoreTrackGrid_apply,
      ScoreTrackGrid_apply]
    simp only [zeroGrid, zero_add]
    ring

/-- C23: over exact arithmetic, for a visit sequence split into `xs` and `ys`, the
`ScoreTrackGrid` calls for `xs` then `ys` on the zero accumulator give, slot by slot, the
sum of the accumulator obtained from `xs` alone and the one obtained from `ys` alone,
each started from zero; and a call leaves every cell other than the addressed one
unchanged. -/
theorem ScoreTrackGrid_additive (FA MD L1 : RoiDataset) (xs ys : List Visit) :
    (∀ (h C B : Int) (k : Nat),
      scoreVisits FA MD L1 zeroGrid (xs ++ ys) h C B k
        = scoreVisits FA MD L1 zeroGrid xs h C B k
          + scoreVisits FA MD L1 zeroGrid ys h C B k) ∧
    (∀ (PG : ParamGrid) (v : Visit) (h C B : Int) (k : Nat),
      ¬ (h = v.h ∧ C = v.C ∧ B = v.B) →
      ScoreTrackGrid PG v.idx v.h v.C v.B FA MD L1 h C B k = PG h C B k) := by
  constructor
  · intro h C B k
    rw [scoreVisits_append, scoreVisits_shift]
  · intro PG v h C B k hne
    rw [ScoreTrackGrid_apply, if_neg hne, add_zero]

/-! ## The sign-flip rule -/

/-- Fields of the state after an iteration that lands inside the grid. -/
theorem bodyT_inside_fields (EPS_V : ℚ) (CC : Field) (Edge : Fin 3 → ℚ) (dim : Fin 3 → Int)
    (s : Walk) (hw : walkback (s.stest EPS_V (CC.at s.IND) Edge) = false)
    (hg : inGrid dim (s.nextIND EPS_V (CC.at s.IND) Edge) = true) :
    (bodyT EPS_V CC Edge dim s).IND = s.nextIND EPS_V (CC.at s.IND) Edge ∧
    (bodyT EPS_V CC Edge dim s).FB
      = (if dotRaw (CC.at (s.nextIND EPS_V (CC.at s.IND) Edge)) (CC.at s.IND) s.FB < 0
          then -1 else 1) ∧
    (bodyT EPS_V CC Edge dim s).dotprod
      = revisit (Function.update s.T s.tracL s.IND) (s.tracL + 1)
          (s.nextIND EPS_V (CC.at s.IND) Edge)
          |dotRaw (CC.at (s.nextIND EPS_V (CC.at s.IND) Edge)) (CC.at s.IND) s.FB| ∧
    (bodyT EPS_V CC Edge dim s).Iam0 = s.nextIam0 EPS_V (CC.at s.IND) Edge ∧
    (bodyT EPS_V CC Edge dim s).physdist = s.nextPhysdist EPS_V (CC.at s.IND) Edge := by
  rw [bodyT_inside EPS_V CC Edge dim s hw hg]
  simp only [nextIND_sub_go, flipped_eq_abs]
  refine ⟨?_, ?_, ?_, ?_, ?_⟩ <;> trivial

/-- The cascade written out by the comparisons it makes. -/
theorem ordCascade_eq (st : Fin 3 → ℚ) :
    ordCascade st =
      if st 1 < st 0 then
        (if st 2 < st 1 then ![2, 1, 0] else if st 2 < st 0 then ![1, 2, 0] else ![1, 0, 2])
      else
        (if st 2 < st 0 then (if st 0 < st 1 then ![2, 0, 1] else ![2, 1, 0])
         else if st 2 < st 1 then ![0, 2, 1] else ![0, 1, 2]) := by
  by_cases h1 : st 1 < st 0
  · by_cases h2 : st 2 < st 1
    · simp [ordCascade, h1, h2]
    · by_cases h3 : st 2 < st 0
      · simp [ordCascade, h1, h2, h3]
      · simp [ordCascade, h1, h2, h3]
  · by_cases h2 : st 2 < st 0
    · by_cases h3 : st 0 < st 1
      · simp [ordCascade, h1, h2, h3]
      · simp [ordCascade, h1, h2, h3]
    · by_cases h3 : st 2 < st 1
      · simp [ordCascade, h1, h2, h3]
      · simp [ordCascade, h1, h2, h3]

/-- The cascade yields a permutation of the axes. -/
theorem ordCascade_bijective (st : Fin 3 → ℚ) : Function.Bijective (ordCascade st) := by
  rw [ordCascade_eq]
  split_ifs <;> decide

/-- The cascade yields the distances in ascending order. -/
theorem ordCascade_ascending (st : Fin 3 → ℚ) :
    st (ordCascade st 0) ≤ st (ordCascade st 1) ∧
    st (ordCascade st 1) ≤ st (ordCascade st 2) := by
  rw [ordCascade_eq]
  split_ifs <;> simp <;> constructor <;> linarith

/-- The first axis of the cascade is the lowest-numbered axis of minimal distance. -/
theorem ordCascade_first (st : Fin 3 → ℚ) (n : Fin 3) :
    st (ordCascade st 0) ≤ st n ∧ (st n = st (ordCascade st 0) → ordCascade st 0 ≤ n) := by
  rw [ordCascade_eq]
  split_ifs <;> fin_cases n <;> simp <;> first | linarith | (constructor <;> linarith)

/-- C25: for every triple of parametric distances the cascade produces a permutation
`ord` of the axes with `stest[ord[0]] <= stest[ord[1]] <= stest[ord[2]]`; the winning
axis `ord[0]` attains the minimum distance and is the lowest-numbered axis that does;
and `ord = (0,1,2)` when the three distances are equal. -/
theorem ordCascade_spec (st : Fin 3 → ℚ) :
    Function.Bijective (ordCascade st) ∧
    st (ordCascade st 0) ≤ st (ordCascade st 1) ∧
    st (ordCascade st 1) ≤ st (ordCascade st 2) ∧
    (∀ n, st (ordCascade st 0) ≤ st n) ∧
    (∀ n, st n = st (ordCascade st 0) → ordCascade st 0 ≤ n) ∧
    (st 0 = st 1 ∧ st 1 = st 2 → ordCascade st = ![0, 1, 2]) :=
  ⟨ordCascade_bijective st, (ordCascade_ascending st).1, (ordCascade_ascending st).2,
    fun n => (ordCascade_first st n).1, fun n => (ordCascade_first st n).2,
    fun h => ordCascade_sorted st (le_of_eq h.1) (le_of_eq h.2)⟩

/-- C26: the cascade is not a stable sort.  For the distances `(1,1,0)` it yields the
axis order `(2,1,0)`, while the stable ascending sort of the axes by distance yields
`(2,0,1)`. -/
theorem ordCascade_not_stable :
    ordCascade ![1, 1, 0] = ![2, 1, 0] ∧ stableOrd ![1, 1, 0] = [2, 0, 1] ∧
    List.ofFn (ordCascade ![1, 1, 0]) ≠ stableOrd ![1, 1, 0] ∧
    ∃ st : Fin 3 → ℚ, st 0 = st 1 ∧ List.ofFn (ordCascade st) ≠ stableOrd st := by
  have h1 : ordCascade ![1, 1, 0] = ![2, 1, 0] := by
    rw [ordCascade_eq]
    norm_num
  have h2 : stableOrd ![1, 1, 0] = [2, 0, 1] := by
    norm_num [stableOrd, List.insertionSort, List.orderedInsert]
  have h3 : List.ofFn (ordCascade ![1, 1, 0]) ≠ stableOrd ![1, 1, 0] := by
    rw [h1, h2]
    decide
  exact ⟨h1, h2, h3, ![1, 1, 0], rfl, h3⟩

/-! ## The corridor rule -/

/-- The index step of `goWin` axis by axis, for an order `ord` that is a permutation. -/
theorem goWin_steps (d : Nat → ℚ) (FB : Int) (IND : Fin 3 → Int) (Iam0 Edge : Fin 3 → ℚ)
    (vs : Fin 3 → Int) (st : Fin 3 → ℚ) (ord : Fin 3 → Fin 3)
    (hord : Function.Injective ord) :
    (goWin d FB IND Iam0 Edge vs st ord).1 (ord 0) = vs (ord 0) ∧
    (goWin d FB IND Iam0 Edge vs st ord).1 (ord 1)
      = (if leavesCorridor (vs (ord 1))
              (Iam0 (ord 1) + st (ord 0) * (FB : ℚ) * d (ord 1)
                - (IND (ord 1) : ℚ) * Edge (ord 1)) (Edge (ord 1)) = true ∧
            entersCorridor (vs (ord 0))
              (Iam0 (ord 0) + st (ord 1) * (FB : ℚ) * d (ord 0)
                - ((IND (ord 0) + vs (ord 0) : Int) : ℚ) * Edge (ord 0)) (Edge (ord 0)) = true
          then vs (ord 1) else 0) ∧
    (goWin d FB IND Iam0 Edge vs st ord).1 (ord 2)
      = (if leavesCorridor (vs (ord 1))
              (Iam0 (ord 1) + st (ord 0) * (FB : ℚ) * d (ord 1)
                - (IND (ord 1) : ℚ) * Edge (ord 1)) (Edge (ord 1)) = true ∧
            entersCorridor (vs (ord 0))
              (Iam0 (ord 0) + st (ord 1) * (FB : ℚ) * d (ord 0)
                - ((IND (ord 0) + vs (ord 0) : Int) : ℚ) * Edge (ord 0)) (Edge (ord 0)) = true ∧
            leavesCorridor (vs (ord 2))
              (Iam0 (ord 2) + st (ord 0) * (FB : ℚ) * d (ord 2)
                - (IND (ord 2) : ℚ) * Edge (ord 2)) (Edge (ord 2)) = true ∧
            entersCorridor (vs (ord 0))
              (Iam0 (ord 0) + st (ord 2) * (FB : ℚ) * d (ord 0)
                - ((IND (ord 0) + vs (ord 0) : Int) : ℚ) * Edge (ord 0)) (Edge (ord 0)) = true ∧
            entersCorridor (vs (ord 1))
              (Iam0 (ord 1) + st (ord 2) * (FB : ℚ) * d (ord 1)
                - ((IND (ord 1) + vs (ord 1) : Int) : ℚ) * Edge (ord 1)) (Edge (ord 1)) = true
          then vs (ord 2) else 0) := by
  have h01 : ord 0 ≠ ord 1 := fun h => absurd (hord h) (by decide)
  have h10 : ord 1 ≠ ord 0 := fun h => absurd (hord h) (by decide)
  have h02 : ord 0 ≠ ord 2 := fun h => absurd (hord h) (by decide)
  have h20 : ord 2 ≠ ord 0 := fun h => absurd (hord h) (by decide)
  have h12 : ord 1 ≠ ord 2 := fun h => absurd (hord h) (by decide)
  have h21 : ord 2 ≠ ord 1 := fun h => absurd (hord h) (by decide)
  simp only [goWin, Function.update_same, Function.update_noteq h01]
  split_ifs <;>
    simp_all [Function.update_same, Function.update_noteq h01, Function.update_noteq h10,
      Function.update_noteq h02, Function.update_noteq h20, Function.update_noteq h12,
      Function.update_noteq h21]

theorem vsign_cases (d : Nat → ℚ) (FB : Int) (n : Fin 3) :
    vsign d FB n = 1 ∨ vsign d FB n = -1 := by
  unfold vsign
  split
  · exact Or.inl rfl
  · exact Or.inr rfl

theorem offCentre_stest :
    offCentre.stest (1 / 1000000) (slantX.at ![0, 0, 0]) ![1, 1, 1] = ![1 / 2, 6 / 5, 2] := by
  funext n
  fin_cases n <;>
    norm_num [offCentre, Walk.stest, stest, targedge, divid, vsign, slantX, Field.at, initWalk,
      abs_of_pos]

theorem offCentre_ord : ordCascade ![(1 / 2 : ℚ), 6 / 5, 2] = ![0, 1, 2] := by
  apply ordCascade_sorted
  · show (1 / 2 : ℚ) ≤ 6 / 5
    norm_num
  · show (6 / 5 : ℚ) ≤ 2
    norm_num

theorem offCentre_goWin :
    offCentre.goWin (1 / 1000000) (slantX.at ![0, 0, 0]) ![1, 1, 1] = (![1, 0, 0], 0) := by
  have hv : ∀ n : Fin 3, vsign (slantX.at ![0, 0, 0]) 1 n = 1 := by
    intro n
    fin_cases n <;> norm_num [vsign, slantX, Field.at]
  rw [Walk.goWin, offCentre_stest, offCentre_ord]
  have hl : ∀ t : ℚ, t = 33 / 40 → leavesCorridor 1 t 1 = true := by
    intro t ht
    subst ht
    norm_num [leavesCorridor, BB, FF]
  have he : ∀ t : ℚ, t = 7 / 10 → entersCorridor 1 t 1 = false := by
    intro t ht
    subst ht
    norm_num [entersCorridor, AA, FF]
  simp only [goWin, offCentre, initWalk, Matrix.cons_val_zero, Matrix.cons_val_one,
    Matrix.head_cons, hv, update_zero_one]
  rw [hl _ (by norm_num [slantX, Field.at]), he _ (by norm_num [slantX, Field.at])]
  simp

/-- C27 as stated fails.  On `slantX` (direction `(1, 1/4, 1/4)`, unit edges), in the
first iteration from the seed position `(1/2, 7/10, 1/2)` in voxel `(0,0,0)` with sign
`+1`: no distance is negative, axis `0` wins, the non-winning axis `1` travels `+`, its
position projected with the winning distance is `33/40`, above `BB*Edge[1]`, and yet
`go[1] = 0`. -/
theorem TrackIt_corridor_exit_without_step :
    walkback (offCentre.stest (1 / 1000000) (slantX.at ![0, 0, 0]) ![1, 1, 1]) = false ∧
    ordCascade (offCentre.stest (1 / 1000000) (slantX.at ![0, 0, 0]) ![1, 1, 1]) 0 = 0 ∧
    vsign (slantX.at ![0, 0, 0]) offCentre.FB 1 = 1 ∧
    offCentre.Iam0 1
      + offCentre.stest (1 / 1000000) (slantX.at ![0, 0, 0]) ![1, 1, 1] 0
        * (offCentre.FB : ℚ) * slantX.at ![0, 0, 0] 1
      - (offCentre.IND 1 : ℚ) * 1 = 33 / 40 ∧
    (33 / 40 : ℚ) > BB * 1 ∧
    (offCentre.goWin (1 / 1000000) (slantX.at ![0, 0, 0]) ![1, 1, 1]).1 1 = 0 := by
  refine ⟨?_, ?_, ?_, ?_, ?_, ?_⟩
  · rw [offCentre_stest]
    norm_num [walkback]
  · rw [offCentre_stest, offCentre_ord]
    rfl
  · norm_num [vsign, slantX, Field.at, offCentre, initWalk]
  · rw [offCentre_stest]
    norm_num [offCentre, initWalk, slantX, Field.at]
  · norm_num [BB, FF]
  · rw [offCentre_goWin]
    rfl

/-- C27 (as amended): in a `TrackIt` iteration with distances `st`, cascade order `ord`
and travel signs `vs`, the index step `go` is `vs[ord[0]]` on the winning axis.  On
`ord[1]` it is `vs[ord[1]]` exactly when the position of `ord[1]` projected with
`st[ord[0]]`, measured from the current cell's lower face, is outside the corridor and
the position of `ord[0]` projected with `st[ord[1]]`, measured from the lower face of
the cell stepped into, is on the entering side (below `AA*Edge` travelling `+`, above
`BB*Edge` travelling `-`); else `0`.  On `ord[2]` it is `vs[ord[2]]` exactly when
`ord[1]` steps, the position of `ord[2]` projected with `st[ord[0]]` is outside the
corridor, and `ord[0]` and `ord[1]` projected with `st[ord[2]]` are both on the entering
side; else `0`.  The new index of a non-walkback iteration that stays in the grid is
`IND + go`. -/
theorem TrackIt_corridor_rule (EPS_V : ℚ) (CC : Field) (Edge : Fin 3 → ℚ) (dim : Fin 3 → Int)
    (s : Walk) (st : Fin 3 → ℚ) (ord : Fin 3 → Fin 3) (vs go : Fin 3 → Int)
    (hst : st = s.stest EPS_V (CC.at s.IND) Edge) (hord : ord = ordCascade st)
    (hvs : vs = vsign (CC.at s.IND) s.FB)
    (hgo : go = (s.goWin EPS_V (CC.at s.IND) Edge).1) :
    go (ord 0) = vs (ord 0) ∧
    go (ord 1)
      = (if leavesCorridor (vs (ord 1))
              (s.Iam0 (ord 1) + st (ord 0) * (s.FB : ℚ) * CC.at s.IND (ord 1)
                - (s.IND (ord 1) : ℚ) * Edge (ord 1)) (Edge (ord 1)) = true ∧
            entersCorridor (vs (ord 0))
              (s.Iam0 (ord 0) + st (ord 1) * (s.FB : ℚ) * CC.at s.IND (ord 0)
                - ((s.IND (ord 0) + vs (ord 0) : Int) : ℚ) * Edge (ord 0)) (Edge (ord 0)) = true
          then vs (ord 1) else 0) ∧
    go (ord 2)
      = (if leavesCorridor (vs (ord 1))
              (s.Iam0 (ord 1) + st (ord 0) * (s.FB : ℚ) * CC.at s.IND (ord 1)
                - (s.IND (ord 1) : ℚ) * Edge (ord 1)) (Edge (ord 1)) = true ∧
            entersCorridor (vs (ord 0))
              (s.Iam0 (ord 0) + st (ord 1) * (s.FB : ℚ) * CC.at s.IND (ord 0)
                - ((s.IND (ord 0) + vs (ord 0) : Int) : ℚ) * Edge (ord 0)) (Edge (ord 0)) = true ∧
            leavesCorridor (vs (ord 2))
              (s.Iam0 (ord 2) + st (ord 0) * (s.FB : ℚ) * CC.at s.IND (ord 2)
                - (s.IND (ord 2) : ℚ) * Edge (ord 2)) (Edge (ord 2)) = true ∧
            entersCorridor (vs (ord 0))
              (s.Iam0 (ord 0) + st (ord 2) * (s.FB : ℚ) * CC.at s.IND (ord 0)
                - ((s.IND (ord 0) + vs (ord 0) : Int) : ℚ) * Edge (ord 0)) (Edge (ord 0)) = true ∧
            entersCorridor (vs (ord 1))
              (s.Iam0 (ord 1) + st (ord 2) * (s.FB : ℚ) * CC.at s.IND (ord 1)
                - ((s.IND (ord 1) + vs (ord 1) : Int) : ℚ) * Edge (ord 1)) (Edge (ord 1)) = true
          then vs (ord 2) else 0) ∧
    (∀ n, vs n = 1 ∨ vs n = -1) ∧
    (walkback st = false → inGrid dim (fun n => s.IND n + go n) = true →
      (bodyT EPS_V CC Edge dim s).IND = fun n => s.IND n + go n) := by
  subst hst hord hvs hgo
  obtain ⟨g0, g1, g2⟩ := goWin_steps (CC.at s.IND) s.FB s.IND s.Iam0 Edge
    (vsign (CC.at s.IND) s.FB) (s.stest EPS_V (CC.at s.IND) Edge)
    (ordCascade (s.stest EPS_V (CC.at s.IND) Edge))
    (ordCascade_bijective (s.stest EPS_V (CC.at s.IND) Edge)).1
  refine ⟨g0, g1, g2, vsign_cases _ _, ?_⟩
  intro hw hg
  exact (bodyT_inside_fields EPS_V CC Edge dim s hw hg).1

theorem TrackIt_corridor_rule_witness :
    (offCentre.goWin (1 / 1000000) (slantX.at offCentre.IND) ![1, 1, 1]).1
        (ordCascade (offCentre.stest (1 / 1000000) (slantX.at offCentre.IND) ![1, 1, 1]) 0)
      = vsign (slantX.at offCentre.IND) offCentre.FB
        (ordCascade (offCentre.stest (1 / 1000000) (slantX.at offCentre.IND) ![1, 1, 1]) 0) :=
  (TrackIt_corridor_rule (1 / 1000000) slantX ![1, 1, 1] ![1, 1, 1] offCentre _ _ _ _
    rfl rfl rfl rfl).1

/-! ## Signs of the parametric distances -/

theorem walkback_eq_false_iff (st : Fin 3 → ℚ) :
    walkback st = false ↔ ∀ n, 0 ≤ st n := by
  unfold walkback
  simp only [Bool.or_eq_false_iff, decide_eq_false_iff_not, not_lt]
  constructor
  · rintro ⟨⟨h0, h1⟩, h2⟩ n
    fin_cases n
    · exact h0
    · exact h1
    · exact h2
  · intro h
    exact ⟨⟨h 0, h 1⟩, h 2⟩

theorem walkback_eq_true_iff (st : Fin 3 → ℚ) :
    walkback st = true ↔ ∃ n, st n < 0 := by
  rw [← Bool.not_eq_false, walkback_eq_false_iff]
  push_neg
  rfl

/-- The divisor of a parametric distance is nonzero and has the travel sign. -/
theorem divid_sign (EPS_V : ℚ) (d : Nat → ℚ) (FB : Int) (n : Fin 3) (hE : 0 < EPS_V)
    (hFB : FB = 1 ∨ FB = -1) :
    (d n * (FB : ℚ) ≥ 0 → 0 < divid EPS_V d FB n) ∧
    (¬ (d n * (FB : ℚ) ≥ 0) → divid EPS_V d FB n < 0) := by
  unfold divid vsign
  have hsq : (FB : ℚ) * (FB : ℚ) = 1 := by
    rcases hFB with h | h <;> rw [h] <;> norm_num
  constructor
  · intro hs
    by_cases hsmall : |d n| < EPS_V
    · rw [if_pos hsmall, if_pos hs]
      simpa using hE
    · rw [if_neg hsmall]
      have hne : d n ≠ 0 := by
        intro h0
        rw [h0, abs_zero] at hsmall
        exact hsmall hE
      have hne2 : (FB : ℚ) * d n ≠ 0 := by
        intro h0
        apply hne
        have : (FB : ℚ) * ((FB : ℚ) * d n) = 0 := by rw [h0, mul_zero]
        rw [← mul_assoc, hsq, one_mul] at this
        exact this
      have hge : 0 ≤ (FB : ℚ) * d n := by
        rw [mul_comm]
        exact hs
      exact lt_of_le_of_ne hge (Ne.symm hne2)
  · intro hs
    by_cases hsmall : |d n| < EPS_V
    · rw [if_pos hsmall, if_neg hs]
      push_cast
      linarith
    · rw [if_neg hsmall]
      rw [mul_comm]
      exact not_le.mp hs

/-- C28: for `EPS_V > 0` and sign `FB` in `{+1,-1}`, whatever the direction component
on axis `n` (and whatever `Edge[n]`, positive or not): the divisor of `stest[n]` is
nonzero, it is `EPS_V` times the travel sign when the component has magnitude below
`EPS_V`, and if the position lies in the closed extent
`[IND[n]*Edge[n], (IND[n]+1)*Edge[n]]` of the current voxel then `stest[n] >= 0`; hence
no walkback is flagged while the position is inside the current voxel on all axes. -/
theorem TrackIt_distances_nonneg (EPS_V : ℚ) (d : Nat → ℚ) (Edge : Fin 3 → ℚ) (s : Walk)
    (hE : 0 < EPS_V) (hFB : s.FB = 1 ∨ s.FB = -1) :
    (∀ n, divid EPS_V d s.FB n ≠ 0) ∧
    (∀ n : Fin 3, |d n| < EPS_V → divid EPS_V d s.FB n = EPS_V * (vsign d s.FB n : ℚ)) ∧
    (∀ n, (s.IND n : ℚ) * Edge n ≤ s.Iam0 n → s.Iam0 n ≤ ((s.IND n : ℚ) + 1) * Edge n →
      0 ≤ s.stest EPS_V d Edge n) ∧
    ((∀ n, (s.IND n : ℚ) * Edge n ≤ s.Iam0 n ∧ s.Iam0 n ≤ ((s.IND n : ℚ) + 1) * Edge n) →
      walkback (s.stest EPS_V d Edge) = false) := by
  have hdiv : ∀ n, (s.IND n : ℚ) * Edge n ≤ s.Iam0 n →
      s.Iam0 n ≤ ((s.IND n : ℚ) + 1) * Edge n → 0 ≤ s.stest EPS_V d Edge n := by
    intro n hlo hhi
    obtain ⟨hp, hn⟩ := divid_sign EPS_V d s.FB n hE hFB
    unfold Walk.stest stest targedge
    by_cases hs : d n * (s.FB : ℚ) ≥ 0
    · rw [if_pos hs]
      apply div_nonneg _ (le_of_lt (hp hs))
      push_cast
      linarith
    · rw [if_neg hs]
      apply div_nonneg_of_nonpos _ (le_of_lt (hn hs))
      linarith
  refine ⟨?_, ?_, hdiv, ?_⟩
  · intro n
    obtain ⟨hp, hn⟩ := divid_sign EPS_V d s.FB n hE hFB
    by_cases hs : d n * (s.FB : ℚ) ≥ 0
    · exact ne_of_gt (hp hs)
    · exact ne_of_lt (hn hs)
  · intro n hsmall
    unfold divid
    rw [if_pos hsmall]
  · intro h
    rw [walkback_eq_false_iff]
    intro n
    exact hdiv n (h n).1 (h n).2

theorem TrackIt_distances_nonneg_witness :
    ((0 : ℚ) < 1 / 1000000 ∧
      ((initWalk ![0, 5, 5] ![1 / 2, 11 / 2, 11 / 2] T0 flT0 1).FB = 1 ∨
        (initWalk ![0, 5, 5] ![1 / 2, 11 / 2, 11 / 2] T0 flT0 1).FB = -1)) ∧
    walkback ((initWalk ![0, 5, 5] ![1 / 2, 11 / 2, 11 / 2] T0 flT0 1).stest (1 / 1000000)
      (uniformX.at ![0, 5, 5]) ![1, 1, 1]) = false :=
  ⟨⟨by norm_num, Or.inl rfl⟩,
    (TrackIt_distances_nonneg (1 / 1000000) (uniformX.at ![0, 5, 5]) ![1, 1, 1]
      (initWalk ![0, 5, 5] ![1 / 2, 11 / 2, 11 / 2] T0 flT0 1) (by norm_num)
      (Or.inl rfl)).2.2.2
      (by
        intro n
        fin_cases n <;> norm_num [initWalk])⟩

/-! ## Path connectivity -/

/-- Every component of the index step is `-1`, `0` or `+1`, and the component of the
winning axis is not `0`. -/
theorem goWin_unit (EPS_V : ℚ) (d : Nat → ℚ) (Edge : Fin 3 → ℚ) (s : Walk) :
    (∀ n, (s.goWin EPS_V d Edge).1 n = -1 ∨ (s.goWin EPS_V d Edge).1 n = 0 ∨
      (s.goWin EPS_V d Edge).1 n = 1) ∧
    (s.goWin EPS_V d Edge).1 (ordCascade (s.stest EPS_V d Edge) 0) ≠ 0 := by
  obtain ⟨g0, g1, g2⟩ := goWin_steps d s.FB s.IND s.Iam0 Edge (vsign d s.FB)
    (s.stest EPS_V d Edge) (ordCascade (s.stest EPS_V d Edge))
    (ordCascade_bijective (s.stest EPS_V d Edge)).1
  have hv := vsign_cases d s.FB
  constructor
  · intro n
    obtain ⟨k, rfl⟩ := (ordCascade_bijective (s.stest EPS_V d Edge)).2 n
    have aux : ∀ (x a : Int) (c : Prop) [Decidable c], x = (if c then a else 0) →
        x = a ∨ x = 0 := by
      intro x a c _ h
      split at h
      · exact Or.inl h
      · exact Or.inr h
    have hk : ∀ m : Fin 3,
        (s.goWin EPS_V d Edge).1 (ordCascade (s.stest EPS_V d Edge) m)
          = vsign d s.FB (ordCascade (s.stest EPS_V d Edge) m) ∨
        (s.goWin EPS_V d Edge).1 (ordCascade (s.stest EPS_V d Edge) m) = 0 := by
      intro m
      have hm : m = 0 ∨ m = 1 ∨ m = 2 := by
        fin_cases m <;> simp
      rcases hm with rfl | rfl | rfl
      · exact Or.inl g0
      · exact aux _ _ _ g1
      · exact aux _ _ _ g2
    rcases hk k with h | h
    · rw [h]
      rcases hv (ordCascade (s.stest EPS_V d Edge) k) with h1 | h1
      · exact Or.inr (Or.inr h1)
      · exact Or.inl h1
    · exact Or.inr (Or.inl h)
  · unfold Walk.goWin
    rw [g0]
    rcases hv (ordCascade (s.stest EPS_V d Edge) 0) with h1 | h1 <;> rw [h1] <;> decide

/-- Two voxels are neighbours: different, and at most `1` apart on each axis. -/
theorem step_neighbour (a go : Fin 3 → Int) (k : Fin 3)
    (hgo : ∀ n, go n = -1 ∨ go n = 0 ∨ go n = 1) (hk : go k ≠ 0) :
    a ≠ (fun n => a n + go n) ∧ ∀ n, |(fun n => a n + go n) n - a n| ≤ 1 := by
  constructor
  · intro h
    have := congrFun h k
    simp only at this
    omega
  · intro n
    simp only [add_sub_cancel_left]
    rcases hgo n with h | h | h <;> rw [h] <;> decide

/-- Loop invariant behind C29: consecutive recorded rows are neighbours, and while the
stored alignment is positive the current voxel is a neighbour of the last row. -/
theorem loopT_neighbours (EPS_V : ℚ) (CC : Field) (Edge : Fin 3 → ℚ) (dim : Fin 3 → Int)
    (minFA maxAng : ℚ) (arrMax : Int) (hAng : 0 < maxAng) (fuel : Nat) (s : Walk)
    (h1 : ∀ i, 1 ≤ i → i < s.tracL →
      s.T (i - 1) ≠ s.T i ∧ ∀ n, |s.T i n - s.T (i - 1) n| ≤ 1)
    (h2 : 1 ≤ s.tracL → 0 < s.dotprod →
      s.T (s.tracL - 1) ≠ s.IND ∧ ∀ n, |s.IND n - s.T (s.tracL - 1) n| ≤ 1) :
    ∀ i, 1 ≤ i → i < (loopT EPS_V CC Edge dim minFA maxAng arrMax fuel s).tracL →
      (loopT EPS_V CC Edge dim minFA maxAng arrMax fuel s).T (i - 1)
        ≠ (loopT EPS_V CC Edge dim minFA maxAng arrMax fuel s).T i ∧
      ∀ n, |(loopT EPS_V CC Edge dim minFA maxAng arrMax fuel s).T i n
        - (loopT EPS_V CC Edge dim minFA maxAng arrMax fuel s).T (i - 1) n| ≤ 1 := by
  have key := loopT_invariant EPS_V CC Edge dim minFA maxAng arrMax
    (fun s => (∀ i, 1 ≤ i → i < s.tracL →
        s.T (i - 1) ≠ s.T i ∧ ∀ n, |s.T i n - s.T (i - 1) n| ≤ 1) ∧
      (1 ≤ s.tracL → 0 < s.dotprod →
        s.T (s.tracL - 1) ≠ s.IND ∧ ∀ n, |s.IND n - s.T (s.tracL - 1) n| ≤ 1))
    (by
      rintro s ⟨g1, g2⟩ hc
      have hd : 0 < s.dotprod := lt_of_lt_of_le hAng (condT_dotprod _ _ _ _ _ hc)
      constructor
      · intro i hi1 hi2
        rw [bodyT_tracL] at hi2
        rw [bodyT_T]
        by_cases hi : i = s.tracL
        · subst hi
          rw [Function.update_same, Function.update_noteq (by omega)]
          exact g2 hi1 hd
        · rw [Function.update_noteq hi, Function.update_noteq (by omega)]
          exact g1 i hi1 (by omega)
      · intro _ hpos
        rw [bodyT_tracL, bodyT_T]
        have e : s.tracL + 1 - 1 = s.tracL := by omega
        rw [e, Function.update_same]
        by_cases hw : walkback (s.stest EPS_V (CC.at s.IND) Edge) = true
        · rw [bodyT_walkback EPS_V CC Edge dim s hw] at hpos
          exact absurd hpos (lt_irrefl _)
        · have hw : walkback (s.stest EPS_V (CC.at s.IND) Edge) = false := by simpa using hw
          by_cases hg : inGrid dim (s.nextIND EPS_V (CC.at s.IND) Edge) = true
          · rw [(bodyT_inside_fields EPS_V CC Edge dim s hw hg).1]
            obtain ⟨u1, u2⟩ := goWin_unit EPS_V (CC.at s.IND) Edge s
            exact step_neighbour s.IND (s.goWin EPS_V (CC.at s.IND) Edge).1 _ u1 u2
          · have hg : inGrid dim (s.nextIND EPS_V (CC.at s.IND) Edge) = false := by
              simpa using hg
            rw [bodyT_outside EPS_V CC Edge dim s hw hg] at hpos
            exact absurd hpos (lt_irrefl _))
    fuel s ⟨h1, h2⟩
  exact key.1

/-- C29: in every `TrackIt` iteration each component of the index step `go` is in
`{-1,0,+1}` and the component of the winning axis `ord[0]` is nonzero; consequently, for
`maxAng > 0`, any two consecutive recorded voxels `T[i-1]`, `T[i]` are distinct and
differ by at most `1` on each axis, in the state in which the loop is left and in what
a returning call hands back. -/
theorem TrackIt_path_connected (EPS_V : ℚ) (CC : Field) (IND : Fin 3 → Int)
    (PHYSIND Edge : Fin 3 → ℚ) (dim : Fin 3 → Int) (minFA maxAng : ℚ) (arrMax : Int)
    (T : Nat → Fin 3 → Int) (flT : Nat → Fin 3 → ℚ) (FB : Int) (hAng : 0 < maxAng) :
    (∀ s : Walk,
      (∀ n, (s.goWin EPS_V (CC.at s.IND) Edge).1 n = -1 ∨
        (s.goWin EPS_V (CC.at s.IND) Edge).1 n = 0 ∨
        (s.goWin EPS_V (CC.at s.IND) Edge).1 n = 1) ∧
      (s.goWin EPS_V (CC.at s.IND) Edge).1
        (ordCascade (s.stest EPS_V (CC.at s.IND) Edge) 0) ≠ 0) ∧
    (∀ i, 1 ≤ i →
      i < (walkT EPS_V CC IND PHYSIND Edge dim minFA maxAng arrMax T flT FB).tracL →
      (walkT EPS_V CC IND PHYSIND Edge dim minFA maxAng arrMax T flT FB).T (i - 1)
        ≠ (walkT EPS_V CC IND PHYSIND Edge dim minFA maxAng arrMax T flT FB).T i ∧
      ∀ n, |(walkT EPS_V CC IND PHYSIND Edge dim minFA maxAng arrMax T flT FB).T i n
        - (walkT EPS_V CC IND PHYSIND Edge dim minFA maxAng arrMax T flT FB).T (i - 1) n| ≤ 1) ∧
    (∀ r, TrackIt EPS_V CC IND PHYSIND Edge dim minFA maxAng arrMax T flT FB = some r →
      ∀ i, 1 ≤ i → i < r.tracL →
        r.T (i - 1) ≠ r.T i ∧ ∀ n, |r.T i n - r.T (i - 1) n| ≤ 1) := by
  have key := loopT_neighbours EPS_V CC Edge dim minFA maxAng arrMax hAng arrMax.toNat
    (initWalk IND PHYSIND T flT FB)
    (by intro i _ hi; simp [initWalk] at hi) (by intro h; simp [initWalk] at h)
  refine ⟨fun s => goWin_unit EPS_V (CC.at s.IND) Edge s, key, ?_⟩
  intro r hr
  obtain ⟨e1, _, e3, _⟩ := TrackIt_eq_some _ _ _ _ _ _ _ _ _ _ _ _ r hr
  rw [e1, e3]
  exact key

theorem TrackIt_path_connected_witness :
    ((0 : ℚ) < 1 / 2) ∧
    ∀ r, TrackIt (1 / 1000000) uniformX ![0, 5, 5] ![1 / 2, 11 / 2, 11 / 2] ![1, 1, 1]
        ![10, 10, 10] (1 / 5) (1 / 2) 100 T0 flT0 1 = some r →
      ∀ i, 1 ≤ i → i < r.tracL →
        r.T (i - 1) ≠ r.T i ∧ ∀ n, |r.T i n - r.T (i - 1) n| ≤ 1 :=
  ⟨by norm_num,
    (TrackIt_path_connected (1 / 1000000) uniformX ![0, 5, 5] ![1 / 2, 11 / 2, 11 / 2]
      ![1, 1, 1] ![10, 10, 10] (1 / 5) (1 / 2) 100 T0 flT0 1 (by norm_num)).2.2⟩

/-! ## Walkback -/

/-- When the state after `k` unfoldings still passes the loop check, the loop is left in
the state in which the unfolding from the next state ends. -/
theorem walkT_of_reached (EPS_V : ℚ) (CC : Field) (IND : Fin 3 → Int)
    (PHYSIND Edge : Fin 3 → ℚ) (dim : Fin 3 → Int) (minFA maxAng : ℚ) (arrMax : Int)
    (T : Nat → Fin 3 → Int) (flT : Nat → Fin 3 → ℚ) (FB : Int) (k : Nat)
    (hc : condT CC minFA maxAng arrMax
      (loopT EPS_V CC Edge dim minFA maxAng arrMax k (initWalk IND PHYSIND T flT FB)) = true) :
    walkT EPS_V CC IND PHYSIND Edge dim minFA maxAng arrMax T flT FB
      = loopT EPS_V CC Edge dim minFA maxAng arrMax arrMax.toNat
          (bodyT EPS_V CC Edge dim
            (loopT EPS_V CC Edge dim minFA maxAng arrMax k (initWalk IND PHYSIND T flT FB))) := by
  have e1 : loopT EPS_V CC Edge dim minFA maxAng arrMax (arrMax.toNat + (k + 1))
      (initWalk IND PHYSIND T flT FB)
      = walkT EPS_V CC IND PHYSIND Edge dim minFA maxAng arrMax T flT FB := by
    rw [loopT_add]
    exact loopT_of_cond_false _ _ _ _ _ _ _ _ _
      (walkT_cond_false EPS_V CC IND PHYSIND Edge dim minFA maxAng arrMax T flT FB)
  have e2 : loopT EPS_V CC Edge dim minFA maxAng arrMax ((k + 1) + arrMax.toNat)
      (initWalk IND PHYSIND T flT FB)
      = loopT EPS_V CC Edge dim minFA maxAng arrMax arrMax.toNat
          (bodyT EPS_V CC Edge dim
            (loopT EPS_V CC Edge dim minFA maxAng arrMax k (initWalk IND PHYSIND T flT FB))) := by
    rw [loopT_add, loopT_succ_end _ _ _ _ _ _ _ _ _ hc]
  rw [← e1, add_comm, e2]

/-- C30: in a `TrackIt` iteration (the state `s` reached after `k` iterations passes the
loop check) where some parametric distance `stest[n]` is negative, the current voxel and
position are recorded as row `tracL`, the voxel index, the position, the sign and the
accumulated length are left unchanged and the alignment is set to `0`; for `maxAng > 0`
the loop is left in that state, and `TrackIt` returns normally with that voxel as its
last path entry when the count of recorded rows, this one included, is below `arrMax`
(and takes the fatal exit otherwise). -/
theorem TrackIt_walkback_stop (EPS_V : ℚ) (CC : Field) (IND : Fin 3 → Int)
    (PHYSIND Edge : Fin 3 → ℚ) (dim : Fin 3 → Int) (minFA maxAng : ℚ) (arrMax : Int)
    (T : Nat → Fin 3 → Int) (flT : Nat → Fin 3 → ℚ) (FB : Int) (k : Nat) (s : Walk)
    (hs : s = loopT EPS_V CC Edge dim minFA maxAng arrMax k (initWalk IND PHYSIND T flT FB))
    (hc : condT CC minFA maxAng arrMax s = true)
    (hneg : ∃ n, s.stest EPS_V (CC.at s.IND) Edge n < 0) :
    (bodyT EPS_V CC Edge dim s).tracL = s.tracL + 1 ∧
    (bodyT EPS_V CC Edge dim s).T s.tracL = s.IND ∧
    (bodyT EPS_V CC Edge dim s).flT s.tracL = s.Iam0 ∧
    (bodyT EPS_V CC Edge dim s).IND = s.IND ∧
    (bodyT EPS_V CC Edge dim s).Iam0 = s.Iam0 ∧
    (bodyT EPS_V CC Edge dim s).FB = s.FB ∧
    (bodyT EPS_V CC Edge dim s).physdist = s.physdist ∧
    (bodyT EPS_V CC Edge dim s).dotprod = 0 ∧
    (0 < maxAng →
      walkT EPS_V CC IND PHYSIND Edge dim minFA maxAng arrMax T flT FB
        = bodyT EPS_V CC Edge dim s ∧
      ((s.tracL : Int) + 1 < arrMax →
        TrackIt EPS_V CC IND PHYSIND Edge dim minFA maxAng arrMax T flT FB
          = some { tracL := s.tracL + 1, IND := s.IND,
                   T := Function.update s.T s.tracL s.IND,
                   flT := Function.update s.flT s.tracL s.Iam0, physL := s.physdist }) ∧
      (arrMax ≤ (s.tracL : Int) + 1 →
        TrackIt EPS_V CC IND PHYSIND Edge dim minFA maxAng arrMax T flT FB = none)) := by
  have hw : walkback (s.stest EPS_V (CC.at s.IND) Edge) = true :=
    (walkback_eq_true_iff _).mpr hneg
  have hb := bodyT_walkback EPS_V CC Edge dim s hw
  have hfields : (bodyT EPS_V CC Edge dim s).tracL = s.tracL + 1 ∧
      (bodyT EPS_V CC Edge dim s).T s.tracL = s.IND ∧
      (bodyT EPS_V CC Edge dim s).flT s.tracL = s.Iam0 ∧
      (bodyT EPS_V CC Edge dim s).IND = s.IND ∧
      (bodyT EPS_V CC Edge dim s).Iam0 = s.Iam0 ∧
      (bodyT EPS_V CC Edge dim s).FB = s.FB ∧
      (bodyT EPS_V CC Edge dim s).physdist = s.physdist ∧
      (bodyT EPS_V CC Edge dim s).dotprod = 0 := by
    rw [hb]
    refine ⟨rfl, ?_, ?_, rfl, rfl, rfl, rfl, rfl⟩
    · exact Function.update_same _ _ _
    · exact Function.update_same _ _ _
  obtain ⟨f1, f2, f3, f4, f5, f6, f7, f8⟩ := hfields
  refine ⟨f1, f2, f3, f4, f5, f6, f7, f8, ?_⟩
  intro hAng
  have hw0 : walkT EPS_V CC IND PHYSIND Edge dim minFA maxAng arrMax T flT FB
      = bodyT EPS_V CC Edge dim s := by
    rw [walkT_of_reached EPS_V CC IND PHYSIND Edge dim minFA maxAng arrMax T flT FB k
      (by rw [← hs]; exact hc), ← hs]
    exact loopT_of_cond_false _ _ _ _ _ _ _ _ _
      (condT_false_of_dotprod_zero CC minFA maxAng arrMax _ hAng f8)
  refine ⟨hw0, ?_, ?_⟩
  · intro hlt
    have h := TrackIt_of_lt EPS_V CC IND PHYSIND Edge dim minFA maxAng arrMax T flT FB
      (by rw [hw0, f1]; push_cast; exact hlt)
    rw [h, hw0, hb]
    rfl
  · intro hge
    rw [TrackIt_eq_none_iff, hw0, f1]
    push_cast
    exact hge

theorem TrackIt_walkback_stop_witness :
    ∃ n, (initWalk ![0, 5, 5] ![3 / 2, 11 / 2, 11 / 2] T0 flT0 1).stest (1 / 1000000)
        (uniformX.at ![0, 5, 5]) ![1, 1, 1] n < 0 ∧
      TrackIt (1 / 1000000) uniformX ![0, 5, 5] ![3 / 2, 11 / 2, 11 / 2] ![1, 1, 1]
          ![10, 10, 10] (1 / 5) (1 / 2) 100 T0 flT0 1
        = some { tracL := 1, IND := ![0, 5, 5],
                 T := Function.update T0 0 ![0, 5, 5],
                 flT := Function.update flT0 0 ![3 / 2, 11 / 2, 11 / 2], physL := 0 } := by
  have hneg : (initWalk ![0, 5, 5] ![3 / 2, 11 / 2, 11 / 2] T0 flT0 1).stest (1 / 1000000)
      (uniformX.at ![0, 5, 5]) ![1, 1, 1] 0 < 0 := by
    norm_num [Walk.stest, stest, targedge, divid, vsign, uniformX, Field.at, initWalk]
  have hc : condT uniformX (1 / 5) (1 / 2) 100
      (initWalk ![0, 5, 5] ![3 / 2, 11 / 2, 11 / 2] T0 flT0 1) = true := by
    simp only [condT, initWalk, Bool.and_eq_true, decide_eq_true_eq, ge_iff_le]
    exact ⟨⟨by norm_num, by norm_num [uniformX, Field.at]⟩, by norm_num⟩
  have h := (TrackIt_walkback_stop (1 / 1000000) uniformX ![0, 5, 5]
    ![3 / 2, 11 / 2, 11 / 2] ![1, 1, 1] ![10, 10, 10] (1 / 5) (1 / 2) 100 T0 flT0 1 0
    (initWalk ![0, 5, 5] ![3 / 2, 11 / 2, 11 / 2] T0 flT0 1) rfl hc ⟨0, hneg⟩).2.2.2.2.2.2.2.2
    (by norm_num)
  refine ⟨0, hneg, ?_⟩
  rw [h.2.1 (by norm_num [initWalk])]
  rfl

/-! ## The stepped axes -/

/-- The three outcomes of `goWin`, for an order `ord` that is a permutation: a step
along `ord 0` alone, along `ord 0` and `ord 1`, or along all three axes, each with its
advancing axis and the entering-side tests that were passed. -/
theorem goWin_cases (d : Nat → ℚ) (FB : Int) (IND : Fin 3 → Int) (Iam0 Edge : Fin 3 → ℚ)
    (vs : Fin 3 → Int) (st : Fin 3 → ℚ) (ord : Fin 3 → Fin 3)
    (hord : Function.Injective ord) :
    ((goWin d FB IND Iam0 Edge vs st ord).2 = ord 0 ∧
      (goWin d FB IND Iam0 Edge vs st ord).1 (ord 0) = vs (ord 0) ∧
      (goWin d FB IND Iam0 Edge vs st ord).1 (ord 1) = 0 ∧
      (goWin d FB IND Iam0 Edge vs st ord).1 (ord 2) = 0) ∨
    ((goWin d FB IND Iam0 Edge vs st ord).2 = ord 1 ∧
      (goWin d FB IND Iam0 Edge vs st ord).1 (ord 0) = vs (ord 0) ∧
      (goWin d FB IND Iam0 Edge vs st ord).1 (ord 1) = vs (ord 1) ∧
      (goWin d FB IND Iam0 Edge vs st ord).1 (ord 2) = 0 ∧
      entersCorridor (vs (ord 0))
        (Iam0 (ord 0) + st (ord 1) * (FB : ℚ) * d (ord 0)
          - ((IND (ord 0) + vs (ord 0) : Int) : ℚ) * Edge (ord 0)) (Edge (ord 0)) = true) ∨
    ((goWin d FB IND Iam0 Edge vs st ord).2 = ord 2 ∧
      (goWin d FB IND Iam0 Edge vs st ord).1 (ord 0) = vs (ord 0) ∧
      (goWin d FB IND Iam0 Edge vs st ord).1 (ord 1) = vs (ord 1) ∧
      (goWin d FB IND Iam0 Edge vs st ord).1 (ord 2) = vs (ord 2) ∧
      entersCorridor (vs (ord 0))
        (Iam0 (ord 0) + st (ord 2) * (FB : ℚ) * d (ord 0)
          - ((IND (ord 0) + vs (ord 0) : Int) : ℚ) * Edge (ord 0)) (Edge (ord 0)) = true ∧
      entersCorridor (vs (ord 1))
        (Iam0 (ord 1) + st (ord 2) * (FB : ℚ) * d (ord 1)
          - ((IND (ord 1) + vs (ord 1) : Int) : ℚ) * Edge (ord 1)) (Edge (ord 1)) = true) := by
  have h01 : ord 0 ≠ ord 1 := fun h => absurd (hord h) (by decide)
  have h10 : ord 1 ≠ ord 0 := fun h => absurd (hord h) (by decide)
  have h02 : ord 0 ≠ ord 2 := fun h => absurd (hord h) (by decide)
  have h20 : ord 2 ≠ ord 0 := fun h => absurd (hord h) (by decide)
  have h12 : ord 1 ≠ ord 2 := fun h => absurd (hord h) (by decide)
  have h21 : ord 2 ≠ ord 1 := fun h => absurd (hord h) (by decide)
  simp only [goWin, Function.update_same, Function.update_noteq h01]
  split_ifs <;>
    simp_all [Function.update_same, Function.update_noteq h01, Function.update_noteq h10,
      Function.update_noteq h02, Function.update_noteq h20, Function.update_noteq h12,
      Function.update_noteq h21]

theorem fin3_cases (j : Fin 3) : j = 0 ∨ j = 1 ∨ j = 2 := by
  fin_cases j <;> simp

/-- C32: in one `TrackIt` iteration the stepped axes form a prefix of the distance
order `ord`: `ord[0]` always steps, `ord[2]` steps only if `ord[1]` steps, and the axis
`win` whose distance advances the position and the length is the last axis of that
prefix, whose distance is the largest among the stepped axes. -/
theorem TrackIt_stepped_axes (EPS_V : ℚ) (CC : Field) (Edge : Fin 3 → ℚ) (s : Walk)
    (st : Fin 3 → ℚ) (ord : Fin 3 → Fin 3) (go : Fin 3 → Int) (win : Fin 3)
    (hst : st = s.stest EPS_V (CC.at s.IND) Edge) (hord : ord = ordCascade st)
    (hgo : go = (s.goWin EPS_V (CC.at s.IND) Edge).1)
    (hwin : win = (s.goWin EPS_V (CC.at s.IND) Edge).2) :
    go (ord 0) ≠ 0 ∧
    (go (ord 1) ≠ 0 → go (ord 0) ≠ 0) ∧
    (go (ord 2) ≠ 0 → go (ord 1) ≠ 0) ∧
    (∃ k : Fin 3, win = ord k ∧ ∀ j : Fin 3, (go (ord j) ≠ 0 ↔ j ≤ k)) ∧
    (∀ n : Fin 3, go n ≠ 0 → st n ≤ st win) ∧
    (s.nextIam0 EPS_V (CC.at s.IND) Edge
      = fun n => s.Iam0 n + st win * (s.FB : ℚ) * CC.at s.IND n) ∧
    s.nextPhysdist EPS_V (CC.at s.IND) Edge = s.physdist + st win := by
  subst hst hord hgo hwin
  have hbij := ordCascade_bijective (s.stest EPS_V (CC.at s.IND) Edge)
  obtain ⟨a01, a12⟩ := ordCascade_ascending (s.stest EPS_V (CC.at s.IND) Edge)
  have hv : ∀ n, vsign (CC.at s.IND) s.FB n ≠ 0 := by
    intro n
    rcases vsign_cases (CC.at s.IND) s.FB n with h | h <;> rw [h] <;> decide
  have hpre : ∃ k : Fin 3,
      (s.goWin EPS_V (CC.at s.IND) Edge).2 = ordCascade (s.stest EPS_V (CC.at s.IND) Edge) k ∧
      ∀ j : Fin 3, ((s.goWin EPS_V (CC.at s.IND) Edge).1
        (ordCascade (s.stest EPS_V (CC.at s.IND) Edge) j) ≠ 0 ↔ j ≤ k) := by
    rcases goWin_cases (CC.at s.IND) s.FB s.IND s.Iam0 Edge (vsign (CC.at s.IND) s.FB)
      (s.stest EPS_V (CC.at s.IND) Edge) (ordCascade (s.stest EPS_V (CC.at s.IND) Edge))
      hbij.1 with ⟨w, g0, g1, g2⟩ | ⟨w, g0, g1, g2, _⟩ | ⟨w, g0, g1, g2, _, _⟩
    · refine ⟨0, w, ?_⟩
      intro j
      unfold Walk.goWin
      rcases fin3_cases j with rfl | rfl | rfl
      · rw [g0]; exact ⟨fun _ => le_refl _, fun _ => hv _⟩
      · rw [g1]; exact ⟨fun h => absurd rfl h, fun h => absurd h (by decide)⟩
      · rw [g2]; exact ⟨fun h => absurd rfl h, fun h => absurd h (by decide)⟩
    · refine ⟨1, w, ?_⟩
      intro j
      unfold Walk.goWin
      rcases fin3_cases j with rfl | rfl | rfl
      · rw [g0]; exact ⟨fun _ => by decide, fun _ => hv _⟩
      · rw [g1]; exact ⟨fun _ => le_refl _, fun _ => hv _⟩
      · rw [g2]; exact ⟨fun h => absurd rfl h, fun h => absurd h (by decide)⟩
    · refine ⟨2, w, ?_⟩
      intro j
      unfold Walk.goWin
      rcases fin3_cases j with rfl | rfl | rfl
      · rw [g0]; exact ⟨fun _ => by decide, fun _ => hv _⟩
      · rw [g1]; exact ⟨fun _ => by decide, fun _ => hv _⟩
      · rw [g2]; exact ⟨fun _ => le_refl _, fun _ => hv _⟩
  obtain ⟨k, hk, hj⟩ := hpre
  have hmono : ∀ j : Fin 3, j ≤ k →
      s.stest EPS_V (CC.at s.IND) Edge (ordCascade (s.stest EPS_V (CC.at s.IND) Edge) j)
        ≤ s.stest EPS_V (CC.at s.IND) Edge (ordCascade (s.stest EPS_V (CC.at s.IND) Edge) k) := by
    intro j hjk
    rcases fin3_cases j with rfl | rfl | rfl <;> rcases fin3_cases k with rfl | rfl | rfl
    · exact le_refl _
    · exact a01
    · exact le_trans a01 a12
    · exact absurd hjk (by decide)
    · exact le_refl _
    · exact a12
    · exact absurd hjk (by decide)
    · exact absurd hjk (by decide)
    · exact le_refl _
  refine ⟨(hj 0).mpr (Fin.zero_le _), fun _ => (hj 0).mpr (Fin.zero_le _), ?_, ⟨k, hk, hj⟩,
    ?_, rfl, rfl⟩
  · intro h2
    have := (hj 2).mp h2
    exact (hj 1).mpr (le_trans (by decide) this)
  · intro n hn
    obtain ⟨j, rfl⟩ := hbij.2 n
    rw [hk]
    exact hmono j ((hj j).mp hn)

theorem TrackIt_stepped_axes_witness :
    ∃ k : Fin 3, (offCentre.goWin (1 / 1000000) (slantX.at offCentre.IND) ![1, 1, 1]).2
        = ordCascade (offCentre.stest (1 / 1000000) (slantX.at offCentre.IND) ![1, 1, 1]) k ∧
      ∀ j : Fin 3, ((offCentre.goWin (1 / 1000000) (slantX.at offCentre.IND) ![1, 1, 1]).1
        (ordCascade (offCentre.stest (1 / 1000000) (slantX.at offCentre.IND) ![1, 1, 1]) j) ≠ 0
          ↔ j ≤ k) :=
  (TrackIt_stepped_axes (1 / 1000000) slantX ![1, 1, 1] offCentre _ _ _ _ rfl rfl rfl
    rfl).2.2.2.1

/-! ## The position stays in the current voxel -/

/-- For a component of magnitude at least `EPS_V > 0`, the distance `stest[n]` takes the
position exactly to the target wall: the upper face travelling `+`, the lower face
travelling `-`. -/
theorem stest_target (EPS_V : ℚ) (d : Nat → ℚ) (FB : Int) (IND : Fin 3 → Int)
    (Iam0 Edge : Fin 3 → ℚ) (n : Fin 3) (hE : 0 < EPS_V) (hFB : FB = 1 ∨ FB = -1)
    (hbig : EPS_V ≤ |d n|) :
    (vsign d FB n = 1 ∧ 0 < (FB : ℚ) * d n ∧
      Iam0 n + stest EPS_V d FB IND Iam0 Edge n * ((FB : ℚ) * d n)
        = ((IND n : ℚ) + 1) * Edge n) ∨
    (vsign d FB n = -1 ∧ (FB : ℚ) * d n < 0 ∧
      Iam0 n + stest EPS_V d FB IND Iam0 Edge n * ((FB : ℚ) * d n)
        = (IND n : ℚ) * Edge n) := by
  obtain ⟨hp, hn⟩ := divid_sign EPS_V d FB n hE hFB
  have hdiv : divid EPS_V d FB n = (FB : ℚ) * d n := by
    unfold divid
    rw [if_neg (not_lt.mpr hbig)]
  rw [hdiv] at hp hn
  unfold stest targedge vsign
  rw [hdiv]
  by_cases hs : d n * (FB : ℚ) ≥ 0
  · left
    rw [if_pos hs, if_pos hs]
    refine ⟨rfl, hp hs, ?_⟩
    rw [div_mul_cancel₀ _ (ne_of_gt (hp hs))]
    push_cast
    ring
  · right
    rw [if_neg hs, if_neg hs]
    refine ⟨rfl, hn hs, ?_⟩
    rw [div_mul_cancel₀ _ (ne_of_lt (hn hs))]
    ring

theorem AA_le_one : AA ≤ 1 := by
  norm_num [AA, FF]

theorem BB_nonneg : 0 ≤ BB := by
  norm_num [BB, FF]

/-- One axis of a step, in numbers: `p` the position in the extent `[I*E, (I+1)*E]`,
`v` the velocity, `t` the distance that takes `p` to the target wall.  Advancing by at
most `t` stays in the voxel; advancing by `t` lands on a face of the neighbour `I + vs`;
advancing by more lands in the neighbour when the entering-side test passes. -/
theorem axis_extent (p v t E : ℚ) (I vs : Int) (hE : 0 < E)
    (hlo : (I : ℚ) * E ≤ p) (hhi : p ≤ ((I : ℚ) + 1) * E)
    (hT : (vs = 1 ∧ 0 < v ∧ p + t * v = ((I : ℚ) + 1) * E) ∨
      (vs = -1 ∧ v < 0 ∧ p + t * v = (I : ℚ) * E)) :
    0 ≤ t ∧
    (∀ σ : ℚ, 0 ≤ σ → σ ≤ t → (I : ℚ) * E ≤ p + σ * v ∧ p + σ * v ≤ ((I : ℚ) + 1) * E) ∧
    (((I + vs : Int) : ℚ) * E ≤ p + t * v ∧ p + t * v ≤ (((I + vs : Int) : ℚ) + 1) * E) ∧
    (∀ σ : ℚ, t ≤ σ → entersCorridor vs (p + σ * v - ((I + vs : Int) : ℚ) * E) E = true →
      ((I + vs : Int) : ℚ) * E ≤ p + σ * v ∧ p + σ * v ≤ (((I + vs : Int) : ℚ) + 1) * E) := by
  have hA := AA_le_one
  have hB := BB_nonneg
  rcases hT with ⟨hvs, hv, ht⟩ | ⟨hvs, hv, ht⟩
  · subst hvs
    have ht0 : 0 ≤ t := by
      by_contra hneg
      push_neg at hneg
      nlinarith
    refine ⟨ht0, ?_, ?_, ?_⟩
    · intro σ h0 h1
      constructor
      · nlinarith [mul_nonneg h0 (le_of_lt hv)]
      · nlinarith [mul_nonneg (sub_nonneg.mpr h1) (le_of_lt hv)]
    · push_cast
      constructor <;> nlinarith
    · intro σ h1 he
      have hx : p + σ * v - ((I + 1 : Int) : ℚ) * E < E * AA := by
        simpa [entersCorridor] using he
      push_cast at hx ⊢
      constructor
      · nlinarith [mul_nonneg (sub_nonneg.mpr h1) (le_of_lt hv)]
      · nlinarith [mul_le_mul_of_nonneg_left hA (le_of_lt hE)]
  · subst hvs
    have ht0 : 0 ≤ t := by
      by_contra hneg
      push_neg at hneg
      nlinarith
    refine ⟨ht0, ?_, ?_, ?_⟩
    · intro σ h0 h1
      constructor
      · nlinarith [mul_nonneg (sub_nonneg.mpr h1) (le_of_lt (neg_pos.mpr hv))]
      · nlinarith [mul_nonneg h0 (le_of_lt (neg_pos.mpr hv))]
    · push_cast
      constructor <;> nlinarith
    · intro σ h1 he
      have hx : p + σ * v - ((I + -1 : Int) : ℚ) * E > E * BB := by
        simpa [entersCorridor] using he
      push_cast at hx ⊢
      constructor
      · nlinarith [mul_nonneg (le_of_lt hE) hB]
      · nlinarith [mul_nonneg (sub_nonneg.mpr h1) (le_of_lt (neg_pos.mpr hv))]

/-- A non-walkback step keeps the position in the voxel it moves to: if the position
lies in the closed extent of the current voxel on every axis and every direction
component has magnitude at least `EPS_V > 0`, then no distance is negative and the new
position lies in the closed extent of the new voxel index, whether one, two or three
axes step. -/
theorem nextIam0_in_extent (EPS_V : ℚ) (d : Nat → ℚ) (Edge : Fin 3 → ℚ) (s : Walk)
    (hE : 0 < EPS_V) (hEdge : ∀ n, 0 < Edge n) (hFB : s.FB = 1 ∨ s.FB = -1)
    (hbig : ∀ n : Fin 3, EPS_V ≤ |d n|)
    (hpos : ∀ n, (s.IND n : ℚ) * Edge n ≤ s.Iam0 n ∧
      s.Iam0 n ≤ ((s.IND n : ℚ) + 1) * Edge n) :
    (∀ n, 0 ≤ s.stest EPS_V d Edge n) ∧
    ∀ n, ((s.nextIND EPS_V d Edge n : Int) : ℚ) * Edge n ≤ s.nextIam0 EPS_V d Edge n ∧
      s.nextIam0 EPS_V d Edge n ≤ ((s.nextIND EPS_V d Edge n : Int) : ℚ) * Edge n + Edge n := by
  have hax := fun n => axis_extent (s.Iam0 n) ((s.FB : ℚ) * d n) (s.stest EPS_V d Edge n)
    (Edge n) (s.IND n) (vsign d s.FB n) (hEdge n) (hpos n).1 (hpos n).2
    (stest_target EPS_V d s.FB s.IND s.Iam0 Edge n hE hFB (hbig n))
  have h0 : ∀ n, 0 ≤ s.stest EPS_V d Edge n := fun n => (hax n).1
  refine ⟨h0, ?_⟩
  have fin_stay : ∀ (n : Fin 3) (σ : ℚ), 0 ≤ σ → σ ≤ s.stest EPS_V d Edge n →
      ((s.IND n + 0 : Int) : ℚ) * Edge n ≤ s.Iam0 n + σ * (s.FB : ℚ) * d n ∧
      s.Iam0 n + σ * (s.FB : ℚ) * d n ≤ ((s.IND n + 0 : Int) : ℚ) * Edge n + Edge n := by
    intro n σ a b
    obtain ⟨c1, c2⟩ := (hax n).2.1 σ a b
    rw [add_zero, mul_assoc]
    exact ⟨c1, by linarith⟩
  have fin_exact : ∀ n : Fin 3,
      ((s.IND n + vsign d s.FB n : Int) : ℚ) * Edge n
        ≤ s.Iam0 n + s.stest EPS_V d Edge n * (s.FB : ℚ) * d n ∧
      s.Iam0 n + s.stest EPS_V d Edge n * (s.FB : ℚ) * d n
        ≤ ((s.IND n + vsign d s.FB n : Int) : ℚ) * Edge n + Edge n := by
    intro n
    obtain ⟨c1, c2⟩ := (hax n).2.2.1
    rw [mul_assoc]
    exact ⟨c1, by linarith⟩
  have fin_over : ∀ (n : Fin 3) (σ : ℚ), s.stest EPS_V d Edge n ≤ σ →
      entersCorridor (vsign d s.FB n)
        (s.Iam0 n + σ * (s.FB : ℚ) * d n - ((s.IND n + vsign d s.FB n : Int) : ℚ) * Edge n)
        (Edge n) = true →
      ((s.IND n + vsign d s.FB n : Int) : ℚ) * Edge n ≤ s.Iam0 n + σ * (s.FB : ℚ) * d n ∧
      s.Iam0 n + σ * (s.FB : ℚ) * d n
        ≤ ((s.IND n + vsign d s.FB n : Int) : ℚ) * Edge n + Edge n := by
    intro n σ a b
    rw [mul_assoc] at b ⊢
    obtain ⟨c1, c2⟩ := (hax n).2.2.2 σ a b
    exact ⟨c1, by linarith⟩
  have hbij := ordCascade_bijective (s.stest EPS_V d Edge)
  obtain ⟨a01, a12⟩ := ordCascade_ascending (s.stest EPS_V d Edge)
  intro n
  obtain ⟨j, rfl⟩ := hbij.2 n
  simp only [Walk.nextIND, Walk.nextIam0, Walk.goWin]
  rcases goWin_cases d s.FB s.IND s.Iam0 Edge (vsign d s.FB) (s.stest EPS_V d Edge)
    (ordCascade (s.stest EPS_V d Edge)) hbij.1 with
    ⟨w, g0, g1, g2⟩ | ⟨w, g0, g1, g2, e0⟩ | ⟨w, g0, g1, g2, e0, e1⟩
  · rw [w]
    rcases fin3_cases j with rfl | rfl | rfl
    · rw [g0]
      exact fin_exact _
    · rw [g1]
      exact fin_stay _ _ (h0 _) a01
    · rw [g2]
      exact fin_stay _ _ (h0 _) (le_trans a01 a12)
  · rw [w]
    rcases fin3_cases j with rfl | rfl | rfl
    · rw [g0]
      exact fin_over _ _ a01 e0
    · rw [g1]
      exact fin_exact _
    · rw [g2]
      exact fin_stay _ _ (h0 _) a12
  · rw [w]
    rcases fin3_cases j with rfl | rfl | rfl
    · rw [g0]
      exact fin_over _ _ (le_trans a01 a12) e0
    · rw [g1]
      exact fin_over _ _ a12 e1
    · rw [g2]
      exact fin_exact _

/-- Loop invariant behind C31: while the stored alignment is positive, the current voxel
is in the grid, the sign is `+1` or `-1` and the position lies in the closed extent of
the current voxel. -/
theorem loopT_in_extent (EPS_V : ℚ) (CC : Field) (Edge : Fin 3 → ℚ) (dim : Fin 3 → Int)
    (minFA maxAng : ℚ) (arrMax : Int) (hE : 0 < EPS_V) (hAng : 0 < maxAng)
    (hEdge : ∀ n, 0 < Edge n)
    (hmag : ∀ v, inGrid dim v = true → ∀ n : Fin 3, EPS_V ≤ |CC.at v n|)
    (fuel : Nat) (s : Walk)
    (h : 0 < s.dotprod → inGrid dim s.IND = true ∧ (s.FB = 1 ∨ s.FB = -1) ∧
      ∀ n, (s.IND n : ℚ) * Edge n ≤ s.Iam0 n ∧ s.Iam0 n ≤ ((s.IND n : ℚ) + 1) * Edge n) :
    0 < (loopT EPS_V CC Edge dim minFA maxAng arrMax fuel s).dotprod →
      inGrid dim (loopT EPS_V CC Edge dim minFA maxAng arrMax fuel s).IND = true ∧
      ((loopT EPS_V CC Edge dim minFA maxAng arrMax fuel s).FB = 1 ∨
        (loopT EPS_V CC Edge dim minFA maxAng arrMax fuel s).FB = -1) ∧
      ∀ n, ((loopT EPS_V CC Edge dim minFA maxAng arrMax fuel s).IND n : ℚ) * Edge n
          ≤ (loopT EPS_V CC Edge dim minFA maxAng arrMax fuel s).Iam0 n ∧
        (loopT EPS_V CC Edge dim minFA maxAng arrMax fuel s).Iam0 n
          ≤ (((loopT EPS_V CC Edge dim minFA maxAng arrMax fuel s).IND n : ℚ) + 1) * Edge n :=
  loopT_invariant EPS_V CC Edge dim minFA maxAng arrMax
    (fun s => 0 < s.dotprod → inGrid dim s.IND = true ∧ (s.FB = 1 ∨ s.FB = -1) ∧
      ∀ n, (s.IND n : ℚ) * Edge n ≤ s.Iam0 n ∧ s.Iam0 n ≤ ((s.IND n : ℚ) + 1) * Edge n)
    (by
      intro s hP hc hpos
      have hd : 0 < s.dotprod := lt_of_lt_of_le hAng (condT_dotprod _ _ _ _ _ hc)
      obtain ⟨hg0, hFB, hext⟩ := hP hd
      obtain ⟨hst, hnext⟩ := nextIam0_in_extent EPS_V (CC.at s.IND) Edge s hE hEdge hFB
        (hmag s.IND hg0) hext
      have hw : walkback (s.stest EPS_V (CC.at s.IND) Edge) = false :=
        (walkback_eq_false_iff _).mpr hst
      by_cases hg : inGrid dim (s.nextIND EPS_V (CC.at s.IND) Edge) = true
      · obtain ⟨eI, eF, _, eP, _⟩ := bodyT_inside_fields EPS_V CC Edge dim s hw hg
        rw [eI, eF, eP]
        refine ⟨hg, ?_, ?_⟩
        · split
          · exact Or.inr rfl
          · exact Or.inl rfl
        · intro n
          obtain ⟨c1, c2⟩ := hnext n
          exact ⟨c1, by linarith⟩
      · have hg : inGrid dim (s.nextIND EPS_V (CC.at s.IND) Edge) = false := by simpa using hg
        rw [bodyT_outside EPS_V CC Edge dim s hw hg] at hpos
        exact absurd hpos (lt_irrefl _))
    fuel s h

theorem lastVoxel_stest :
    lastVoxel.stest (1 / 1000000) (slantX.at ![1, 0, 0]) ![1, 1, 1] = ![1 / 2, 2, 2] := by
  funext n
  fin_cases n <;>
    norm_num [lastVoxel, Walk.stest, stest, targedge, divid, vsign, slantX, Field.at, initWalk,
      abs_of_pos]

theorem lastVoxel_goWin :
    lastVoxel.goWin (1 / 1000000) (slantX.at ![1, 0, 0]) ![1, 1, 1] = (![1, 0, 0], 0) := by
  have hv : ∀ n : Fin 3, vsign (slantX.at ![1, 0, 0]) 1 n = 1 := by
    intro n
    fin_cases n <;> norm_num [vsign, slantX, Field.at]
  have hord : ordCascade ![(1 / 2 : ℚ), 2, 2] = ![0, 1, 2] := by
    apply ordCascade_sorted
    · show (1 / 2 : ℚ) ≤ 2
      norm_num
    · exact le_refl _
  rw [Walk.goWin, lastVoxel_stest, hord]
  have hl : ∀ t : ℚ, t = 5 / 8 → leavesCorridor 1 t 1 = false := by
    intro t ht
    subst ht
    norm_num [leavesCorridor, BB, FF]
  simp only [goWin, lastVoxel, initWalk, Matrix.cons_val_zero, Matrix.cons_val_one,
    Matrix.head_cons, hv, update_zero_one]
  rw [hl _ (by norm_num [slantX, Field.at])]
  simp

/-- The first iteration from `lastVoxel` on the 2x1x1 grid of `slantX`: the walk leaves
the grid through the wall `x = 2`, the index becomes the sentinel `(0,0,0)` and the
position has `x = 2`. -/
theorem lastVoxel_first :
    (bodyT (1 / 1000000) slantX ![1, 1, 1] ![2, 1, 1] lastVoxel).IND = (fun _ => 0) ∧
    (bodyT (1 / 1000000) slantX ![1, 1, 1] ![2, 1, 1] lastVoxel).Iam0 0 = 2 ∧
    (bodyT (1 / 1000000) slantX ![1, 1, 1] ![2, 1, 1] lastVoxel).FB = 1 ∧
    (bodyT (1 / 1000000) slantX ![1, 1, 1] ![2, 1, 1] lastVoxel).dotprod = 0 ∧
    (bodyT (1 / 1000000) slantX ![1, 1, 1] ![2, 1, 1] lastVoxel).tracL = 1 := by
  have hw : walkback (lastVoxel.stest (1 / 1000000) (slantX.at lastVoxel.IND) ![1, 1, 1])
      = false := by
    show walkback (lastVoxel.stest (1 / 1000000) (slantX.at ![1, 0, 0]) ![1, 1, 1]) = false
    rw [lastVoxel_stest]
    norm_num [walkback]
  have hI : lastVoxel.nextIND (1 / 1000000) (slantX.at lastVoxel.IND) ![1, 1, 1]
      = ![2, 0, 0] := by
    show lastVoxel.nextIND (1 / 1000000) (slantX.at ![1, 0, 0]) ![1, 1, 1] = ![2, 0, 0]
    unfold Walk.nextIND
    rw [lastVoxel_goWin]
    funext n
    fin_cases n <;> simp [lastVoxel, initWalk]
  have hg : inGrid ![2, 1, 1]
      (lastVoxel.nextIND (1 / 1000000) (slantX.at lastVoxel.IND) ![1, 1, 1]) = false := by
    rw [hI]
    simp [inGrid]
  have hP : lastVoxel.nextIam0 (1 / 1000000) (slantX.at lastVoxel.IND) ![1, 1, 1] 0 = 2 := by
    show lastVoxel.nextIam0 (1 / 1000000) (slantX.at ![1, 0, 0]) ![1, 1, 1] 0 = 2
    unfold Walk.nextIam0
    rw [lastVoxel_goWin, lastVoxel_stest]
    norm_num [lastVoxel, initWalk, slantX, Field.at]
  rw [bodyT_outside (1 / 1000000) slantX ![1, 1, 1] ![2, 1, 1] lastVoxel hw hg]
  exact ⟨rfl, hP, rfl, rfl, rfl⟩

/-- C31, a failing input.  On the 2x1x1 grid of `slantX` (direction
`(1, 1/4, 1/4)`, all components at least `EPS_V = 0.000001`), unit edges, seed voxel
`(1,0,0)` with the seed position at its centre, sign `+1`, `minFA = 0.2`, `maxAng = 0`,
`arrMax = 100`: the first iteration leaves the grid, the loop check passes again
(`0 >= maxAng`), and the second iteration starts at the sentinel voxel `(0,0,0)` with
the position at `x = 2`, outside `[0,1]`; its distance on axis `0` is negative, so it
takes the walkback branch.  The comment of lines 319-321 has the walk exit at the start
of the next loop instead. -/
theorem TrackIt_position_leaves_voxel :
    ((∀ (v : Fin 3 → Int) (n : Fin 3), (1 / 1000000 : ℚ) ≤ |slantX.at v n|) ∧
      (∀ n, (lastVoxel.IND n : ℚ) * 1 ≤ lastVoxel.Iam0 n ∧
        lastVoxel.Iam0 n ≤ ((lastVoxel.IND n : ℚ) + 1) * 1) ∧
      inGrid ![2, 1, 1] lastVoxel.IND = true) ∧
    condT slantX (1 / 5) 0 100 lastVoxel = true ∧
    condT slantX (1 / 5) 0 100
      (bodyT (1 / 1000000) slantX ![1, 1, 1] ![2, 1, 1] lastVoxel) = true ∧
    ¬ ((bodyT (1 / 1000000) slantX ![1, 1, 1] ![2, 1, 1] lastVoxel).Iam0 0
      ≤ (((bodyT (1 / 1000000) slantX ![1, 1, 1] ![2, 1, 1] lastVoxel).IND 0 : ℚ) + 1) * 1) ∧
    walkback ((bodyT (1 / 1000000) slantX ![1, 1, 1] ![2, 1, 1] lastVoxel).stest (1 / 1000000)
      (slantX.at (bodyT (1 / 1000000) slantX ![1, 1, 1] ![2, 1, 1] lastVoxel).IND)
      ![1, 1, 1]) = true := by
  obtain ⟨eI, eP, eF, eD, eL⟩ := lastVoxel_first
  refine ⟨⟨fun v n => (slantX_magnitudes v n).1, ?_, ?_⟩, ?_, ?_, ?_, ?_⟩
  · intro n
    fin_cases n <;> norm_num [lastVoxel, initWalk]
  · simp [inGrid, lastVoxel, initWalk]
  · simp only [condT, lastVoxel, initWalk, Bool.and_eq_true, decide_eq_true_eq, ge_iff_le]
    exact ⟨⟨by norm_num, by norm_num [slantX, Field.at]⟩, by norm_num⟩
  · simp only [condT, eI, eD, eL, Bool.and_eq_true, decide_eq_true_eq, ge_iff_le]
    exact ⟨⟨by norm_num, by norm_num [slantX, Field.at]⟩, le_refl _⟩
  · rw [eI, eP]
    norm_num
  · rw [walkback_eq_true_iff]
    refine ⟨0, ?_⟩
    simp only [Walk.stest, stest, targedge, divid, vsign, eI, eP, eF]
    norm_num [slantX, Field.at, abs_of_pos]

/-- Position-in-voxel invariant when the loop is left after a grid exit
(`maxAng > 0`): for `EPS_V > 0`, `Edge[n] > 0`, `FB` in `{+1,-1}`, a
seed voxel inside the grid with the seed position in its closed extent on every axis,
and every direction component at every grid voxel of magnitude at least `EPS_V`: at the
start of every `TrackIt` iteration (every state reached by the loop that passes the loop
check) the position lies in the closed extent `[IND[n]*Edge[n], (IND[n]+1)*Edge[n]]` of
the current voxel on every axis, and the iteration does not take the walkback branch. -/
theorem TrackIt_position_in_voxel (EPS_V : ℚ) (CC : Field) (IND : Fin 3 → Int)
    (PHYSIND Edge : Fin 3 → ℚ) (dim : Fin 3 → Int) (minFA maxAng : ℚ) (arrMax : Int)
    (T : Nat → Fin 3 → Int) (flT : Nat → Fin 3 → ℚ) (FB : Int)
    (hE : 0 < EPS_V) (hAng : 0 < maxAng) (hEdge : ∀ n, 0 < Edge n)
    (hFB : FB = 1 ∨ FB = -1) (hSeed : ∀ n, 0 ≤ IND n ∧ IND n < dim n)
    (hPos : ∀ n, (IND n : ℚ) * Edge n ≤ PHYSIND n ∧ PHYSIND n ≤ ((IND n : ℚ) + 1) * Edge n)
    (hmag : ∀ v, inGrid dim v = true → ∀ n : Fin 3, EPS_V ≤ |CC.at v n|) (k : Nat)
    (hc : condT CC minFA maxAng arrMax
      (loopT EPS_V CC Edge dim minFA maxAng arrMax k (initWalk IND PHYSIND T flT FB)) = true) :
    (∀ n,
      ((loopT EPS_V CC Edge dim minFA maxAng arrMax k (initWalk IND PHYSIND T flT FB)).IND n : ℚ)
          * Edge n
        ≤ (loopT EPS_V CC Edge dim minFA maxAng arrMax k (initWalk IND PHYSIND T flT FB)).Iam0 n ∧
      (loopT EPS_V CC Edge dim minFA maxAng arrMax k (initWalk IND PHYSIND T flT FB)).Iam0 n
        ≤ (((loopT EPS_V CC Edge dim minFA maxAng arrMax k
            (initWalk IND PHYSIND T flT FB)).IND n : ℚ) + 1) * Edge n) ∧
    inGrid dim
      (loopT EPS_V CC Edge dim minFA maxAng arrMax k (initWalk IND PHYSIND T flT FB)).IND
        = true ∧
    walkback
      ((loopT EPS_V CC Edge dim minFA maxAng arrMax k (initWalk IND PHYSIND T flT FB)).stest
        EPS_V
        (CC.at (loopT EPS_V CC Edge dim minFA maxAng arrMax k
          (initWalk IND PHYSIND T flT FB)).IND) Edge) = false := by
  have hd := lt_of_lt_of_le hAng (condT_dotprod _ _ _ _ _ hc)
  obtain ⟨hg, hF, hext⟩ := loopT_in_extent EPS_V CC Edge dim minFA maxAng arrMax hE hAng hEdge
    hmag k (initWalk IND PHYSIND T flT FB)
    (fun _ => ⟨(inGrid_iff dim IND).mpr hSeed, hFB, hPos⟩) hd
  refine ⟨hext, hg, ?_⟩
  exact (walkback_eq_false_iff _).mpr
    (nextIam0_in_extent EPS_V _ Edge _ hE hEdge hF (hmag _ hg) hext).1

theorem TrackIt_position_in_voxel_witness :
    walkback
      ((loopT (1 / 1000000) slantX ![1, 1, 1] ![2, 1, 1] (1 / 5) (1 / 2) 100 1
        (initWalk ![0, 0, 0] ![1 / 2, 1 / 2, 1 / 2] T0 flT0 1)).stest (1 / 1000000)
        (slantX.at (loopT (1 / 1000000) slantX ![1, 1, 1] ![2, 1, 1] (1 / 5) (1 / 2) 100 1
          (initWalk ![0, 0, 0] ![1 / 2, 1 / 2, 1 / 2] T0 flT0 1)).IND) ![1, 1, 1]) = false :=
  (TrackIt_position_in_voxel (1 / 1000000) slantX ![0, 0, 0] ![1 / 2, 1 / 2, 1 / 2] ![1, 1, 1]
    ![2, 1, 1] (1 / 5) (1 / 2) 100 T0 flT0 1 (by norm_num) (by norm_num)
    (by intro n; fin_cases n <;> norm_num) (Or.inl rfl)
    (by intro n; fin_cases n <;> simp)
    (by intro n; fin_cases n <;> norm_num)
    (fun v _ n => (slantX_magnitudes v n).1) 1 (by decide!)).2.2

/-! ## Step bound and fatal exit -/

/-- C33: for `maxAng > 0` and a seed voxel inside the grid, the number of steps
`TrackIt` records never exceeds the number of voxels `dim[0]*dim[1]*dim[2]`; hence if
`arrMax > dim[0]*dim[1]*dim[2]` the fatal exit is not taken and `TrackIt` returns. -/
theorem TrackIt_step_bound (EPS_V : ℚ) (CC : Field) (IND : Fin 3 → Int)
    (PHYSIND Edge : Fin 3 → ℚ) (dim : Fin 3 → Int) (minFA maxAng : ℚ) (arrMax : Int)
    (T : Nat → Fin 3 → Int) (flT : Nat → Fin 3 → ℚ) (FB : Int) (hAng : 0 < maxAng)
    (hSeed : ∀ n, 0 ≤ IND n ∧ IND n < dim n) :
    ((walkT EPS_V CC IND PHYSIND Edge dim minFA maxAng arrMax T flT FB).tracL : Int)
      ≤ dim 0 * dim 1 * dim 2 ∧
    (∀ r, TrackIt EPS_V CC IND PHYSIND Edge dim minFA maxAng arrMax T flT FB = some r →
      (r.tracL : Int) ≤ dim 0 * dim 1 * dim 2) ∧
    (dim 0 * dim 1 * dim 2 < arrMax →
      TrackIt EPS_V CC IND PHYSIND Edge dim minFA maxAng arrMax T flT FB ≠ none ∧
      ∃ r, TrackIt EPS_V CC IND PHYSIND Edge dim minFA maxAng arrMax T flT FB = some r ∧
        (r.tracL : Int) ≤ dim 0 * dim 1 * dim 2) := by
  have hle := walkT_tracL_le EPS_V CC IND PHYSIND Edge dim minFA maxAng arrMax T flT FB hAng
    hSeed
  have hcast : (((dim 0).toNat * (dim 1).toNat * (dim 2).toNat : Nat) : Int)
      = dim 0 * dim 1 * dim 2 := by
    push_cast
    rw [Int.toNat_of_nonneg (by have := hSeed 0; omega),
      Int.toNat_of_nonneg (by have := hSeed 1; omega),
      Int.toNat_of_nonneg (by have := hSeed 2; omega)]
  have hb : ((walkT EPS_V CC IND PHYSIND Edge dim minFA maxAng arrMax T flT FB).tracL : Int)
      ≤ dim 0 * dim 1 * dim 2 := by
    rw [← hcast]
    exact_mod_cast hle
  refine ⟨hb, ?_, ?_⟩
  · intro r hr
    rw [(TrackIt_eq_some _ _ _ _ _ _ _ _ _ _ _ _ r hr).1]
    exact hb
  · intro hlt
    have h := TrackIt_of_lt EPS_V CC IND PHYSIND Edge dim minFA maxAng arrMax T flT FB
      (lt_of_le_of_lt hb hlt)
    refine ⟨?_, _, h, hb⟩
    rw [h]
    exact Option.some_ne_none _

theorem TrackIt_step_bound_witness :
    ((0 : ℚ) < 1 / 2 ∧
      ∀ n, 0 ≤ (![0, 5, 5] : Fin 3 → Int) n ∧
        (![0, 5, 5] : Fin 3 → Int) n < (![10, 10, 10] : Fin 3 → Int) n) ∧
    ∃ r, TrackIt (1 / 1000000) uniformX ![0, 5, 5] ![1 / 2, 11 / 2, 11 / 2] ![1, 1, 1]
        ![10, 10, 10] (1 / 5) (1 / 2) 1001 T0 flT0 1 = some r ∧
      (r.tracL : Int) ≤ (![10, 10, 10] : Fin 3 → Int) 0 * (![10, 10, 10] : Fin 3 → Int) 1
        * (![10, 10, 10] : Fin 3 → Int) 2 :=
  have hS : ∀ n, 0 ≤ (![0, 5, 5] : Fin 3 → Int) n ∧
      (![0, 5, 5] : Fin 3 → Int) n < (![10, 10, 10] : Fin 3 → Int) n := by
    intro n
    fin_cases n <;> simp
  ⟨⟨by norm_num, hS⟩,
    ((TrackIt_step_bound (1 / 1000000) uniformX ![0, 5, 5] ![1 / 2, 11 / 2, 11 / 2] ![1, 1, 1]
      ![10, 10, 10] (1 / 5) (1 / 2) 1001 T0 flT0 1 (by norm_num) hS).2.2
      (by norm_num)).2⟩

/-- The step counter never passes `arrMax` (or stays `0` when `arrMax` is negative). -/
theorem walkT_tracL_le_arrMax (EPS_V : ℚ) (CC : Field) (IND : Fin 3 → Int)
    (PHYSIND Edge : Fin 3 → ℚ) (dim : Fin 3 → Int) (minFA maxAng : ℚ) (arrMax : Int)
    (T : Nat → Fin 3 → Int) (flT : Nat → Fin 3 → ℚ) (FB : Int) :
    ((walkT EPS_V CC IND PHYSIND Edge dim minFA maxAng arrMax T flT FB).tracL : Int)
      ≤ max arrMax 0 :=
  loopT_invariant EPS_V CC Edge dim minFA maxAng arrMax
    (fun s => (s.tracL : Int) ≤ max arrMax 0)
    (by
      intro s _ hc
      have h := condT_tracL _ _ _ _ _ hc
      rw [bodyT_tracL]
      push_cast
      exact le_trans (by omega) (le_max_left arrMax 0))
    arrMax.toNat (initWalk IND PHYSIND T flT FB)
    (by
      show ((0 : Nat) : Int) ≤ max arrMax 0
      exact le_max_right _ _)

/-- C34: `TrackIt` takes the fatal exit exactly when the step count with which the loop
is left is at least `arrMax`, whatever made the loop stop; that count never passes
`arrMax` (for `arrMax >= 0`); every normal return has a step count strictly below
`arrMax`, so a path of exactly `arrMax` voxels is never returned; and `arrMax <= 0`
always takes the fatal exit. -/
theorem TrackIt_fatal_exit (EPS_V : ℚ) (CC : Field) (IND : Fin 3 → Int)
    (PHYSIND Edge : Fin 3 → ℚ) (dim : Fin 3 → Int) (minFA maxAng : ℚ) (arrMax : Int)
    (T : Nat → Fin 3 → Int) (flT : Nat → Fin 3 → ℚ) (FB : Int) :
    (TrackIt EPS_V CC IND PHYSIND Edge dim minFA maxAng arrMax T flT FB = none ↔
      arrMax ≤ (walkT EPS_V CC IND PHYSIND Edge dim minFA maxAng arrMax T flT FB).tracL) ∧
    ((walkT EPS_V CC IND PHYSIND Edge dim minFA maxAng arrMax T flT FB).tracL : Int)
      ≤ max arrMax 0 ∧
    (∀ r, TrackIt EPS_V CC IND PHYSIND Edge dim minFA maxAng arrMax T flT FB = some r →
      (r.tracL : Int) < arrMax ∧ (r.tracL : Int) ≠ arrMax ∧
      r.tracL = (walkT EPS_V CC IND PHYSIND Edge dim minFA maxAng arrMax T flT FB).tracL) ∧
    (arrMax ≤ 0 →
      TrackIt EPS_V CC IND PHYSIND Edge dim minFA maxAng arrMax T flT FB = none) := by
  refine ⟨TrackIt_eq_none_iff _ _ _ _ _ _ _ _ _ _ _ _,
    walkT_tracL_le_arrMax _ _ _ _ _ _ _ _ _ _ _ _, ?_, ?_⟩
  · intro r hr
    obtain ⟨e1, _, _, _, _, e6⟩ := TrackIt_eq_some _ _ _ _ _ _ _ _ _ _ _ _ r hr
    exact ⟨e6, ne_of_lt e6, e1⟩
  · intro h0
    rw [TrackIt_eq_none_iff]
    omega

/-! ## Lookup safety -/

/-- Every row index written so far is below `arrMax`. -/
theorem loopT_rows_below (EPS_V : ℚ) (CC : Field) (Edge : Fin 3 → ℚ) (dim : Fin 3 → Int)
    (minFA maxAng : ℚ) (arrMax : Int) (fuel : Nat) (s : Walk)
    (h : ∀ i, i < s.tracL → (i : Int) < arrMax) :
    ∀ i, i < (loopT EPS_V CC Edge dim minFA maxAng arrMax fuel s).tracL → (i : Int) < arrMax :=
  loopT_invariant EPS_V CC Edge dim minFA maxAng arrMax
    (fun s => ∀ i, i < s.tracL → (i : Int) < arrMax)
    (by
      intro s _ hc i hi
      have h := condT_tracL _ _ _ _ _ hc
      rw [bodyT_tracL] at hi
      omega)
    fuel s h

theorem inGrid_sentinel_of_dim (dim : Fin 3 → Int) (hdim : ∀ n, 1 ≤ dim n) :
    inGrid dim (fun _ => 0) = true := by
  rw [inGrid_iff]
  intro n
  have := hdim n
  constructor
  · exact le_refl _
  · show (0 : Int) < dim n
    omega

/-- C35: if the seed voxel is inside the grid and `dim[n] >= 1` on every axis, then in
every state `s` the loop of `TrackIt` reaches: the index `IND` of the lookups in the loop
condition and in the boundary computations is in the grid; a passed loop check has
`tracL < arrMax`, the row of `T` and `flT` that is written; in the in-grid branch the
alignment is computed from the new voxel, which is in the grid, and from `IND - go`,
which is the voxel just left; in the out-of-grid branch `IND` becomes the sentinel
`(0,0,0)`, which is in the grid; and every row written so far is below `arrMax`. -/
theorem TrackIt_lookup_safety (EPS_V : ℚ) (CC : Field) (IND : Fin 3 → Int)
    (PHYSIND Edge : Fin 3 → ℚ) (dim : Fin 3 → Int) (minFA maxAng : ℚ) (arrMax : Int)
    (T : Nat → Fin 3 → Int) (flT : Nat → Fin 3 → ℚ) (FB : Int)
    (hSeed : ∀ n, 0 ≤ IND n ∧ IND n < dim n) (hdim : ∀ n, 1 ≤ dim n) (k : Nat) (s : Walk)
    (hs : s = loopT EPS_V CC Edge dim minFA maxAng arrMax k (initWalk IND PHYSIND T flT FB)) :
    inGrid dim s.IND = true ∧
    (condT CC minFA maxAng arrMax s = true → (s.tracL : Int) < arrMax) ∧
    (walkback (s.stest EPS_V (CC.at s.IND) Edge) = false →
      inGrid dim (s.nextIND EPS_V (CC.at s.IND) Edge) = true →
      (bodyT EPS_V CC Edge dim s).IND = s.nextIND EPS_V (CC.at s.IND) Edge ∧
      (fun n => s.nextIND EPS_V (CC.at s.IND) Edge n - (s.goWin EPS_V (CC.at s.IND) Edge).1 n)
        = s.IND) ∧
    (walkback (s.stest EPS_V (CC.at s.IND) Edge) = false →
      inGrid dim (s.nextIND EPS_V (CC.at s.IND) Edge) = false →
      (bodyT EPS_V CC Edge dim s).IND = (fun _ => 0)) ∧
    inGrid dim (fun _ => 0) = true ∧
    inGrid dim (bodyT EPS_V CC Edge dim s).IND = true ∧
    (∀ i, i < s.tracL → (i : Int) < arrMax) := by
  have hg : inGrid dim s.IND = true := by
    rw [hs]
    exact (loopT_inGrid EPS_V CC Edge dim minFA maxAng arrMax k
      (initWalk IND PHYSIND T flT FB) ((inGrid_iff dim IND).mpr hSeed)
      (by intro i hi; simp [initWalk] at hi)).1
  have h0 := inGrid_sentinel_of_dim dim hdim
  refine ⟨hg, condT_tracL _ _ _ _ _, ?_, ?_, h0, ?_, ?_⟩
  · intro hw hin
    exact ⟨(bodyT_inside_fields EPS_V CC Edge dim s hw hin).1,
      nextIND_sub_go EPS_V (CC.at s.IND) Edge s⟩
  · intro hw hout
    rw [bodyT_outside EPS_V CC Edge dim s hw hout]
  · rcases bodyT_IND_cases EPS_V CC Edge dim s with h | h | h
    · rw [h]; exact hg
    · rw [h]; exact h0
    · exact h
  · rw [hs]
    exact loopT_rows_below EPS_V CC Edge dim minFA maxAng arrMax k
      (initWalk IND PHYSIND T flT FB) (by intro i hi; simp [initWalk] at hi)

theorem TrackIt_lookup_safety_witness :
    inGrid ![10, 10, 10]
      (loopT (1 / 1000000) uniformX ![1, 1, 1] ![10, 10, 10] (1 / 5) (1 / 2) 100 3
        (initWalk ![0, 5, 5] ![1 / 2, 11 / 2, 11 / 2] T0 flT0 1)).IND = true :=
  (TrackIt_lookup_safety (1 / 1000000) uniformX ![0, 5, 5] ![1 / 2, 11 / 2, 11 / 2] ![1, 1, 1]
    ![10, 10, 10] (1 / 5) (1 / 2) 100 T0 flT0 1
    (by intro n; fin_cases n <;> simp) (by intro n; fin_cases n <;> simp) 3 _ rfl).1

/-! ## The label-count check -/

/-- C36: for every sub-volume `m` with `INVROI[m] >= 0` the count `j-1` computed by the
compaction loop satisfies `j-1 <= INVROI[m]`, whatever the rows hold; so when no
`INVROI[m]` is negative (as on well-formed input, with labels in `0..INVROI[m]`) the
`ERROR_exit` branch is not taken and `ViveLeRoi` returns, with `NUMROI[m] <= INVROI[m]`
for every sub-volume. -/
theorem ViveLeRoi_check_unreachable (REF : RoiDataset) (ROILIST INVLIST : Nat → Int → Int)
    (NUMROI INVROI : Nat → Int) (hINV : ∀ m, m < REF.Nbrik → 0 ≤ INVROI m) :
    (∀ (m : Nat) (roi inv : Int → Int), m < REF.Nbrik →
      (compactRow (INVROI m).toNat roi inv).j - 1 ≤ INVROI m) ∧
    ViveLeRoi REF ROILIST INVLIST NUMROI INVROI ≠ none ∧
    ∃ res, ViveLeRoi REF ROILIST INVLIST NUMROI INVROI = some res ∧
      ∀ m, m < REF.Nbrik → res.NUMROI m ≤ INVROI m := by
  have hcount : ∀ (m : Nat) (roi inv : Int → Int), m < REF.Nbrik →
      (compactRow (INVROI m).toNat roi inv).j - 1 ≤ INVROI m := by
    intro m roi inv hm
    have hle := (compactRow_inv roi inv (INVROI m).toNat).2.1
    rw [Int.toNat_of_nonneg (hINV m hm)] at hle
    exact hle
  obtain ⟨res, hres⟩ := ViveLeRoi_returns REF ROILIST INVLIST NUMROI INVROI hINV
  refine ⟨hcount, ?_, res, hres, ?_⟩
  · rw [hres]
    exact Option.some_ne_none _
  · intro m hm
    obtain ⟨_, _, _, hN⟩ := ViveLeRoi_rows REF ROILIST INVLIST NUMROI INVROI res hres m hm
    rw [hN]
    exact hcount m _ _ hm

theorem ViveLeRoi_check_unreachable_witness :
    (∀ m, m < oneLabelTwo.Nbrik → (0 : Int) ≤ (fun _ : Nat => (2 : Int)) m) ∧
    ∃ res, ViveLeRoi oneLabelTwo zeroRows zeroRows (fun _ => 0) (fun _ => 2) = some res ∧
      ∀ m, m < oneLabelTwo.Nbrik → res.NUMROI m ≤ (fun _ : Nat => (2 : Int)) m :=
  ⟨fun _ _ => by norm_num,
    (ViveLeRoi_check_unreachable oneLabelTwo zeroRows zeroRows (fun _ => 0) (fun _ => 2)
      (fun _ _ => by norm_num)).2.2⟩

/-! ## Rounding and the angulation threshold -/

end DoTrackit
